import Mathlib

/-!
# MC-Heap: a shallow embedding of `mc_heap.c`

The allocator works on 32-bit unsigned words (`U32`).  Words are natural numbers below
`2 ^ 32`; every operation that can wrap in C is reduced modulo `2 ^ 32` explicitly.
Pointers are 32-bit addresses (the source casts them to `U32`), `0` is `NULL`.

Undefined behaviour of the C program (a read through `NULL`, an index outside an array,
a shift by 32 or more, `__builtin_clz (0)`) is the value `none` of the functions that
return an `Option`.  `ASSERT` is not part of the embedding: the functions behave as the
build without assertions does, and what an assertion would have caught shows up either as
`none` or as a wrong result.
-/

namespace MCHeap

/-! ## 32-bit arithmetic -/

/-- Addition of two `U32` values. -/
def add32 (a b : Nat) : Nat := (a + b) % 4294967296

/-- Subtraction of two `U32` values (wraps below zero). -/
def sub32 (a b : Nat) : Nat := (a + 4294967296 - b % 4294967296) % 4294967296

/-- Multiplication of two `U32` values. -/
def mul32 (a b : Nat) : Nat := (a * b) % 4294967296

/-- Left shift of a `U32` value; bits shifted out of the word are lost. -/
def shl32 (a s : Nat) : Nat := (a <<< s) % 4294967296

/-- Bitwise complement of a `U32` value. -/
def not32 (a : Nat) : Nat := 4294967295 - a % 4294967296

/-- Loop behind `CLZ`: shifts the word left until bit 31 is set. -/
def clzAux : Nat → Nat → Nat
  | 0, _ => 0
  | fuel + 1, x => if 2147483648 ≤ x then 0 else 1 + clzAux fuel (2 * x)

/-- Count of leading zero bits of a non-zero `U32` (`__builtin_clz`).  The builtin is not
defined at `0`; the value `32` chosen here is never relied upon: callers that may pass `0`
test for it first. -/
def CLZ (x : Nat) : Nat := if x = 0 then 32 else clzAux 32 x

/-- Loop behind `CTZ`: strips zero bits from the low end. -/
def ctzAux : Nat → Nat → Nat
  | 0, _ => 0
  | fuel + 1, x => if x % 2 = 1 then 0 else 1 + ctzAux fuel (x / 2)

/-- Count of trailing zero bits of a non-zero `U32` (`__builtin_ctz`).  As for `CLZ`, the
value at `0` is a convention. -/
def CTZ (x : Nat) : Nat := if x = 0 then 32 else ctzAux 32 x

/-! ## Size classes (`mc_heap.c`, lines 48-98) -/

def BASE_SIZES_COUNT : Nat := 105
def BASE_SIZE_MAX : Nat := 0xF0000000
def BASE_SIZE_MIN : Nat := 0x00000010
def MAIN_BASE_SIZE_COUNT : Nat := 7

/-- Source function `is_base_size`: the size has a single non-zero hexadecimal digit. -/
def is_base_size (size : Nat) : Bool :=
  let clz := CLZ size &&& 0x1C
  ((0xF0000000 >>> clz) &&& size) == size

/-- Source function `closest_base_size`: round up to a size class, `0` when above the largest class. -/
def closest_base_size (frm : Nat) : Nat :=
  if frm < BASE_SIZE_MIN then BASE_SIZE_MIN
  else if frm > BASE_SIZE_MAX then 0
  else
    let clz := CLZ frm &&& 0x1C
    let lsbits := 0x0FFFFFFF >>> clz
    (add32 frm lsbits) &&& (not32 lsbits)

/-- Source function `base_size_to_index`: index of a size class in the table of the 105 classes. -/
def base_size_to_index (size : Nat) : Nat :=
  let ctz := CTZ size &&& 0x1C
  let tmp := ctz >>> 2
  sub32 (add32 (sub32 (shl32 tmp 4) tmp) (size >>> ctz)) 16

/-- Source function `base_size_from_index`: the size class with a given index. -/
def base_size_from_index (index : Nat) : Nat :=
  let index_div15 := (add32 (add32 (shl32 index 7) (shl32 index 3)) index) >>> 11
  let index_rem15 := sub32 index (sub32 (shl32 index_div15 4) index_div15)
  shl32 (add32 index_rem15 1) (shl32 (add32 index_div15 1) 2)

/-- The table `base_size_list` of the unit tests (`mc_heap_test.c`, lines 205-221). -/
def base_size_list : List Nat :=
  [0x00000010,0x00000020,0x00000030,0x00000040,0x00000050,0x00000060,0x00000070,
   0x00000080,0x00000090,0x000000A0,0x000000B0,0x000000C0,0x000000D0,0x000000E0,
   0x000000F0,0x00000100,0x00000200,0x00000300,0x00000400,0x00000500,0x00000600,
   0x00000700,0x00000800,0x00000900,0x00000A00,0x00000B00,0x00000C00,0x00000D00,
   0x00000E00,0x00000F00,0x00001000,0x00002000,0x00003000,0x00004000,0x00005000,
   0x00006000,0x00007000,0x00008000,0x00009000,0x0000A000,0x0000B000,0x0000C000,
   0x0000D000,0x0000E000,0x0000F000,0x00010000,0x00020000,0x00030000,0x00040000,
   0x00050000,0x00060000,0x00070000,0x00080000,0x00090000,0x000A0000,0x000B0000,
   0x000C0000,0x000D0000,0x000E0000,0x000F0000,0x00100000,0x00200000,0x00300000,
   0x00400000,0x00500000,0x00600000,0x00700000,0x00800000,0x00900000,0x00A00000,
   0x00B00000,0x00C00000,0x00D00000,0x00E00000,0x00F00000,0x01000000,0x02000000,
   0x03000000,0x04000000,0x05000000,0x06000000,0x07000000,0x08000000,0x09000000,
   0x0A000000,0x0B000000,0x0C000000,0x0D000000,0x0E000000,0x0F000000,0x10000000,
   0x20000000,0x30000000,0x40000000,0x50000000,0x60000000,0x70000000,0x80000000,
   0x90000000,0xA0000000,0xB0000000,0xC0000000,0xD0000000,0xE0000000,0xF0000000]

/-- The class values: `m * 16 ^ (k + 1)` with `k` in `0..6` and `m` in `1..15`. -/
def IsClass (s : Nat) : Prop :=
  ∃ k m, k ≤ 6 ∧ 1 ≤ m ∧ m ≤ 15 ∧ s = m * 16 ^ (k + 1)

/-! ## Chunk status and heap state (`mc_heap.c`, lines 100-128) -/

def eSTATUS_FREE : Nat := 0x02
def eSTATUS_ALLOC : Nat := 0x00
def eSTATUS_ALLOC_HEAD : Nat := 0x01
def eSTATUS_SPLIT : Nat := 0x03
def eSTATUS_INVALID : Nat := 0xFF

def ALL_FREE : Nat := 0xAAAAAAAA
def ALL_ALLOC : Nat := 0x00000000

/-- The constant `HEADS_BITS_SIZE`, which is `(BASE_SIZES_COUNT + 31) >> 5`. -/
def HEADS_BITS_SIZE : Nat := 4

/-- The two links that overlay the first bytes of a free chunk. -/
structure chunk where
  prev : Nat
  next : Nat

/-- The heap header `struct heap_st` together with the memory it points to.

* `bitfield k` is `none` for a `NULL` pointer and `some s` for `&mem[s]`, a position in
  the bookkeeping buffer `bfmem` of `bfcnt` words that `heap_create` obtains from `malloc`;
* `heads` is the flexible array member, of `hdcnt` entries;
* `chunks a` is the content of the managed region read as a `chunk` at address `a`. -/
structure heap where
  headsbits : Nat → Nat
  bitfield : Nat → Option Nat
  hdata : Nat
  hsize : Nat
  hdcnt : Nat
  bscnt : Nat
  heads : Nat → Nat
  bfmem : Nat → Nat
  bfcnt : Nat
  chunks : Nat → chunk

/-- Store of one word. -/
def store (mem : Nat → Nat) (a v : Nat) : Nat → Nat :=
  fun x => if x = a then v else mem x

/-- The pointer `h->bitfield[lvl]`, checked for an access to its word `w`: the level is
one of the seven entries of the array, the pointer is not `NULL`, and the word lies inside
the bookkeeping buffer. -/
def bitfield_at (h : heap) (lvl w : Nat) : Option Nat :=
  if lvl < MAIN_BASE_SIZE_COUNT then
    match h.bitfield lvl with
    | some bf => if bf + w < h.bfcnt then some bf else none
    | none => none
  else none

/-- A chunk pointer that may be dereferenced: not `NULL` and inside the managed region. -/
def chunk_ok (h : heap) (c : Nat) : Bool :=
  c != 0 && decide (h.hdata ≤ c) && decide (c < h.hdata + h.hsize)

/-- Read of `c->next`. -/
def chunk_next (h : heap) (c : Nat) : Option Nat :=
  if chunk_ok h c then some (h.chunks c).next else none

/-- Read of `c->prev`. -/
def chunk_prev (h : heap) (c : Nat) : Option Nat :=
  if chunk_ok h c then some (h.chunks c).prev else none

/-- Read of `h->heads[index]`. -/
def heads_at (h : heap) (index : Nat) : Option Nat :=
  if index < h.hdcnt then some (h.heads index) else none

/-- The builtin `__builtin_clz` at a value that may be zero. -/
def clz_checked (x : Nat) : Option Nat := if x = 0 then none else some (CLZ x)

/-- The builtin `__builtin_ctz` at a value that may be zero. -/
def ctz_checked (x : Nat) : Option Nat := if x = 0 then none else some (CTZ x)

/-! ## Free-list registry lookup (`mc_heap.c`, lines 129-156) -/

/-- The part of `next_available_head_index` that follows the computation of `index`
(lines 136-155): the scan of the occupancy words from bit `index` on. -/
def next_available_head_index_from (h : heap) (index : Nat) : Option Nat :=
  let start_idx := index >>> 5
  if HEADS_BITS_SIZE ≤ start_idx then none
  else
    let x := shl32 (h.headsbits start_idx) (index &&& 0x1F)
    if x = 0 then
      let idx := shl32 start_idx 5
      if HEADS_BITS_SIZE ≤ start_idx + 1 then none
      else
        let x := h.headsbits (start_idx + 1)
        if x = 0 then
          if HEADS_BITS_SIZE ≤ start_idx + 2 then none
          else
            let x := h.headsbits (start_idx + 2)
            if x = 0 then
              if HEADS_BITS_SIZE ≤ start_idx + 3 then none
              else
                let x := h.headsbits (start_idx + 3)
                if x = 0 then none
                else some (add32 (add32 idx 96) (CLZ x))
            else some (add32 (add32 idx 64) (CLZ x))
        else some (add32 (add32 idx 32) (CLZ x))
    else some (add32 index (CLZ x))

/-- Source function `next_available_head_index`: first non-empty list at or after the class of `size`. -/
def next_available_head_index (h : heap) (size : Nat) : Option Nat :=
  let next_size := closest_base_size size
  if next_size = 0 then some BASE_SIZES_COUNT
  else next_available_head_index_from h (base_size_to_index next_size)

/-! ## Bitfield codec (`mc_heap.c`, lines 158-167 and 284-355) -/

/-- Source function `count_leading_allocs`; the argument is not zero. -/
def count_leading_allocs (bits : Nat) : Nat := CLZ bits >>> 1

/-- Source function `chunk_get_status (bf, idx)` where `bf` points at word `bf` of `mem`. -/
def chunk_get_status (mem : Nat → Nat) (bf idx : Nat) : Nat :=
  let sub := not32 idx &&& 15
  (mem (bf + (idx >>> 4)) >>> (sub <<< 1)) &&& 0x03

/-- Source function `bf_set_b11`. -/
def bf_set_b11 (mem : Nat → Nat) (bf index : Nat) : Nat → Nat :=
  let sub := index &&& 0xF
  store mem (bf + (index >>> 4)) (mem (bf + (index >>> 4)) ||| (0xC0000000 >>> (sub <<< 1)))

/-- Source function `bf_set_b00_multi`; `none` when a shift count is 32 or more, which is exactly when one
of the three assertions of the source fails. -/
def bf_set_b00_multi (mem : Nat → Nat) (bf index cnt : Nat) : Option (Nat → Nat) :=
  let sub := index &&& 0xF
  let shf := sub32 32 (shl32 cnt 1)
  if 32 ≤ shf then none
  else
    let msk := 0xFFFFFFFF >>> shf
    if 32 ≤ sub32 shf (sub <<< 1) then none
    else
      some (store mem (bf + (index >>> 4))
        (mem (bf + (index >>> 4)) &&& not32 (shl32 msk (sub32 shf (sub <<< 1)))))

/-- Source function `bf_set_bxx_multi`. -/
def bf_set_bxx_multi (mem : Nat → Nat) (bf index cnt pattern : Nat) : Option (Nat → Nat) :=
  let sub := index &&& 0xF
  let shf := sub32 32 (shl32 cnt 1)
  if 32 ≤ shf then none
  else if 32 ≤ sub32 shf (sub <<< 1) then none
  else
    let msk := shl32 (0xFFFFFFFF >>> shf) (sub32 shf (sub <<< 1))
    let idx := index >>> 4
    let bit := mem (bf + idx) &&& not32 msk
    some (store mem (bf + idx) (bit ||| (msk &&& pattern)))

/-- Source function `bf_set_b10_multi`. -/
def bf_set_b10_multi (mem : Nat → Nat) (bf index cnt : Nat) : Option (Nat → Nat) :=
  bf_set_bxx_multi mem bf index cnt 0xAAAAAAAA

/-- Source function `bf_set_b01_multi`. -/
def bf_set_b01_multi (mem : Nat → Nat) (bf index cnt : Nat) : Option (Nat → Nat) :=
  bf_set_bxx_multi mem bf index cnt 0x55555555

/-- Source function `bf_set_b01`: two stores to the same word. -/
def bf_set_b01 (mem : Nat → Nat) (bf index : Nat) : Nat → Nat :=
  let sub := index &&& 0xF
  let mem1 := store mem (bf + (index >>> 4))
    (mem (bf + (index >>> 4)) &&& not32 (0x80000000 >>> (sub <<< 1)))
  store mem1 (bf + (index >>> 4)) (mem1 (bf + (index >>> 4)) ||| (0x40000000 >>> (sub <<< 1)))

/-- Source function `bf_set_free_multi`. -/
def bf_set_free_multi (mem : Nat → Nat) (bf index cnt : Nat) : Option (Nat → Nat) :=
  bf_set_b10_multi mem bf index cnt

/-- Source function `bf_set_split`. -/
def bf_set_split (mem : Nat → Nat) (bf index : Nat) : Nat → Nat :=
  bf_set_b11 mem bf index

/-- Source function `bf_set_alloc_multi`. -/
def bf_set_alloc_multi (mem : Nat → Nat) (bf index cnt : Nat) : Option (Nat → Nat) :=
  bf_set_b00_multi mem bf index cnt

/-- Source function `bf_set_alloc_head`. -/
def bf_set_alloc_head (mem : Nat → Nat) (bf index : Nat) : Nat → Nat :=
  bf_set_b01 mem bf index

/-- Source function `bf_set_alloc_head_multi`. -/
def bf_set_alloc_head_multi (mem : Nat → Nat) (bf index cnt : Nat) : Option (Nat → Nat) :=
  bf_set_b01_multi mem bf index cnt

/-! ### The codec on the bitfield of a level of the heap -/

/-- Source function `bf_set_split (h->bitfield[lvl], index)`. -/
def heap_set_split (h : heap) (lvl index : Nat) : Option heap :=
  (bitfield_at h lvl (index >>> 4)).bind fun bf =>
    some { h with bfmem := bf_set_split h.bfmem bf index }

/-- Source function `bf_set_alloc_head (h->bitfield[lvl], index)`. -/
def heap_set_alloc_head (h : heap) (lvl index : Nat) : Option heap :=
  (bitfield_at h lvl (index >>> 4)).bind fun bf =>
    some { h with bfmem := bf_set_alloc_head h.bfmem bf index }

/-- Source function `bf_set_alloc_multi (h->bitfield[lvl], index, cnt)`. -/
def heap_set_alloc_multi (h : heap) (lvl index cnt : Nat) : Option heap :=
  (bitfield_at h lvl (index >>> 4)).bind fun bf =>
    (bf_set_alloc_multi h.bfmem bf index cnt).bind fun mem =>
      some { h with bfmem := mem }

/-- Read of the word `h->bitfield[lvl][w]`. -/
def bitfield_word (h : heap) (lvl w : Nat) : Option Nat :=
  (bitfield_at h lvl w).bind fun bf => some (h.bfmem (bf + w))

/-- Write of the word `h->bitfield[lvl][w]`. -/
def bitfield_store (h : heap) (lvl w v : Nat) : Option heap :=
  (bitfield_at h lvl w).bind fun bf => some { h with bfmem := store h.bfmem (bf + w) v }

/-- Source function `chunk_get_status (h->bitfield[lvl], idx)`. -/
def heap_chunk_status (h : heap) (lvl idx : Nat) : Option Nat :=
  (bitfield_at h lvl (idx >>> 4)).bind fun bf => some (chunk_get_status h.bfmem bf idx)

/-! ## Introspection (`mc_heap.c`, lines 169-258) -/

/-- The first loop of `heap_get_alloc_size`: from level `lvl` down, look for the level at
which the chunk of `reladdr` is an allocation head.  The result is `some none` for the
`return 0` of the loop and `some (some (lvl, shift, idx))` when the loop is left by
`break`. -/
def alloc_size_find_head (h : heap) (reladdr : Nat) :
    Nat → Nat → Option (Option (Nat × Nat × Nat))
  | 0, shift =>
    (heap_chunk_status h 0 (reladdr >>> shift)).bind fun st =>
      if st = eSTATUS_ALLOC_HEAD then some (some (0, shift, reladdr >>> shift))
      else some none
  | lvl + 1, shift =>
    (heap_chunk_status h (lvl + 1) (reladdr >>> shift)).bind fun st =>
      if st = eSTATUS_ALLOC_HEAD then some (some (lvl + 1, shift, reladdr >>> shift))
      else alloc_size_find_head h reladdr lvl (sub32 shift 4)

/-- The `while` loop of `heap_get_alloc_size`.  At level `0` the body decrements `lvl`
to `0xFFFFFFFF`, and `h->bitfield[lvl]` is then outside the array. -/
def alloc_size_tail (h : heap) (reladdr : Nat) : Nat → Nat → Nat → Nat → Nat → Option Nat
  | 0, _, idx, allocs, size =>
    (heap_chunk_status h 0 (add32 idx allocs)).bind fun st =>
      if st = eSTATUS_SPLIT then none else some size
  | lvl + 1, shift, idx, allocs, size =>
    (heap_chunk_status h (lvl + 1) (add32 idx allocs)).bind fun st =>
      if st = eSTATUS_SPLIT then
        if 32 ≤ sub32 shift 4 then none
        else
          (bitfield_word h lvl ((add32 reladdr size >>> sub32 shift 4) >>> 4)).bind fun bf =>
            (clz_checked bf).bind fun clz =>
              alloc_size_tail h reladdr lvl (sub32 shift 4) (add32 reladdr size >>> sub32 shift 4)
                (clz >>> 1) (add32 size (shl32 (clz >>> 1) (sub32 shift 4)))
      else some size

/-- Source function `heap_get_alloc_size (h, p)`. -/
def heap_get_alloc_size (h : heap) (p : Nat) : Option Nat :=
  if p < h.hdata ∨ h.hdata + h.hsize ≤ p ∨ p &&& 0x0F ≠ 0 then some 0
  else
    let reladdr := sub32 p h.hdata
    (ctz_checked p).bind fun ctz =>
      let lvl := sub32 (ctz >>> 2) 1
      let shift := shl32 (add32 lvl 1) 2
      if 32 ≤ shift then none
      else
        (alloc_size_find_head h reladdr lvl shift).bind fun r =>
          match r with
          | none => some 0
          | some (lvl, shift, idx) =>
            let sub := idx &&& 0x0F
            if sub = 15 then some (shl32 1 shift)
            else
              (bitfield_word h lvl (idx >>> 4)).bind fun w =>
                let bits := shl32 w ((sub + 1) <<< 1)
                if bits = 0 then some (shl32 (16 - sub) shift)
                else
                  let allocs := count_leading_allocs bits + 1
                  alloc_size_tail h reladdr lvl shift idx allocs (shl32 allocs shift)

/-- Source function `heap_get_address_status_priv`; the recursion climbs one level per call and stops
at the latest when `idx` leaves the array `h->bitfield`, so eight calls are the most
that a call from `heap_get_address_status` makes. -/
def heap_get_address_status_priv (h : heap) (a : Nat) : Nat → Nat → Nat → Option Nat
  | 0, _, _ => none
  | fuel + 1, idx, prev_status =>
    if 32 ≤ (idx + 1) <<< 2 then none
    else
      let index := sub32 a h.hdata >>> ((idx + 1) <<< 2)
      (heap_chunk_status h idx index).bind fun status =>
        if status = eSTATUS_FREE ∧ idx < sub32 h.bscnt 1 then
          heap_get_address_status_priv h a fuel (idx + 1) status
        else if status = eSTATUS_SPLIT then some prev_status
        else if status = eSTATUS_ALLOC_HEAD ∧
            sub32 a h.hdata &&& sub32 (shl32 16 (idx <<< 2)) 1 ≠ 0 then some eSTATUS_ALLOC
        else some status

/-- Source function `heap_get_address_status (h, a)`. -/
def heap_get_address_status (h : heap) (a : Nat) : Option Nat :=
  if a < h.hdata ∨ h.hdata + h.hsize ≤ a ∨ a &&& (BASE_SIZE_MIN - 1) ≠ 0 then
    some eSTATUS_INVALID
  else heap_get_address_status_priv h a 8 0 eSTATUS_INVALID

/-! ## Free-list registry updates (`mc_heap.c`, lines 357-394 and 557-586) -/

/-- Source function `update_prev`: the store `c->prev = p`. -/
def update_prev (h : heap) (c p : Nat) : Option heap :=
  if chunk_ok h c then
    some { h with chunks := fun a => if a = c then { prev := p, next := (h.chunks c).next }
                                      else h.chunks a }
  else none

/-- Source function `update_next`: the store `c->next = n`. -/
def update_next (h : heap) (c n : Nat) : Option heap :=
  if chunk_ok h c then
    some { h with chunks := fun a => if a = c then { prev := (h.chunks c).prev, next := n }
                                      else h.chunks a }
  else none

/-- Source function `update_head`: sets or clears the occupancy bit, then stores the head. -/
def update_head (h : heap) (index c : Nat) : Option heap :=
  if HEADS_BITS_SIZE ≤ index >>> 5 then none
  else if h.hdcnt ≤ index then none
  else
    let bit := 0x80000000 >>> (index &&& 31)
    let w := if c ≠ 0 then h.headsbits (index >>> 5) ||| bit
             else h.headsbits (index >>> 5) &&& not32 bit
    some { h with headsbits := store h.headsbits (index >>> 5) w,
                  heads := store h.heads index c }

/-- The statements that put chunk `c` in front of list `hidx`; they are the body of
`new_head` and appear twice more, written out, in `heap_alloc`. -/
def push_head (h : heap) (hidx c : Nat) : Option heap :=
  (heads_at h hidx).bind fun hd =>
    (update_next h c hd).bind fun h =>
      (update_prev h c 0).bind fun h =>
        (update_head h hidx c).bind fun h =>
          if hd ≠ 0 then update_prev h hd c else some h

/-- Source function `new_head (h, c, lvl15, tot)`. -/
def new_head (h : heap) (c lvl15 tot : Nat) : Option heap :=
  push_head h (sub32 (add32 lvl15 tot) 1) c

/-- Source function `chunk_remove_from_list (h, c, h_idx)`. -/
def chunk_remove_from_list (h : heap) (c h_idx : Nat) : Option heap :=
  (chunk_next h c).bind fun cnext =>
    (if cnext ≠ 0 then (chunk_prev h c).bind fun cprev => update_prev h cnext cprev
     else some h).bind fun h =>
      (chunk_prev h c).bind fun cprev =>
        if cprev ≠ 0 then (chunk_next h c).bind fun cnext => update_next h cprev cnext
        else (chunk_next h c).bind fun cnext => update_head h h_idx cnext

/-! ## Allocation (`mc_heap.c`, lines 416-555) -/

/-- Is the shift count of `base_size_from_index (index)` below 32?  It is for every
`index < BASE_SIZES_COUNT`. -/
def base_size_from_index_defined (index : Nat) : Bool :=
  decide (shl32 (add32 ((add32 (add32 (shl32 index 7) (shl32 index 3)) index) >>> 11) 1) 2 < 32)

/-- The first `for` loop of `heap_alloc` (lines 455-483), one iteration per unit of fuel.
The loop has no exit at level `0` other than `break`: if it goes on, `bs_level` wraps and
the next iteration indexes `h->heads` or `h->bitfield` out of range.  The loop is left
with the heap, `c`, `bs_level`, `shift` and `lvl_needed_sz`. -/
def heap_alloc_carve (base extra_sz needed_sz : Nat) :
    Nat → heap → Nat → Nat → Nat → Option (heap × Nat × Nat × Nat × Nat)
  | 0, _, _, _, _ => none
  | fuel + 1, h, c, bs_level, shift =>
    if 32 ≤ shift then none
    else
      let lvl_remain_sz := (extra_sz >>> shift) &&& 0x0F
      (if lvl_remain_sz ≠ 0 then
        (push_head h (sub32 (add32 (sub32 (shl32 bs_level 4) bs_level) lvl_remain_sz) 1) c).bind
          fun h => some (h, add32 c (shl32 lvl_remain_sz shift))
       else some (h, c)).bind fun (h, c) =>
        let lvl_needed_sz := needed_sz >>> shift
        if lvl_needed_sz ≠ 0 then some (h, c, bs_level, shift, lvl_needed_sz)
        else
          (heap_set_split h bs_level (sub32 c base >>> shift)).bind fun h =>
            heap_alloc_carve base extra_sz needed_sz fuel h c (sub32 bs_level 1) (sub32 shift 4)

/-- The second `for` loop of `heap_alloc` (lines 505-551); `bs_level` is the level of the
iteration, already decremented, `shift` and `main_bs` are those of the level above. -/
def heap_alloc_tail (base extra_sz : Nat) :
    Nat → heap → Nat → Nat → Nat → Nat → Nat → Option heap
  | 0, _, _, _, _, _, _ => none
  | fuel + 1, h, c, bs_level, shift, main_bs, needed_sz =>
    let shift := sub32 shift 4
    let main_bs := main_bs >>> 4
    if 32 ≤ shift then none
    else
      let lvl_needed_sz := needed_sz >>> shift
      (if lvl_needed_sz ≠ 0 then
        (heap_set_alloc_multi h bs_level (sub32 c base >>> shift) lvl_needed_sz).bind
          fun h => some (h, add32 c (mul32 main_bs lvl_needed_sz))
       else some (h, c)).bind fun (h, c) =>
        let needed_sz := sub32 needed_sz (shl32 lvl_needed_sz shift)
        let lvl_remain_sz := (extra_sz >>> shift) &&& 0x0F
        (if lvl_remain_sz ≠ 0 then
          push_head h (sub32 (add32 (sub32 (shl32 bs_level 4) bs_level) lvl_remain_sz) 1)
            (if bs_level ≠ 0 ∧ needed_sz ≠ 0 then add32 c main_bs else c)
         else some h).bind fun h =>
          if needed_sz = 0 then some h
          else if bs_level = 0 then some h
          else
            (heap_set_split h bs_level (sub32 c base >>> shift)).bind fun h =>
              heap_alloc_tail base extra_sz fuel h c (sub32 bs_level 1) shift main_bs needed_sz

/-- Source function `heap_alloc (h, sz)`; the pointer returned is `0` for `NULL`. -/
def heap_alloc (h : heap) (sz : Nat) : Option (heap × Nat) :=
  let base := h.hdata
  if sz = 0 then some (h, 0)
  else
    let needed_sz := add32 sz (BASE_SIZE_MIN - 1) &&& not32 (BASE_SIZE_MIN - 1)
    (next_available_head_index h needed_sz).bind fun index =>
      if index = BASE_SIZES_COUNT then some (h, 0)
      else if !base_size_from_index_defined index then none
      else
        let found_sz := base_size_from_index index
        (heads_at h index).bind fun c =>
          (chunk_next h c).bind fun cnext =>
            (if cnext ≠ 0 then update_prev h cnext 0 else some h).bind fun h =>
              (chunk_next h c).bind fun cnext =>
                (update_head h index cnext).bind fun h =>
                  let extra_sz := sub32 found_sz needed_sz
                  (ctz_checked found_sz).bind fun ctz =>
                    let bs_level := sub32 (ctz >>> 2) 1
                    let shift := add32 (shl32 bs_level 2) 4
                    (heap_alloc_carve base extra_sz needed_sz 9 h c bs_level shift).bind
                      fun (h, c, bs_level, shift, lvl_needed_sz) =>
                        let main_bs := shl32 1 shift
                        let result := c
                        (heap_set_alloc_head h bs_level (sub32 c base >>> shift)).bind fun h =>
                          let c := add32 c main_bs
                          let cnt := sub32 lvl_needed_sz 1
                          (if cnt ≠ 0 then
                            (heap_set_alloc_multi h bs_level (sub32 c base >>> shift) cnt).bind
                              fun h => some (h, add32 c (mul32 main_bs cnt))
                           else some (h, c)).bind fun (h, c) =>
                            let needed_sz := sub32 needed_sz (shl32 lvl_needed_sz shift)
                            (if needed_sz ≠ 0 ∧ bs_level ≠ 0 then
                              heap_set_split h bs_level (sub32 c base >>> shift)
                             else some h).bind fun h =>
                              if bs_level ≠ 0 then
                                (heap_alloc_tail base extra_sz 9 h c (sub32 bs_level 1) shift
                                  main_bs needed_sz).bind fun h => some (h, result)
                              else some (h, result)

/-! ## Release (`mc_heap.c`, lines 588-736) -/

/-- The first loop of `heap_free` (lines 602-612), the search for the head level. -/
def heap_free_find_head (h : heap) (reladdr : Nat) :
    Nat → Nat → Option (Option (Nat × Nat × Nat))
  | 0, shift =>
    (heap_chunk_status h 0 (reladdr >>> shift)).bind fun st =>
      if st = eSTATUS_ALLOC_HEAD then some (some (0, shift, reladdr >>> shift))
      else some none
  | lvl + 1, shift =>
    (heap_chunk_status h (lvl + 1) (reladdr >>> shift)).bind fun st =>
      if st = eSTATUS_ALLOC_HEAD then some (some (lvl + 1, shift, reladdr >>> shift))
      else heap_free_find_head h reladdr lvl (sub32 shift 4)

/-- The `while` loop of lines 629-638; `bs_lvl` is `h->bitfield[lvl]`.  It is left with
`lvl`, `shift` and `tot_size`. -/
def heap_free_measure (h : heap) (reladdr : Nat) :
    Nat → Nat → Nat → Nat → Nat → Option (Nat × Nat × Nat)
  | 0, shift, idx, allocs, tot_size =>
    (heap_chunk_status h 0 (add32 idx allocs)).bind fun st =>
      if st = eSTATUS_SPLIT then none else some (0, shift, tot_size)
  | lvl + 1, shift, idx, allocs, tot_size =>
    (heap_chunk_status h (lvl + 1) (add32 idx allocs)).bind fun st =>
      if st = eSTATUS_SPLIT then
        if 32 ≤ sub32 shift 4 then none
        else
          (bitfield_word h lvl ((add32 reladdr tot_size >>> sub32 shift 4) >>> 4)).bind fun w =>
            (clz_checked w).bind fun clz =>
              heap_free_measure h reladdr lvl (sub32 shift 4)
                (add32 reladdr tot_size >>> sub32 shift 4) (clz >>> 1)
                (add32 tot_size (shl32 (clz >>> 1) (sub32 shift 4)))
      else some (lvl + 1, shift, tot_size)

/-- The `while (lvl < head_lvl)` loop of lines 646-682.  It is left with the heap, `lvl`,
`shift` and `sub_empty`. -/
def heap_free_tail (base tot_size bottom_addr head_lvl : Nat) :
    Nat → heap → Nat → Nat → Nat → Option (heap × Nat × Nat × Nat)
  | 0, _, _, _, _ => none
  | fuel + 1, h, lvl, shift, sub_empty =>
    if ¬ lvl < head_lvl then some (h, lvl, shift, sub_empty)
    else if 32 ≤ shift then none
    else
      let base_size := (tot_size >>> shift) &&& 0x0F
      let bsize_sub := add32 base_size sub_empty
      let index := sub32 (bottom_addr >>> shift) base_size
      let lvl15 := sub32 (shl32 lvl 4) lvl
      let bsize_sub2 := shl32 bsize_sub 1
      (if bsize_sub ≠ 16 then
        (bitfield_word h lvl (index >>> 4)).bind fun stat =>
          if 32 ≤ bsize_sub2 then none
          else
            (clz_checked (shl32 stat bsize_sub2 ^^^ ALL_FREE)).bind fun clz =>
              let next := clz >>> 1
              (if next ≠ 0 then
                chunk_remove_from_list h (add32 base (shl32 (add32 index bsize_sub) shift))
                  (sub32 (add32 lvl15 next) 1)
               else some h).bind fun h =>
                if 32 ≤ sub32 bsize_sub2 2 then none
                else
                  let nmask := sub32 (0x40000000 >>> sub32 bsize_sub2 2) 1
                  some (h, next, stat &&& nmask)
       else some (h, 0, 0)).bind fun (h, next, new_bf) =>
        if 32 ≤ sub32 32 bsize_sub2 then none
        else
          let new_bf := new_bf ||| shl32 ALL_FREE (sub32 32 bsize_sub2)
          (bitfield_store h lvl (index >>> 4) new_bf).bind fun h =>
            let tot := add32 next bsize_sub
            (if tot = 16 then some (h, 1, lvl)
             else
              (new_head h (add32 base (shl32 index shift)) lvl15 tot).bind fun h =>
                if 32 ≤ shift + 4 then none
                else
                  (ctz_checked (tot_size >>> (shift + 4))).bind fun ctz =>
                    some (h, 0, add32 lvl (ctz >>> 2))).bind fun (h, sub_empty, lvl) =>
              let lvl := add32 lvl 1
              heap_free_tail base tot_size bottom_addr head_lvl fuel h lvl
                (shl32 (add32 lvl 1) 2) sub_empty

/-- The last `for` loop of `heap_free` (lines 684-732). -/
def heap_free_merge (base reladdr : Nat) :
    Nat → heap → Nat → Nat → Nat → Nat → Option heap
  | 0, _, _, _, _, _ => none
  | fuel + 1, h, lvl, shift, base_size, sub_empty =>
    if 32 ≤ shift then none
    else
      let bsize_sub := add32 base_size sub_empty
      let idx := reladdr >>> shift
      let sub := idx &&& 0x0F
      let lvl15 := sub32 (shl32 lvl 4) lvl
      (bitfield_word h lvl (idx >>> 4)).bind fun stat =>
        let inxt := shl32 (add32 sub bsize_sub) 1
        (if inxt ≠ 32 then
          if 32 ≤ inxt then none
          else
            (clz_checked (shl32 stat inxt ^^^ ALL_FREE)).bind fun clz =>
              let next := clz >>> 1
              (if next ≠ 0 then
                chunk_remove_from_list h (add32 base (shl32 (add32 idx bsize_sub) shift))
                  (sub32 (add32 lvl15 next) 1)
               else some h).bind fun h =>
                if 32 ≤ sub32 inxt 2 then none
                else
                  let nmask := sub32 (0x40000000 >>> sub32 inxt 2) 1
                  some (h, next, stat &&& nmask)
         else some (h, 0, 0)).bind fun (h, next, new_bf) =>
          (if sub ≠ 0 then
            (ctz_checked ((stat >>> ((16 - sub) <<< 1)) ^^^ ALL_FREE)).bind fun ctz =>
              let prev := ctz >>> 1
              (if prev ≠ 0 then
                chunk_remove_from_list h (add32 base (shl32 (sub32 idx prev) shift))
                  (sub32 (add32 lvl15 prev) 1)
               else some h).bind fun h =>
                let pmask := shl32 0xFFFFFFFC ((15 - sub) <<< 1)
                some (h, prev, new_bf ||| (stat &&& pmask))
           else some (h, 0, new_bf)).bind fun (h, prev, new_bf) =>
            if 32 ≤ sub32 32 (shl32 bsize_sub 1) ∨ 32 ≤ sub32 32 inxt then none
            else
              let new_bf := new_bf |||
                shl32 (ALL_FREE >>> sub32 32 (shl32 bsize_sub 1)) (sub32 32 inxt)
              (bitfield_store h lvl (idx >>> 4) new_bf).bind fun h =>
                let tot := add32 (add32 next prev) bsize_sub
                if tot ≠ 16 then
                  new_head h (add32 base (shl32 (sub32 idx prev) shift)) lvl15 tot
                else
                  heap_free_merge base reladdr fuel h (add32 lvl 1) (add32 shift 4) 0 1

/-- Source function `heap_free (h, address)`. -/
def heap_free (h : heap) (address : Nat) : Option heap :=
  let base := h.hdata
  if address < base ∨ base + h.hsize ≤ address ∨ address &&& 0x0F ≠ 0 then some h
  else
    let reladdr := sub32 address base
    (ctz_checked address).bind fun ctz =>
      let lvl := sub32 (ctz >>> 2) 1
      let shift := shl32 (add32 lvl 1) 2
      if 32 ≤ shift then none
      else
        (heap_free_find_head h reladdr lvl shift).bind fun r =>
          match r with
          | none => some h
          | some (lvl, shift, idx) =>
            let head_lvl := lvl
            let sidx := idx &&& 0x0F
            (if sidx = 15 then some (lvl, shift, shl32 1 shift)
             else
              (bitfield_word h lvl (idx >>> 4)).bind fun w =>
                let bits := shl32 w ((sidx + 1) <<< 1)
                if bits = 0 then some (lvl, shift, shl32 (16 - sidx) shift)
                else
                  let allocs := count_leading_allocs bits + 1
                  heap_free_measure h reladdr lvl shift idx allocs (shl32 allocs shift)).bind
              fun (lvl, shift, tot_size) =>
                let bottom_addr := add32 reladdr tot_size
                (heap_free_tail base tot_size bottom_addr head_lvl 9 h lvl shift 0).bind
                  fun (h, lvl, shift, sub_empty) =>
                    if 32 ≤ shift then none
                    else
                      heap_free_merge base reladdr 9 h lvl shift
                        ((tot_size >>> shift) &&& 0x0F) sub_empty

/-! ## Construction (`mc_heap.c`, lines 261-274 and 839-948) -/

/-- Source function `needed_bitfield_count (size, index)`. -/
def needed_bitfield_count (size index : Nat) : Nat :=
  let count := size >>> ((index + 1) <<< 2)
  add32 count 15 >>> 4

/-- The loop of `total_bitfield_count`, over the levels below `n`. -/
def total_bitfield_count_upto (size : Nat) : Nat → Nat
  | 0 => 0
  | n + 1 => add32 (total_bitfield_count_upto size n) (needed_bitfield_count size n)

/-- Source function `total_bitfield_count (size)`. -/
def total_bitfield_count (size : Nat) : Nat :=
  total_bitfield_count_upto size MAIN_BASE_SIZE_COUNT

/-- The loop `for (i = 0; i < n; i++) bf[i] = ALL_FREE` of `set_bf_ptr`. -/
def fill_all_free (mem : Nat → Nat) (bf : Nat) : Nat → (Nat → Nat)
  | 0 => mem
  | n + 1 => store (fill_all_free mem bf n) (bf + n) ALL_FREE

/-- Source function `set_bf_ptr (index, lvl_bf_count, H, start, mem, size)`; `mem` is the bookkeeping
buffer of `H`. -/
def set_bf_ptr (index lvl_bf_count : Nat) (H : heap) (start size : Nat) : Option heap :=
  if lvl_bf_count ≠ 0 then
    if MAIN_BASE_SIZE_COUNT ≤ index then none
    else
      let lvl_chunk_cnt := size >>> ((index + 1) <<< 2)
      if H.bfcnt < start + (lvl_chunk_cnt >>> 4) then none
      else
        let H : heap :=
          { H with bitfield := fun k => if k = index then some start else H.bitfield k,
                   bscnt := index + 1,
                   bfmem := fill_all_free H.bfmem start (lvl_chunk_cnt >>> 4) }
        if lvl_chunk_cnt &&& 0x0F ≠ 0 then
          let idx := lvl_chunk_cnt &&& not32 0x0F
          let sub := lvl_chunk_cnt &&& 0x0F
          (bitfield_at H index (idx >>> 4)).bind fun bf =>
            (bf_set_free_multi H.bfmem bf idx sub).bind fun mem =>
              (bf_set_alloc_head_multi mem bf (add32 idx sub) (16 - sub)).bind fun mem =>
                some { H with bfmem := mem }
        else some H
  else
    if MAIN_BASE_SIZE_COUNT ≤ index then none
    else some { H with bitfield := fun k => if k = index then none else H.bitfield k }

/-- Source function `populate_heads (h, data, size)`; every call but the last strips the leading
hexadecimal digit of `size`, so the recursion is at most eight calls deep. -/
def populate_heads : Nat → heap → Nat → Nat → Option heap
  | 0, _, _, _ => none
  | fuel + 1, h, data, size =>
    let used_size := closest_base_size size
    (ctz_checked used_size).bind fun _ =>
      let i := base_size_to_index used_size
      (if used_size ≠ size then
        if !base_size_from_index_defined (sub32 i 1) then none
        else some (sub32 i 1, base_size_from_index (sub32 i 1))
       else some (i, used_size)).bind fun (i, used_size) =>
        if h.hdcnt ≤ i then none
        else if HEADS_BITS_SIZE ≤ i >>> 5 then none
        else
          let h : heap :=
            { h with heads := store h.heads i data,
                     headsbits := store h.headsbits (i >>> 5)
                       (h.headsbits (i >>> 5) ||| (0x80000000 >>> (i &&& 31))) }
          (heads_at h i).bind fun c =>
            (update_prev h c 0).bind fun h =>
              (heads_at h i).bind fun c =>
                (update_next h c 0).bind fun h =>
                  if used_size ≠ size then
                    populate_heads fuel h (add32 data used_size) (sub32 size used_size)
                  else some h

/-- The loop of `heap_create` over the levels below `n` (lines 926-930): the heap and
the running value of `start`. -/
def heap_create_levels (size : Nat) : Nat → heap → Option (heap × Nat)
  | 0, H => some (H, 0)
  | i + 1, H =>
    (heap_create_levels size i H).bind fun (H, start) =>
      (set_bf_ptr i (needed_bitfield_count size i) H start size).bind fun H =>
        some (H, add32 start (needed_bitfield_count size i))

/-- Source function `heap_create (address, size)`.  The result is `some none` for `NULL` and
`some (some h)` for a heap; both calls of `malloc` succeed.  What `malloc` returns and
what the region holds is not specified: `junk` is the content of the bookkeeping buffer
and `region` that of the managed memory before the call.  The fields `hdata` and `hsize`,
which the source sets last, are set with the other fields: `populate_heads` does not read
them, and the model uses them to check that it writes inside the region. -/
def heap_create (junk : Nat → Nat) (region : Nat → chunk) (address size : Nat) :
    Option (Option heap) :=
  if size = 0 ∨ size &&& (BASE_SIZE_MIN - 1) ≠ 0 then some none
  else
    let cs := CLZ size &&& 0x1C
    let largest := 0x10000000 >>> cs
    if address &&& sub32 largest 1 ≠ 0 then some none
    else
      let hd_cnt := add32 (mul32 (sub32 24 cs >>> 2) 15) ((size >>> sub32 28 cs) &&& 0x0F)
      let tot_bf_count := total_bitfield_count size
      let new_heap : heap :=
        { headsbits := fun _ => 0, bitfield := fun _ => none, hdata := address, hsize := size,
          hdcnt := hd_cnt, bscnt := 0, heads := fun _ => 0, bfmem := junk,
          bfcnt := tot_bf_count, chunks := region }
      if 32 ≤ sub32 28 cs then none
      else
        (heap_create_levels size MAIN_BASE_SIZE_COUNT new_heap).bind fun (new_heap, _) =>
          let new_heap : heap :=
            { new_heap with
              headsbits := store (store (store (store new_heap.headsbits 0 0) 1 0) 2 0) 3
                0x007FFFFF }
          (populate_heads 8 new_heap address size).bind fun new_heap => some (some new_heap)

/-! ## Runs of the allocator -/

/-- A call made by a client of the heap. -/
inductive Call where
  | alloc (sz : Nat)
  | free (address : Nat)

/-- The heaps that calls of `heap_alloc` and `heap_free` lead to from `h0`. -/
inductive Reachable (h0 : heap) : heap → Prop where
  | start : Reachable h0 h0
  | alloc {h h1 : heap} (sz p : Nat) :
      Reachable h0 h → heap_alloc h sz = some (h1, p) → Reachable h0 h1
  | free {h h1 : heap} (address : Nat) :
      Reachable h0 h → heap_free h address = some h1 → Reachable h0 h1

/-- Runs a list of calls; the result lists the pointers the `alloc` calls returned. -/
def run : heap → List Call → Option (heap × List Nat)
  | h, [] => some (h, [])
  | h, Call.alloc sz :: cs =>
    (heap_alloc h sz).bind fun (h1, p) =>
      (run h1 cs).bind fun (h2, ps) => some (h2, p :: ps)
  | h, Call.free a :: cs => (heap_free h a).bind fun h1 => run h1 cs

/-- The spec's `round_up_to_16`: the next multiple of 16. -/
def round_up_to_16 (n : Nat) : Nat := (n + 15) / 16 * 16

/-- A bookkeeping buffer that `malloc` returns zeroed. -/
def no_junk : Nat → Nat := fun _ => 0

/-- A managed region whose bytes are all zero. -/
def no_links : Nat → chunk := fun _ => { prev := 0, next := 0 }

/-- Call of `heap_create` as a client makes it: the heap, when the result is not `NULL`. -/
def create_heap (address size : Nat) : Option heap :=
  (heap_create no_junk no_links address size).bind id

/-- Every result of a computation that may fail satisfies `P`. -/
def OptAll {α : Type} (P : α → Prop) (o : Option α) : Prop := ∀ a, o = some a → P a

/-! ## The registry of the free lists -/

/-- Occupancy bit of list `i`: bit `31 - i % 32` of the word `i / 32` of `headsbits`. -/
def occ_bit (hb : Nat → Nat) (i : Nat) : Bool := (hb (i / 32)).testBit (31 - i % 32)

/-- The registry of the free lists, given by its three fields, is coherent. -/
structure RegistryOf (hb heads : Nat → Nat) (cnt : Nat) : Prop where
  cnt_le : cnt ≤ BASE_SIZES_COUNT
  word : ∀ w, hb w < 2 ^ 32
  sync : ∀ i, i < cnt → (occ_bit hb i = true ↔ heads i ≠ 0)
  clear : ∀ i, cnt ≤ i → i < BASE_SIZES_COUNT → occ_bit hb i = false
  sentinel : ∀ i, BASE_SIZES_COUNT ≤ i → i < 128 → occ_bit hb i = true

/-- The registry of the free lists of a heap is coherent. -/
def Registry (h : heap) : Prop := RegistryOf h.headsbits h.heads h.hdcnt

/-- The fields that only `heap_create` writes are the same in both heaps. -/
def SameShape (h h1 : heap) : Prop :=
  h1.bitfield = h.bitfield ∧ h1.hdata = h.hdata ∧ h1.hsize = h.hsize ∧
    h1.hdcnt = h.hdcnt ∧ h1.bscnt = h.bscnt ∧ h1.bfcnt = h.bfcnt

/-- What every step of `heap_alloc` and `heap_free` keeps. -/
def Keeps (h h1 : heap) : Prop := SameShape h h1 ∧ (Registry h → Registry h1)

/-- The fields that `set_bf_ptr` does not write are the same in both heaps. -/
def SameRegistry (H H1 : heap) : Prop :=
  H1.headsbits = H.headsbits ∧ H1.heads = H.heads ∧ H1.hdata = H.hdata ∧ H1.hsize = H.hsize ∧
    H1.hdcnt = H.hdcnt ∧ H1.chunks = H.chunks ∧ H1.bfcnt = H.bfcnt

/-- The spec's "largest class that fits": `c` is the largest class that is at most `r`. -/
def IsLargestClassLe (c r : Nat) : Prop :=
  IsClass c ∧ c ≤ r ∧ ∀ s, IsClass s → s ≤ r → s ≤ c

/-- The spec's greedy decomposition of the `r` bytes that start at offset `off`: the list
of the chunks, each given by its offset and its class, that results from "repeatedly
placing the largest class that fits the remaining region at its current offset, then
continuing with the remainder". -/
inductive Greedy : Nat → Nat → List (Nat × Nat) → Prop where
  | done (off : Nat) : Greedy off 0 []
  | step (off r c : Nat) (L : List (Nat × Nat)) :
      IsLargestClassLe c r → Greedy (off + c) (r - c) L → Greedy off r ((off, c) :: L)

/-- The chunk `e`, given by its offset in the region at `address` and its class, is the
sole entry of the list of its class: it is the head of the list, its links are `NULL`,
and the occupancy bit of the list is set. -/
def SoleEntry (h : heap) (address : Nat) (e : Nat × Nat) : Prop :=
  h.heads (base_size_to_index e.2) = address + e.1 ∧
    (h.chunks (address + e.1)).prev = 0 ∧ (h.chunks (address + e.1)).next = 0 ∧
    occ_bit h.headsbits (base_size_to_index e.2) = true

/-- The free lists of `h` hold the chunks of `L`, each alone in the list of its class, and
every other list is empty. -/
def Seeded (h : heap) (address : Nat) (L : List (Nat × Nat)) : Prop :=
  (∀ e, e ∈ L → SoleEntry h address e) ∧
    ∀ i, i < BASE_SIZES_COUNT → (∀ e, e ∈ L → base_size_to_index e.2 ≠ i) →
      h.heads i = 0 ∧ occ_bit h.headsbits i = false

/-- The head count `hd_cnt` that `heap_create` computes from `size`. -/
def hd_cnt (size : Nat) : Nat :=
  let cs := CLZ size &&& 0x1C
  add32 (mul32 (sub32 24 cs >>> 2) 15) ((size >>> sub32 28 cs) &&& 0x0F)

/-! ## Heaps that agree in what `heap_alloc` reads -/

/-- Two calls have the same outcome: both have no result, or both return and the results are
related by `R`. -/
def Rel2 {α β : Type} (R : α → β → Prop) (o1 : Option α) (o2 : Option β) : Prop :=
  (o1 = none ∧ o2 = none) ∨ ∃ a b, o1 = some a ∧ o2 = some b ∧ R a b

/-- What `heap_alloc` reads of a heap is the same in `h` and `g`: the occupancy words, the heads
of the lists, the links of the chunks that head a list, the fields that `heap_create`
sets, and the pointers to the levels of the bitfield.  The content of the bitfield, which
`heap_alloc` writes and never tests, and the links of the other chunks may differ. -/
@[reducible] def SameLists (h g : heap) : Prop :=
  (∀ w, w < 4 → h.headsbits w = g.headsbits w) ∧ h.hdcnt = g.hdcnt ∧
  (∀ i, i < h.hdcnt → h.heads i = g.heads i ∧
    (h.heads i ≠ 0 → (h.chunks (h.heads i)).prev = (g.chunks (h.heads i)).prev ∧
      (h.chunks (h.heads i)).next = (g.chunks (h.heads i)).next)) ∧
  h.hdata = g.hdata ∧ h.hsize = g.hsize ∧ (∀ k, k < 7 → h.bitfield k = g.bitfield k) ∧
  h.bfcnt = g.bfcnt

/-- Two results, each a heap and values computed on the way, agree: the heaps in what `heap_alloc`
reads, the values exactly. -/
def SameOut {σ : Type} (a b : heap × σ) : Prop := SameLists a.1 b.1 ∧ a.2 = b.2

/-- The list that `heap_alloc (g, sz)` would take a chunk from, if any, has that chunk alone. -/
def pop_ok (g : heap) (sz : Nat) : Bool :=
  match next_available_head_index g
      (add32 sz (BASE_SIZE_MIN - 1) &&& not32 (BASE_SIZE_MIN - 1)) with
  | none => true
  | some idx =>
    match heads_at g idx with
    | none => true
    | some c =>
      match chunk_next g c with
      | none => true
      | some n => n == 0

/-- The calls `heap_alloc (g, sz)`, `n` of them in a row, as `run` makes them; there is no result
when a call is about to take a chunk from a list in which the chunk is not alone. -/
def run_alone (sz : Nat) : Nat → heap → Option (heap × List Nat)
  | 0, g => some (g, [])
  | n + 1, g =>
    if pop_ok g sz then
      (heap_alloc g sz).bind fun r =>
        (run_alone sz n r.1).bind fun r2 => some (r2.1, r.2 :: r2.2)
    else none

/-! ## The heap of 256 MiB under requests of `16 * 4096 + 15 * 256 + 16` bytes -/

/-- The occupancy words when the lists of `l` are the occupied ones: the words that `heap_create`
sets, with the bit of every list of `l` set the way `update_head` sets it. -/
def occupancy : List Nat → Nat → Nat
  | [] => fun w => if w = 3 then 0x007FFFFF else 0
  | i :: l =>
    store (occupancy l) (i >>> 5) (occupancy l (i >>> 5) ||| (0x80000000 >>> (i &&& 31)))

/-- The lists that are occupied after `8 * k` calls `heap_alloc (h, 0x10F10)` on the heap of 256 MiB.
The calls have taken the top `k` MiB; the `256 - k` MiB below are free, as a run of
`a = (256 - k) / 16` chunks of 16 MiB at the base (list `75 + a - 1`; for `k = 0` this is
list 90, the whole heap) and a run of `b = (256 - k) % 16` chunks of 1 MiB after it (list
`60 + b - 1`).  Lists 44 and 14 hold what the calls left over of the second 64 KiB chunk
of every block. -/
def occupied (k : Nat) : List Nat :=
  (if 0 < (256 - k) / 16 then [75 + (256 - k) / 16 - 1] else []) ++
    ((if 0 < (256 - k) % 16 then [60 + (256 - k) % 16 - 1] else []) ++
      (if 0 < k then [44, 14] else []))

/-- The free lists of the heap of 256 MiB at `0x10000000` after `8 * k` calls
`heap_alloc (h, 0x10F10)`, as far as `heap_alloc` reads them: the lists of `occupied k`,
each with one chunk or, for lists 44 and 14, headed by what the last call left over. -/
def drained (k : Nat) : heap :=
  { headsbits := occupancy (occupied k),
    bitfield := fun i => if i < 7 then some (total_bitfield_count_upto 0x10000000 i) else none,
    hdata := 0x10000000, hsize := 0x10000000, hdcnt := 91, bscnt := 7,
    heads := fun i =>
      if 0 < (256 - k) / 16 ∧ i = 75 + (256 - k) / 16 - 1 then 0x10000000
      else if 0 < (256 - k) % 16 ∧ i = 60 + (256 - k) % 16 - 1 then
        0x10000000 + (256 - k) / 16 * 0x1000000
      else if 0 < k ∧ i = 44 then 0x10000000 + (256 - k) * 0x100000 + 0x11000
      else if 0 < k ∧ i = 14 then 0x10000000 + (256 - k) * 0x100000 + 0x10F10
      else 0,
    bfmem := fun _ => 0, bfcnt := total_bitfield_count 0x10000000,
    chunks := fun x =>
      if 0 < k ∧ (x = 0x10000000 + (256 - k) * 0x100000 + 0x11000 ∨
          x = 0x10000000 + (256 - k) * 0x100000 + 0x10F10) then
        { prev := 0, next := x + 0x20000 }
      else { prev := 0, next := 0 } }

/-- The heads of the lists of `l`, and the links of the chunks that head them, are the same in `h`
and `g`. -/
def same_heads (h g : heap) (l : List Nat) : Bool :=
  l.all fun i =>
    h.heads i == g.heads i &&
      (h.chunks (g.heads i)).prev == (g.chunks (g.heads i)).prev &&
      (h.chunks (g.heads i)).next == (g.chunks (g.heads i)).next

/-- From `drained k`, eight calls `heap_alloc (h, 0x10F10)` return the eight blocks of 128 KiB of
the next MiB down, from its top to its bottom, and lead to the occupancy words and the
list heads of `drained (k + 1)`. -/
def segment_ok (k : Nat) : Bool :=
  match run_alone 0x10F10 8 (drained k) with
  | some r =>
    decide (r.2 = (List.range 8).map (fun i => 0x20000000 - 0x20000 * (8 * k + i + 1))) &&
      (List.range 4).all (fun w => r.1.headsbits w == (drained (k + 1)).headsbits w) &&
      same_heads r.1 (drained (k + 1)) (occupied (k + 1))
  | none => false

/-! ## One allocation and its release -/

/-- The metadata of `h` is that of `h0`: every word of the bookkeeping buffer, which holds the
bitfields of all levels, every head of a list, and the four occupancy words. -/
def same_metadata (h0 h : heap) : Bool :=
  (List.range h0.bfcnt).all (fun w => h.bfmem w == h0.bfmem w) &&
    (List.range h0.hdcnt).all (fun i => h.heads i == h0.heads i) &&
    (List.range HEADS_BITS_SIZE).all (fun w => h.headsbits w == h0.headsbits w)

/-! ## Size classes: theorems -/

theorem and_not_low (x t : Nat) (hx : x < 2 ^ 32) (ht : t ≤ 32) :
    x &&& (4294967295 - (2 ^ t - 1)) = x / 2 ^ t * 2 ^ t := by
  apply Nat.eq_of_testBit_eq
  intro i
  have hpos : 0 < 2 ^ t := Nat.two_pow_pos t
  have hle : 2 ^ t ≤ 2 ^ 32 := Nat.pow_le_pow_right (by decide) ht
  have h1 : (4294967295 : Nat) - (2 ^ t - 1) = 2 ^ 32 - ((2 ^ t - 1) + 1) := by omega
  have h2 : 2 ^ t - 1 < 2 ^ 32 := by omega
  rw [h1, Nat.testBit_and, Nat.testBit_two_pow_sub_succ h2, Nat.testBit_two_pow_sub_one,
    Nat.mul_comm, Nat.testBit_mul_pow_two, ← Nat.shiftRight_eq_div_pow, Nat.testBit_shiftRight]
  by_cases hit : i < t
  · have : ¬ t ≤ i := by omega
    simp [hit, this]
  · have hit' : t ≤ i := Nat.le_of_not_lt hit
    have e : t + (i - t) = i := by omega
    rw [e]
    by_cases hi : i < 32
    · simp [hi, hit, hit']
    · have : x.testBit i = false :=
        Nat.testBit_lt_two_pow
          (Nat.lt_of_lt_of_le hx (Nat.pow_le_pow_right (by decide) (Nat.le_of_not_lt hi)))
      simp [hi, this]

theorem clzAux_eq (k : Nat) : ∀ fuel x, k ≤ fuel → k ≤ 31 → 2 ^ (31 - k) ≤ x →
    x < 2 ^ (32 - k) → clzAux fuel x = k := by
  induction k with
  | zero =>
    intro fuel x _ _ h1 _
    cases fuel with
    | zero => rfl
    | succ f =>
      have h : (2147483648 : Nat) ≤ x := h1
      simp [clzAux, h]
  | succ k ih =>
    intro fuel x hf hk h1 h2
    cases fuel with
    | zero => omega
    | succ f =>
      have e1 : 2 ^ (31 - k) = 2 * 2 ^ (31 - (k + 1)) := by
        rw [show 31 - k = (31 - (k + 1)) + 1 by omega, Nat.pow_succ]; ring
      have e2 : 2 ^ (32 - k) = 2 * 2 ^ (32 - (k + 1)) := by
        rw [show 32 - k = (32 - (k + 1)) + 1 by omega, Nat.pow_succ]; ring
      have e3 : 2 ^ (32 - (k + 1)) ≤ 2 ^ 31 := Nat.pow_le_pow_right (by decide) (by omega)
      have h : ¬ (2147483648 : Nat) ≤ x := by
        have : (2 : Nat) ^ 31 = 2147483648 := by norm_num
        omega
      have := ih f (2 * x) (by omega) (by omega) (by omega) (by omega)
      simp [clzAux, h, this]; omega

/-- Value of `CLZ` at a word whose highest set bit is bit `l`. -/
theorem clz_of_bounds (x l : Nat) (hl : l ≤ 31) (h1 : 2 ^ l ≤ x) (h2 : x < 2 ^ (l + 1)) :
    CLZ x = 31 - l := by
  have hx : x ≠ 0 := by
    have : 0 < 2 ^ l := Nat.two_pow_pos l
    omega
  unfold CLZ
  rw [if_neg hx]
  apply clzAux_eq (31 - l) 32 x (by omega) (by omega)
  · rw [show 31 - (31 - l) = l by omega]; exact h1
  · rw [show 32 - (31 - l) = l + 1 by omega]; exact h2

theorem clz_band (n j : Nat) (hj : 1 ≤ j) (hj7 : j ≤ 7) (h1 : 16 ^ j ≤ n)
    (h2 : n < 16 ^ (j + 1)) : CLZ n &&& 0x1C = 28 - 4 * j := by
  have hn : n ≠ 0 := by
    have : 0 < 16 ^ j := pow_pos (by decide) j
    omega
  have e1 : 16 ^ j = 2 ^ (4 * j) := by rw [Nat.pow_mul]
  have e2 : 16 ^ (j + 1) = 2 ^ (4 * j + 4) := by
    rw [show 4 * j + 4 = 4 * (j + 1) by ring, Nat.pow_mul]
  have hl1 : 4 * j ≤ n.log2 := (Nat.le_log2 hn).2 (by omega)
  have hl2 : n.log2 < 4 * j + 4 := (Nat.log2_lt hn).2 (by omega)
  have hc := clz_of_bounds n n.log2 (by omega) (Nat.log2_self_le hn) Nat.lt_log2_self
  rw [hc]
  generalize n.log2 = l at hl1 hl2
  interval_cases j <;> interval_cases l <;> rfl

theorem isClass_cases {s : Nat} (h : IsClass s) :
    ∃ m, 1 ≤ m ∧ m ≤ 15 ∧ (s = m * 16 ∨ s = m * 256 ∨ s = m * 4096 ∨ s = m * 65536 ∨
      s = m * 1048576 ∨ s = m * 16777216 ∨ s = m * 268435456) := by
  obtain ⟨k, m, hk, h1, h2, rfl⟩ := h
  refine ⟨m, h1, h2, ?_⟩
  interval_cases k <;> simp

theorem lsbits_eq (j : Nat) (hj : 1 ≤ j) (hj7 : j ≤ 7) :
    0x0FFFFFFF >>> (28 - 4 * j) = 2 ^ (4 * j) - 1 := by
  interval_cases j <;> rfl

/-- Between `16 ^ j` and `16 ^ (j + 1)` the function rounds up to a multiple of `16 ^ j`. -/
theorem closest_eq (n j : Nat) (hj : 1 ≤ j) (hj7 : j ≤ 7) (h1 : 16 ^ j ≤ n)
    (h2 : n < 16 ^ (j + 1)) (h3 : n ≤ 0xF0000000) :
    closest_base_size n = (n + (2 ^ (4 * j) - 1)) / 2 ^ (4 * j) * 2 ^ (4 * j) := by
  have hc := clz_band n j hj hj7 h1 h2
  have h16 : 16 ≤ n := by
    have : 16 ^ 1 ≤ 16 ^ j := Nat.pow_le_pow_right (by decide) hj
    omega
  have hp : 2 ^ (4 * j) ≤ 2 ^ 28 := Nat.pow_le_pow_right (by decide) (by omega)
  have hpos : 0 < 2 ^ (4 * j) := Nat.two_pow_pos _
  unfold closest_base_size BASE_SIZE_MIN BASE_SIZE_MAX
  rw [if_neg (by omega), if_neg (by omega)]
  simp only [hc, lsbits_eq j hj hj7]
  unfold add32 not32
  rw [Nat.mod_eq_of_lt (by omega), Nat.mod_eq_of_lt (by omega)]
  exact and_not_low _ _ (by omega) (by omega)

theorem closest_band (n j : Nat) (hj : 1 ≤ j) (hj7 : j ≤ 7) (h1 : 16 ^ j ≤ n)
    (h2 : n < 16 ^ (j + 1)) (h3 : n ≤ 0xF0000000) :
    IsClass (closest_base_size n) ∧ n ≤ closest_base_size n ∧
      ∀ s, IsClass s → n ≤ s → closest_base_size n ≤ s := by
  have e := closest_eq n j hj hj7 h1 h2 h3
  have cls : ∀ q, 1 ≤ q → q ≤ 16 → (q = 16 → j ≤ 6) → IsClass (q * 2 ^ (4 * j)) := by
    intro q hq1 hq2 hq3
    by_cases hq : q = 16
    · refine ⟨j, 1, hq3 hq, le_refl _, by decide, ?_⟩
      subst hq
      rw [Nat.pow_succ, Nat.pow_mul]; ring
    · refine ⟨j - 1, q, by omega, hq1, by omega, ?_⟩
      rw [show j - 1 + 1 = j by omega, Nat.pow_mul]
  refine ⟨?_, ?_, ?_⟩
  · rw [e]
    apply cls
    · interval_cases j <;> simp at h1 h2 ⊢ <;> omega
    · interval_cases j <;> simp at h1 h2 ⊢ <;> omega
    · intro hq
      interval_cases j <;> simp at h1 h2 hq ⊢
      omega
  · rw [e]
    interval_cases j <;> simp at h1 h2 ⊢ <;> omega
  · intro s hs hns
    obtain ⟨m, hm1, hm2, hm⟩ := isClass_cases hs
    rw [e]
    interval_cases j <;> simp at h1 h2 ⊢ <;>
      rcases hm with h | h | h | h | h | h | h <;> omega

/-- Up to the largest class, `closest_base_size` gives the smallest class that is not
below its argument. -/
theorem closest_base_size_main (n : Nat) (hn : n ≤ 0xF0000000) :
    IsClass (closest_base_size n) ∧ n ≤ closest_base_size n ∧
      ∀ s, IsClass s → n ≤ s → closest_base_size n ≤ s := by
  by_cases h16 : n < 16
  · have e : closest_base_size n = 16 := by
      unfold closest_base_size BASE_SIZE_MIN
      rw [if_pos h16]
    rw [e]
    refine ⟨⟨0, 1, by decide, by decide, by decide, by decide⟩, by omega, ?_⟩
    intro s hs _
    obtain ⟨m, hm1, hm2, hm⟩ := isClass_cases hs
    rcases hm with h | h | h | h | h | h | h <;> omega
  · have hj : ∃ j, 1 ≤ j ∧ j ≤ 7 ∧ 16 ^ j ≤ n ∧ n < 16 ^ (j + 1) := by
      by_cases h2 : n < 16 ^ 2
      · exact ⟨1, by decide, by decide, by omega, h2⟩
      by_cases h3 : n < 16 ^ 3
      · exact ⟨2, by decide, by decide, by omega, h3⟩
      by_cases h4 : n < 16 ^ 4
      · exact ⟨3, by decide, by decide, by omega, h4⟩
      by_cases h5 : n < 16 ^ 5
      · exact ⟨4, by decide, by decide, by omega, h5⟩
      by_cases h6 : n < 16 ^ 6
      · exact ⟨5, by decide, by decide, by omega, h6⟩
      by_cases h7 : n < 16 ^ 7
      · exact ⟨6, by decide, by decide, by omega, h7⟩
      · exact ⟨7, by decide, by decide, by omega, by norm_num; omega⟩
    obtain ⟨j, hj1, hj7, h1, h2⟩ := hj
    exact closest_band n j hj1 hj7 h1 h2 hn

/-- C1. For every `n` up to `0xF0000000`, `closest_base_size n` is the smallest class
value that is at least `n`; so it is `16` for `n < 16` and `n` itself when `n` is a class.
For every `n` above `0xF0000000` the result is `0`. -/
theorem closest_base_size_smallest_class (n : Nat) :
    (n ≤ 0xF0000000 →
      IsClass (closest_base_size n) ∧ n ≤ closest_base_size n ∧
      (∀ s, IsClass s → n ≤ s → closest_base_size n ≤ s) ∧
      (n < 16 → closest_base_size n = 16) ∧
      (IsClass n → closest_base_size n = n)) ∧
    (0xF0000000 < n → closest_base_size n = 0) := by
  constructor
  · intro hn
    have main := closest_base_size_main n hn
    refine ⟨main.1, main.2.1, main.2.2, ?_, ?_⟩
    · intro h16
      unfold closest_base_size BASE_SIZE_MIN
      rw [if_pos h16]
    · intro hc
      exact Nat.le_antisymm (main.2.2 n hc (le_refl n)) main.2.1
  · intro hn
    unfold closest_base_size BASE_SIZE_MIN BASE_SIZE_MAX
    rw [if_neg (by omega), if_pos hn]

theorem closest_base_size_smallest_class_witness :
    IsClass (closest_base_size 345) ∧ 345 ≤ closest_base_size 345 ∧
      (∀ s, IsClass s → 345 ≤ s → closest_base_size 345 ≤ s) ∧
      (345 < 16 → closest_base_size 345 = 16) ∧
      (IsClass 345 → closest_base_size 345 = 345) :=
  (closest_base_size_smallest_class 345).1 (by decide)

theorem class_index_table : ∀ k, k < 7 → ∀ m, m < 16 → 1 ≤ m →
    base_size_from_index (15 * k + m - 1) = m * 16 ^ (k + 1) ∧
    base_size_to_index (m * 16 ^ (k + 1)) = 15 * k + m - 1 := by decide!

theorem index_class_table : ∀ i, i < 105 →
    base_size_from_index i = (i % 15 + 1) * 16 ^ (i / 15 + 1) ∧
    base_size_to_index (base_size_from_index i) = i := by decide!

/-- C2. For every index `i` below 105, `base_size_to_index (base_size_from_index i)` is
`i`. -/
theorem base_size_index_roundtrip (i : Nat) (hi : i < BASE_SIZES_COUNT) :
    base_size_to_index (base_size_from_index i) = i :=
  (index_class_table i hi).2

theorem base_size_index_roundtrip_witness :
    base_size_to_index (base_size_from_index 104) = 104 :=
  base_size_index_roundtrip 104 (by decide)

/-- The index of a class is below 105 and `base_size_from_index` gives the class back. -/
theorem class_index_inverse (s : Nat) (hs : IsClass s) :
    base_size_to_index s < 105 ∧ base_size_from_index (base_size_to_index s) = s := by
  obtain ⟨k, m, hk, h1, h2, rfl⟩ := hs
  obtain ⟨e1, e2⟩ := class_index_table k (by omega) m (by omega) h1
  rw [e2, e1]
  exact ⟨by omega, rfl⟩

/-- C3. On the class values `base_size_to_index` is a bijection onto `0..104` with inverse
`base_size_from_index`: the index of a class is below 105 and `base_size_from_index` gives
the class back, distinct classes have distinct indices, and every index below 105 is the
index of the class `base_size_from_index i`. -/
theorem base_size_to_index_bijective :
    (∀ s, IsClass s →
      base_size_to_index s < BASE_SIZES_COUNT ∧
      base_size_from_index (base_size_to_index s) = s) ∧
    (∀ s t, IsClass s → IsClass t → base_size_to_index s = base_size_to_index t → s = t) ∧
    (∀ i, i < BASE_SIZES_COUNT → IsClass (base_size_from_index i) ∧
      base_size_to_index (base_size_from_index i) = i) := by
  refine ⟨class_index_inverse, ?_, ?_⟩
  · intro s t hs ht e
    rw [← (class_index_inverse s hs).2, ← (class_index_inverse t ht).2, e]
  · intro i hi
    have hi : i < 105 := hi
    obtain ⟨e1, e2⟩ := index_class_table i hi
    refine ⟨?_, e2⟩
    rw [e1]
    exact ⟨i / 15, i % 15 + 1, by omega, by omega, by omega, rfl⟩

theorem base_size_to_index_bijective_witness :
    (base_size_to_index 4096 < BASE_SIZES_COUNT ∧
      base_size_from_index (base_size_to_index 4096) = 4096) ∧
    (base_size_to_index 4096 = base_size_to_index (16 * 256) → 4096 = 16 * 256) ∧
    (IsClass (base_size_from_index 30) ∧
      base_size_to_index (base_size_from_index 30) = 30) :=
  ⟨base_size_to_index_bijective.1 4096 ⟨2, 1, by decide, by decide, by decide, by decide⟩,
   base_size_to_index_bijective.2.1 4096 (16 * 256)
     ⟨2, 1, by decide, by decide, by decide, by decide⟩
     ⟨2, 1, by decide, by decide, by decide, by decide⟩,
   base_size_to_index_bijective.2.2 30 (by decide)⟩

/-- C4. For every index `i` below 105, `base_size_from_index i` is
`((i mod 15) + 1) << (4 * ((i div 15) + 1))`, the shift-and-add expression
`((i << 7) + (i << 3) + i) >> 11` is `i div 15`, and the result is entry `i` of the table
of the 105 class values, which is in ascending order. -/
theorem base_size_from_index_formula :
    (∀ i, i < BASE_SIZES_COUNT →
      base_size_from_index i = ((i % 15) + 1) <<< (4 * ((i / 15) + 1)) ∧
      ((i <<< 7) + (i <<< 3) + i) >>> 11 = i / 15 ∧
      base_size_list[i]? = some (base_size_from_index i)) ∧
    base_size_list.length = BASE_SIZES_COUNT ∧
    List.Pairwise (fun a b => a < b) base_size_list := by
  decide!

theorem base_size_from_index_formula_witness :
    base_size_from_index 44 = ((44 % 15) + 1) <<< (4 * ((44 / 15) + 1)) ∧
      ((44 <<< 7) + (44 <<< 3) + 44) >>> 11 = 44 / 15 ∧
      base_size_list[44]? = some (base_size_from_index 44) :=
  base_size_from_index_formula.1 44 (by decide)

/-- C5. For every `k` in `0..6` and `m` in `1..15`, `base_size_to_index (m * 16 ^ (k + 1))`
is `15 * k + m - 1`, and the `U32` computation does not wrap: with `ctz = CTZ size & 0x1C`
and `tmp = ctz >> 2`, `tmp << 4` is at least `tmp`, `(tmp << 4) - tmp + (size >> ctz)` is
at least 16 and below `2 ^ 32`, and the index is that value minus 16. -/
theorem base_size_to_index_class :
    ∀ k, k < 7 → ∀ m, m < 16 → 1 ≤ m →
      base_size_to_index (m * 16 ^ (k + 1)) = 15 * k + m - 1 ∧
      (CTZ (m * 16 ^ (k + 1)) &&& 0x1C) >>> 2 ≤ ((CTZ (m * 16 ^ (k + 1)) &&& 0x1C) >>> 2) <<< 4 ∧
      16 ≤ (((CTZ (m * 16 ^ (k + 1)) &&& 0x1C) >>> 2) <<< 4)
          - ((CTZ (m * 16 ^ (k + 1)) &&& 0x1C) >>> 2)
          + ((m * 16 ^ (k + 1)) >>> (CTZ (m * 16 ^ (k + 1)) &&& 0x1C)) ∧
      (((CTZ (m * 16 ^ (k + 1)) &&& 0x1C) >>> 2) <<< 4)
          - ((CTZ (m * 16 ^ (k + 1)) &&& 0x1C) >>> 2)
          + ((m * 16 ^ (k + 1)) >>> (CTZ (m * 16 ^ (k + 1)) &&& 0x1C)) < 4294967296 ∧
      base_size_to_index (m * 16 ^ (k + 1)) =
        (((CTZ (m * 16 ^ (k + 1)) &&& 0x1C) >>> 2) <<< 4)
          - ((CTZ (m * 16 ^ (k + 1)) &&& 0x1C) >>> 2)
          + ((m * 16 ^ (k + 1)) >>> (CTZ (m * 16 ^ (k + 1)) &&& 0x1C)) - 16 := by
  decide!

theorem base_size_to_index_class_witness :
    base_size_to_index (15 * 16 ^ (6 + 1)) = 15 * 6 + 15 - 1 :=
  (base_size_to_index_class 6 (by decide) 15 (by decide) (by decide)).1

/-! ## The allocator on the 18 KiB heap of the spec

A region of 18 KiB (`0x4800` bytes) at `0x10000`, aligned on 64 KiB, is accepted by
`heap_create`; the spec and the test name this heap.  Level 2 (chunks of 4096 bytes) has
four whole chunks; chunk 4 of that level, which covers the last 2 KiB of the region and
2 KiB beyond it, is marked `ALLOC_HEAD` as padding.  The address `0x14000` is in the
region and aligned on 4096, so the search for the head level in `heap_get_alloc_size` and
`heap_free` starts at level 2, finds the padding and takes it for the head of an
allocation of 4096 bytes. -/

/-- C8. On the heap created over 18 KiB at `0x10000`, `heap_alloc (h, 0x800)` returns
`0x14000` and `heap_get_alloc_size` then reports 4096 bytes, not the 2048 bytes of the
request rounded up to 16.  After `heap_alloc (h, 0x4000)`, which returns `0x10000`,
`heap_get_alloc_size (h, 0x10000)` has no result: the address is aligned on 64 KiB, the
search starts at level 3, and `h->bitfield[3]` is `NULL`. -/
theorem heap_get_alloc_size_reports_padding :
    ((create_heap 0x10000 0x4800).bind fun h =>
      (heap_alloc h 0x800).bind fun r =>
        (heap_get_alloc_size r.1 r.2).map fun s => (r.2, s)) = some (0x14000, 4096) ∧
    round_up_to_16 0x800 = 2048 ∧
    ((create_heap 0x10000 0x4800).bind fun h =>
      (heap_alloc h 0x4000).map fun r => r.2) = some 0x10000 ∧
    ((create_heap 0x10000 0x4800).bind fun h =>
      (heap_alloc h 0x4000).bind fun r => heap_get_alloc_size r.1 r.2) = none := by
  decide!

/-- C6. On the same heap the calls `alloc 0x4000`, `alloc 0x800`, `free 0x14000`,
`alloc 4096` return `0x10000`, `0x14000` and `0x14000`: the last block ends at `0x15000`,
beyond the end `0x14800` of the region.  And a request of `0xFFFFFFF1` bytes, which the
rounding to 16 wraps to 0, gives no result at all on a fresh heap of 4096 bytes. -/
theorem heap_alloc_block_beyond_region :
    ((create_heap 0x10000 0x4800).bind fun h =>
      (run h [Call.alloc 0x4000, Call.alloc 0x800, Call.free 0x14000, Call.alloc 4096]).map
        fun r => (r.2, r.1.hdata, r.1.hsize))
      = some ([0x10000, 0x14000, 0x14000], 0x10000, 0x4800) ∧
    0x10000 + 0x4800 < 0x14000 + round_up_to_16 4096 ∧
    ((create_heap 0x1000 0x1000).bind fun h =>
      (heap_alloc h 0xFFFFFFF1).map fun r => r.2) = none := by
  decide!

/-- C7. On the same heap the calls `alloc 0x4000`, `alloc 0x400`, `alloc 0x400`,
`free 0x14000`, `alloc 4096` return `0x10000`, `0x14400`, `0x14000` and `0x14000`: the
block `[0x14000, 0x15000)` of the last call contains the block `[0x14400, 0x14800)` of the
second call, which has not been freed. -/
theorem heap_alloc_blocks_overlap :
    ((create_heap 0x10000 0x4800).bind fun h =>
      (run h [Call.alloc 0x4000, Call.alloc 0x400, Call.alloc 0x400, Call.free 0x14000,
        Call.alloc 4096]).map fun r => r.2) = some [0x10000, 0x14400, 0x14000, 0x14000] ∧
    0x14000 ≤ 0x14400 ∧ 0x14400 + round_up_to_16 0x400 ≤ 0x14000 + round_up_to_16 4096 := by
  decide!

/-- C10. On the same heap, after `alloc 0x4000`, `alloc 0x800` (which returns `0x14000`)
and `free 0x14000`, the status of `0x14000` is `ALLOC_HEAD`, not `FREE`. -/
theorem heap_free_leaves_alloc_head :
    ((create_heap 0x10000 0x4800).bind fun h =>
      (run h [Call.alloc 0x4000, Call.alloc 0x800, Call.free 0x14000]).bind fun r =>
        (heap_get_address_status r.1 0x14000).map fun s => (r.2, s))
      = some ([0x10000, 0x14000], eSTATUS_ALLOC_HEAD) ∧
    eSTATUS_ALLOC_HEAD ≠ eSTATUS_FREE := by
  decide!

/-! ## The size that `heap_get_alloc_size` reports -/

theorem optAll_none {α : Type} (P : α → Prop) : OptAll P none := by
  intro a h; cases h

theorem optAll_some {α : Type} (P : α → Prop) (a : α) (h : P a) : OptAll P (some a) := by
  intro b hb; cases hb; exact h

theorem optAll_bind {α β : Type} (P : β → Prop) (o : Option α) (f : α → Option β)
    (h : ∀ a, o = some a → OptAll P (f a)) : OptAll P (o.bind f) := by
  intro b hb
  cases o with
  | none => cases hb
  | some a => exact h a rfl b hb

theorem optAll_ite {α : Type} (P : α → Prop) (c : Prop) [Decidable c] (x y : Option α)
    (hx : c → OptAll P x) (hy : ¬ c → OptAll P y) : OptAll P (if c then x else y) := by
  by_cases hc : c
  · rw [if_pos hc]; exact hx hc
  · rw [if_neg hc]; exact hy hc

theorem ctzAux_le (fuel : Nat) : ∀ x, ctzAux fuel x ≤ fuel := by
  induction fuel with
  | zero => intro x; simp [ctzAux]
  | succ f ih =>
    intro x
    unfold ctzAux
    split
    · omega
    · have := ih (x / 2); omega

/-- The rounding of the request in `heap_alloc` is the spec's `round_up_to_16`, as long as
it does not wrap. -/
theorem needed_sz_eq (n : Nat) (h2 : n ≤ 0xFFFFFFF0) :
    add32 n (BASE_SIZE_MIN - 1) &&& not32 (BASE_SIZE_MIN - 1) = round_up_to_16 n := by
  unfold add32 not32 BASE_SIZE_MIN round_up_to_16
  rw [Nat.mod_eq_of_lt (by omega)]
  exact and_not_low (n + 15) 4 (by omega) (by decide)

theorem round_up_to_16_fix (N : Nat) (hN : N ≤ 0xFFFFFFF0) (h16 : N % 16 = 0) :
    add32 N (BASE_SIZE_MIN - 1) &&& not32 (BASE_SIZE_MIN - 1) = N := by
  rw [needed_sz_eq N hN]
  unfold round_up_to_16; omega

/-- The function `heap_alloc` sees its argument only through the rounding to 16. -/
theorem heap_alloc_rounds (h : heap) (n : Nat) (h1 : 1 ≤ n) (h2 : n ≤ 0xFFFFFFF0) :
    heap_alloc h n = heap_alloc h (round_up_to_16 n) := by
  have e1 := needed_sz_eq n h2
  have e2 : add32 (round_up_to_16 n) (BASE_SIZE_MIN - 1) &&& not32 (BASE_SIZE_MIN - 1)
      = round_up_to_16 n := by
    rw [needed_sz_eq _ (by unfold round_up_to_16; omega)]
    unfold round_up_to_16; omega
  have e3 : round_up_to_16 n ≠ 0 := by unfold round_up_to_16; omega
  unfold heap_alloc
  simp only [e1, e2, if_neg e3, if_neg (show n ≠ 0 by omega)]

/-- The function `heap_alloc` returns `NULL` and leaves the heap alone when no list is
available. -/
theorem heap_alloc_null (h : heap) (n : Nat) (hn : n ≠ 0)
    (hidx : next_available_head_index h (add32 n (BASE_SIZE_MIN - 1) &&& not32 (BASE_SIZE_MIN - 1))
      = some BASE_SIZES_COUNT) : heap_alloc h n = some (h, 0) := by
  unfold heap_alloc
  rw [if_neg hn]
  simp only [hidx, Option.some_bind, if_true]

theorem next_available_head_index_none (h : heap) (N : Nat) (hc0 : closest_base_size N ≠ 0)
    (t : next_available_head_index_from h (base_size_to_index (closest_base_size N)) = some 105) :
    next_available_head_index h N = some BASE_SIZES_COUNT := by
  unfold next_available_head_index
  dsimp only
  rw [if_neg hc0, t]
  rfl

/-! ### The fresh heap of 4096 bytes at `0x1000` -/

theorem created_4k : (create_heap 0x1000 0x1000).isSome = true := by decide!

theorem keeps_refl (h : heap) : Keeps h h :=
  ⟨⟨rfl, rfl, rfl, rfl, rfl, rfl⟩, fun r => r⟩

theorem keeps_trans {h h1 h2 : heap} (a : Keeps h h1) (b : Keeps h1 h2) : Keeps h h2 := by
  obtain ⟨⟨a1, a2, a3, a4, a5, a6⟩, ar⟩ := a
  obtain ⟨⟨b1, b2, b3, b4, b5, b6⟩, br⟩ := b
  exact ⟨⟨b1.trans a1, b2.trans a2, b3.trans a3, b4.trans a4, b5.trans a5, b6.trans a6⟩,
    fun r => br (ar r)⟩

theorem keeps_bind {α β : Type} (h : heap) (p : α → heap) (q : β → heap) (o : Option α)
    (f : α → Option β) (ho : OptAll (fun a => Keeps h (p a)) o)
    (hf : ∀ a, OptAll (fun b => Keeps (p a) (q b)) (f a)) :
    OptAll (fun b => Keeps h (q b)) (o.bind f) := by
  apply optAll_bind
  intro a ha b hb
  exact keeps_trans (ho a ha) (hf a b hb)

theorem keeps_mono {α : Type} {h h1 : heap} (p : α → heap) (o : Option α) (k : Keeps h h1)
    (ho : OptAll (fun a => Keeps h1 (p a)) o) : OptAll (fun a => Keeps h (p a)) o :=
  fun a ha => keeps_trans k (ho a ha)

theorem update_prev_keeps (h : heap) (c p : Nat) : OptAll (Keeps h) (update_prev h c p) := by
  unfold update_prev
  apply optAll_ite
  · intro _; exact optAll_some _ _ ⟨⟨rfl, rfl, rfl, rfl, rfl, rfl⟩, fun r => r⟩
  · intro _; exact optAll_none _

theorem update_next_keeps (h : heap) (c n : Nat) : OptAll (Keeps h) (update_next h c n) := by
  unfold update_next
  apply optAll_ite
  · intro _; exact optAll_some _ _ ⟨⟨rfl, rfl, rfl, rfl, rfl, rfl⟩, fun r => r⟩
  · intro _; exact optAll_none _

theorem bit_eq (i : Nat) : 0x80000000 >>> (i &&& 31) = 2 ^ (31 - i % 32) := by
  have e : i &&& 31 = i % 32 := Nat.and_pow_two_sub_one_eq_mod i 5
  rw [e, Nat.shiftRight_eq_div_pow, show (0x80000000 : Nat) = 2 ^ 31 from rfl,
    Nat.pow_div (by omega) (by decide)]

theorem word_eq (i : Nat) : i >>> 5 = i / 32 := Nat.shiftRight_eq_div_pow i 5

theorem not32_bit (a : Nat) (ha : a ≤ 31) : not32 (2 ^ a) = 2 ^ 32 - (2 ^ a + 1) := by
  have : 2 ^ a < 2 ^ 32 := Nat.pow_lt_pow_right (by decide) (by omega)
  unfold not32
  rw [Nat.mod_eq_of_lt (by omega)]
  omega

/-- Setting the bit of list `i` sets it and touches no other. -/
theorem occ_bit_set (hb : Nat → Nat) (i j : Nat) :
    occ_bit (store hb (i >>> 5) (hb (i >>> 5) ||| (0x80000000 >>> (i &&& 31)))) j
      = (decide (j = i) || occ_bit hb j) := by
  rw [bit_eq, word_eq]
  unfold occ_bit store
  by_cases hw : j / 32 = i / 32
  · rw [if_pos hw, Nat.testBit_or, Nat.testBit_two_pow, hw]
    by_cases hji : j = i
    · subst hji; simp
    · have : ¬ (31 - i % 32 = 31 - j % 32) := by omega
      simp [this, hji]
  · rw [if_neg hw]
    have : j ≠ i := by intro e; rw [e] at hw; exact hw rfl
    simp [this]

/-- Clearing the bit of list `i` clears it and touches no other. -/
theorem occ_bit_clear (hb : Nat → Nat) (i j : Nat) :
    occ_bit (store hb (i >>> 5) (hb (i >>> 5) &&& not32 (0x80000000 >>> (i &&& 31)))) j
      = (!decide (j = i) && occ_bit hb j) := by
  rw [bit_eq, word_eq, not32_bit _ (by omega)]
  unfold occ_bit store
  by_cases hw : j / 32 = i / 32
  · have hlt : 2 ^ (31 - i % 32) < 2 ^ 32 := Nat.pow_lt_pow_right (by decide) (by omega)
    rw [if_pos hw, Nat.testBit_and, Nat.testBit_two_pow_sub_succ hlt, Nat.testBit_two_pow, hw]
    by_cases hji : j = i
    · subst hji; simp
    · have : ¬ (31 - i % 32 = 31 - j % 32) := by omega
      have h31 : 31 - j % 32 < 32 := by omega
      simp [this, hji, h31, Bool.and_comm]
  · rw [if_neg hw]
    have : j ≠ i := by intro e; rw [e] at hw; exact hw rfl
    simp [this]

theorem bit_lt (i : Nat) : 0x80000000 >>> (i &&& 31) < 2 ^ 32 := by
  rw [bit_eq]
  exact Nat.pow_lt_pow_right (by decide) (by omega)

theorem registry_set (hb heads : Nat → Nat) (cnt i c : Nat) (r : RegistryOf hb heads cnt)
    (hi : i < cnt) (hc : c ≠ 0) :
    RegistryOf (store hb (i >>> 5) (hb (i >>> 5) ||| (0x80000000 >>> (i &&& 31))))
      (store heads i c) cnt := by
  refine ⟨r.cnt_le, ?_, ?_, ?_, ?_⟩
  · intro w
    unfold store
    split
    · exact Nat.or_lt_two_pow (r.word _) (bit_lt i)
    · exact r.word w
  · intro j hj
    rw [occ_bit_set]
    unfold store
    by_cases hji : j = i
    · simp [hji, hc]
    · simp [hji, r.sync j hj]
  · intro j h1 h2
    rw [occ_bit_set, r.clear j h1 h2]
    have : j ≠ i := by omega
    simp [this]
  · intro j h1 h2
    rw [occ_bit_set, r.sentinel j h1 h2]
    simp

theorem registry_clear (hb heads : Nat → Nat) (cnt i : Nat) (r : RegistryOf hb heads cnt)
    (hi : i < cnt) :
    RegistryOf (store hb (i >>> 5) (hb (i >>> 5) &&& not32 (0x80000000 >>> (i &&& 31))))
      (store heads i 0) cnt := by
  have hc := r.cnt_le
  have hc : cnt ≤ 105 := hc
  refine ⟨r.cnt_le, ?_, ?_, ?_, ?_⟩
  · intro w
    unfold store
    split
    · exact lt_of_le_of_lt Nat.and_le_left (r.word _)
    · exact r.word w
  · intro j hj
    rw [occ_bit_clear]
    unfold store
    by_cases hji : j = i
    · simp [hji]
    · simp [hji, r.sync j hj]
  · intro j h1 h2
    rw [occ_bit_clear, r.clear j h1 h2]
    simp
  · intro j h1 h2
    have h1 : 105 ≤ j := h1
    rw [occ_bit_clear, r.sentinel j h1 h2]
    have : j ≠ i := by omega
    simp [this]

theorem update_head_keeps (h : heap) (index c : Nat) :
    OptAll (Keeps h) (update_head h index c) := by
  unfold update_head
  apply optAll_ite
  · intro _; exact optAll_none _
  · intro _
    apply optAll_ite
    · intro _; exact optAll_none _
    · intro hi
      apply optAll_some
      refine ⟨⟨rfl, rfl, rfl, rfl, rfl, rfl⟩, ?_⟩
      intro r
      have hi' : index < h.hdcnt := by omega
      unfold Registry
      dsimp only
      by_cases hc : c = 0
      · rw [if_neg (by simpa using hc)]
        subst hc
        exact registry_clear _ _ _ _ r hi'
      · rw [if_pos hc]
        exact registry_set _ _ _ index c r hi' hc


theorem push_head_keeps (h : heap) (hidx c : Nat) : OptAll (Keeps h) (push_head h hidx c) := by
  unfold push_head
  apply optAll_bind
  intro hd _
  apply keeps_bind h id id _ _ (update_next_keeps h c hd)
  intro h1
  apply keeps_bind h1 id id _ _ (update_prev_keeps h1 c 0)
  intro h2
  apply keeps_bind h2 id id _ _ (update_head_keeps h2 hidx c)
  intro h3
  apply optAll_ite
  · intro _; exact update_prev_keeps h3 hd c
  · intro _; exact optAll_some _ _ (keeps_refl h3)

theorem new_head_keeps (h : heap) (c lvl15 tot : Nat) :
    OptAll (Keeps h) (new_head h c lvl15 tot) := by
  unfold new_head
  exact push_head_keeps h _ c

theorem chunk_remove_from_list_keeps (h : heap) (c h_idx : Nat) :
    OptAll (Keeps h) (chunk_remove_from_list h c h_idx) := by
  unfold chunk_remove_from_list
  apply optAll_bind
  intro cnext _
  apply keeps_bind h id id
  · apply optAll_ite
    · intro _
      apply optAll_bind
      intro cprev _
      exact update_prev_keeps h cnext cprev
    · intro _; exact optAll_some _ _ (keeps_refl h)
  · intro h1
    apply optAll_bind
    intro cprev _
    apply optAll_ite
    · intro _
      apply optAll_bind
      intro cn _
      exact update_next_keeps h1 cprev cn
    · intro _
      apply optAll_bind
      intro cn _
      exact update_head_keeps h1 h_idx cn

theorem heap_set_split_keeps (h : heap) (lvl index : Nat) :
    OptAll (Keeps h) (heap_set_split h lvl index) := by
  unfold heap_set_split
  apply optAll_bind
  intro bf _
  exact optAll_some _ _ ⟨⟨rfl, rfl, rfl, rfl, rfl, rfl⟩, fun r => r⟩

theorem heap_set_alloc_head_keeps (h : heap) (lvl index : Nat) :
    OptAll (Keeps h) (heap_set_alloc_head h lvl index) := by
  unfold heap_set_alloc_head
  apply optAll_bind
  intro bf _
  exact optAll_some _ _ ⟨⟨rfl, rfl, rfl, rfl, rfl, rfl⟩, fun r => r⟩

theorem heap_set_alloc_multi_keeps (h : heap) (lvl index cnt : Nat) :
    OptAll (Keeps h) (heap_set_alloc_multi h lvl index cnt) := by
  unfold heap_set_alloc_multi
  apply optAll_bind
  intro bf _
  apply optAll_bind
  intro mem _
  exact optAll_some _ _ ⟨⟨rfl, rfl, rfl, rfl, rfl, rfl⟩, fun r => r⟩

theorem bitfield_store_keeps (h : heap) (lvl w v : Nat) :
    OptAll (Keeps h) (bitfield_store h lvl w v) := by
  unfold bitfield_store
  apply optAll_bind
  intro bf _
  exact optAll_some _ _ ⟨⟨rfl, rfl, rfl, rfl, rfl, rfl⟩, fun r => r⟩

theorem heap_alloc_carve_keeps (base extra_sz needed_sz : Nat) :
    ∀ fuel h c bs_level shift,
      OptAll (fun r => Keeps h r.1)
        (heap_alloc_carve base extra_sz needed_sz fuel h c bs_level shift) := by
  intro fuel
  induction fuel with
  | zero =>
    intro h c bs_level shift
    unfold heap_alloc_carve
    exact optAll_none _
  | succ fuel ih =>
    intro h c bs_level shift
    unfold heap_alloc_carve
    apply optAll_ite
    · intro _; exact optAll_none _
    · intro _
      apply keeps_bind h (fun r : heap × Nat => r.1) (fun r : heap × Nat × Nat × Nat × Nat => r.1)
      · apply optAll_ite
        · intro _
          apply keeps_bind h id (fun r : heap × Nat => r.1) _ _ (push_head_keeps h _ c)
          intro h1
          exact optAll_some _ _ (keeps_refl h1)
        · intro _; exact optAll_some _ _ (keeps_refl h)
      · intro a
        obtain ⟨h1, c1⟩ := a
        dsimp only
        apply optAll_ite
        · intro _; exact optAll_some _ _ (keeps_refl h1)
        · intro _
          apply keeps_bind h1 id (fun r : heap × Nat × Nat × Nat × Nat => r.1) _ _
            (heap_set_split_keeps h1 _ _)
          intro h2
          exact ih h2 _ _ _

theorem heap_alloc_tail_keeps (base extra_sz : Nat) :
    ∀ fuel h c bs_level shift main_bs needed_sz,
      OptAll (Keeps h)
        (heap_alloc_tail base extra_sz fuel h c bs_level shift main_bs needed_sz) := by
  intro fuel
  induction fuel with
  | zero =>
    intro h c bs_level shift main_bs needed_sz
    rw [heap_alloc_tail]
    exact optAll_none _
  | succ fuel ih =>
    intro h c bs_level shift main_bs needed_sz
    rw [heap_alloc_tail]
    apply optAll_ite
    · intro _; exact optAll_none _
    · intro _
      apply keeps_bind h (fun r : heap × Nat => r.1) id
      · apply optAll_ite
        · intro _
          apply keeps_bind h id (fun r : heap × Nat => r.1) _ _
            (heap_set_alloc_multi_keeps h _ _ _)
          intro h1
          exact optAll_some _ _ (keeps_refl h1)
        · intro _; exact optAll_some _ _ (keeps_refl h)
      · intro a
        obtain ⟨h1, c1⟩ := a
        dsimp only
        apply keeps_bind h1 id id
        · apply optAll_ite
          · intro _; exact push_head_keeps h1 _ _
          · intro _; exact optAll_some _ _ (keeps_refl h1)
        · intro h2
          apply optAll_ite
          · intro _; exact optAll_some _ _ (keeps_refl h2)
          · intro _
            apply optAll_ite
            · intro _; exact optAll_some _ _ (keeps_refl h2)
            · intro _
              apply keeps_bind h2 id id _ _ (heap_set_split_keeps h2 _ _)
              intro h3
              exact ih h3 _ _ _ _ _

theorem heap_alloc_keeps (h : heap) (sz : Nat) :
    OptAll (fun r => Keeps h r.1) (heap_alloc h sz) := by
  unfold heap_alloc
  apply optAll_ite
  · intro _; exact optAll_some _ _ (keeps_refl h)
  · intro _
    apply optAll_bind
    intro index _
    apply optAll_ite
    · intro _; exact optAll_some _ _ (keeps_refl h)
    · intro _
      apply optAll_ite
      · intro _; exact optAll_none _
      · intro _
        apply optAll_bind
        intro c _
        apply optAll_bind
        intro cnext _
        apply keeps_bind h id (fun r : heap × Nat => r.1)
        · apply optAll_ite
          · intro _; exact update_prev_keeps h cnext 0
          · intro _; exact optAll_some _ _ (keeps_refl h)
        · intro h1
          apply optAll_bind
          intro cnext1 _
          apply keeps_bind h1 id (fun r : heap × Nat => r.1) _ _ (update_head_keeps h1 _ _)
          intro h2
          apply optAll_bind
          intro ctz _
          apply keeps_bind h2 (fun r : heap × Nat × Nat × Nat × Nat => r.1)
            (fun r : heap × Nat => r.1) _ _ (heap_alloc_carve_keeps _ _ _ 9 h2 _ _ _)
          intro a
          obtain ⟨h3, c3, lvl3, shift3, lns3⟩ := a
          dsimp only
          apply keeps_bind h3 id (fun r : heap × Nat => r.1) _ _
            (heap_set_alloc_head_keeps h3 _ _)
          intro h4
          apply keeps_bind h4 (fun r : heap × Nat => r.1) (fun r : heap × Nat => r.1)
          · apply optAll_ite
            · intro _
              apply keeps_bind h4 id (fun r : heap × Nat => r.1) _ _
                (heap_set_alloc_multi_keeps h4 _ _ _)
              intro h5
              exact optAll_some _ _ (keeps_refl h5)
            · intro _; exact optAll_some _ _ (keeps_refl h4)
          · intro a
            obtain ⟨h5, c5⟩ := a
            dsimp only
            apply keeps_bind h5 id (fun r : heap × Nat => r.1)
            · apply optAll_ite
              · intro _; exact heap_set_split_keeps h5 _ _
              · intro _; exact optAll_some _ _ (keeps_refl h5)
            · intro h6
              apply optAll_ite
              · intro _
                apply keeps_bind h6 id (fun r : heap × Nat => r.1) _ _
                  (heap_alloc_tail_keeps _ _ 9 h6 _ _ _ _ _)
                intro h7
                exact optAll_some _ _ (keeps_refl h7)
              · intro _; exact optAll_some _ _ (keeps_refl h6)


theorem heap_free_tail_keeps (base tot_size bottom_addr head_lvl : Nat) :
    ∀ fuel h lvl shift sub_empty,
      OptAll (fun r => Keeps h r.1)
        (heap_free_tail base tot_size bottom_addr head_lvl fuel h lvl shift sub_empty) := by
  intro fuel
  induction fuel with
  | zero =>
    intro h lvl shift sub_empty
    rw [heap_free_tail]
    exact optAll_none _
  | succ fuel ih =>
    intro h lvl shift sub_empty
    rw [heap_free_tail]
    apply optAll_ite
    · intro _; exact optAll_some _ _ (keeps_refl h)
    · intro _
      apply optAll_ite
      · intro _; exact optAll_none _
      · intro _
        apply keeps_bind h (fun r : heap × Nat × Nat => r.1)
          (fun r : heap × Nat × Nat × Nat => r.1)
        · apply optAll_ite
          · intro _
            apply optAll_bind
            intro stat _
            apply optAll_ite
            · intro _; exact optAll_none _
            · intro _
              apply optAll_bind
              intro clz _
              apply keeps_bind h id (fun r : heap × Nat × Nat => r.1)
              · apply optAll_ite
                · intro _; exact chunk_remove_from_list_keeps h _ _
                · intro _; exact optAll_some _ _ (keeps_refl h)
              · intro h1
                apply optAll_ite
                · intro _; exact optAll_none _
                · intro _; exact optAll_some _ _ (keeps_refl h1)
          · intro _; exact optAll_some _ _ (keeps_refl h)
        · intro a
          obtain ⟨h1, next, new_bf⟩ := a
          dsimp only
          apply optAll_ite
          · intro _; exact optAll_none _
          · intro _
            apply keeps_bind h1 id (fun r : heap × Nat × Nat × Nat => r.1) _ _
              (bitfield_store_keeps h1 _ _ _)
            intro h2
            apply keeps_bind h2 (fun r : heap × Nat × Nat => r.1)
              (fun r : heap × Nat × Nat × Nat => r.1)
            · apply optAll_ite
              · intro _; exact optAll_some _ _ (keeps_refl h2)
              · intro _
                apply keeps_bind h2 id (fun r : heap × Nat × Nat => r.1) _ _
                  (new_head_keeps h2 _ _ _)
                intro h3
                apply optAll_ite
                · intro _; exact optAll_none _
                · intro _
                  apply optAll_bind
                  intro ctz _
                  exact optAll_some _ _ (keeps_refl h3)
            · intro a
              obtain ⟨h3, se, l3⟩ := a
              dsimp only
              exact ih h3 _ _ _

theorem heap_free_merge_keeps (base reladdr : Nat) :
    ∀ fuel h lvl shift base_size sub_empty,
      OptAll (Keeps h) (heap_free_merge base reladdr fuel h lvl shift base_size sub_empty) := by
  intro fuel
  induction fuel with
  | zero =>
    intro h lvl shift base_size sub_empty
    rw [heap_free_merge]
    exact optAll_none _
  | succ fuel ih =>
    intro h lvl shift base_size sub_empty
    rw [heap_free_merge]
    apply optAll_ite
    · intro _; exact optAll_none _
    · intro _
      apply optAll_bind
      intro stat _
      apply keeps_bind h (fun r : heap × Nat × Nat => r.1) id
      · apply optAll_ite
        · intro _
          apply optAll_ite
          · intro _; exact optAll_none _
          · intro _
            apply optAll_bind
            intro clz _
            apply keeps_bind h id (fun r : heap × Nat × Nat => r.1)
            · apply optAll_ite
              · intro _; exact chunk_remove_from_list_keeps h _ _
              · intro _; exact optAll_some _ _ (keeps_refl h)
            · intro h1
              apply optAll_ite
              · intro _; exact optAll_none _
              · intro _; exact optAll_some _ _ (keeps_refl h1)
        · intro _; exact optAll_some _ _ (keeps_refl h)
      · intro a
        obtain ⟨h1, next, new_bf⟩ := a
        dsimp only
        apply keeps_bind h1 (fun r : heap × Nat × Nat => r.1) id
        · apply optAll_ite
          · intro _
            apply optAll_bind
            intro ctz _
            apply keeps_bind h1 id (fun r : heap × Nat × Nat => r.1)
            · apply optAll_ite
              · intro _; exact chunk_remove_from_list_keeps h1 _ _
              · intro _; exact optAll_some _ _ (keeps_refl h1)
            · intro h2
              exact optAll_some _ _ (keeps_refl h2)
          · intro _; exact optAll_some _ _ (keeps_refl h1)
        · intro a
          obtain ⟨h2, prev, new_bf2⟩ := a
          dsimp only
          apply optAll_ite
          · intro _; exact optAll_none _
          · intro _
            apply keeps_bind h2 id id _ _ (bitfield_store_keeps h2 _ _ _)
            intro h3
            apply optAll_ite
            · intro _; exact new_head_keeps h3 _ _ _
            · intro _; exact ih h3 _ _ _ _

theorem heap_free_keeps (h : heap) (address : Nat) : OptAll (Keeps h) (heap_free h address) := by
  unfold heap_free
  apply optAll_ite
  · intro _; exact optAll_some _ _ (keeps_refl h)
  · intro _
    apply optAll_bind
    intro ctz _
    apply optAll_ite
    · intro _; exact optAll_none _
    · intro _
      apply optAll_bind
      intro r _
      cases r with
      | none => exact optAll_some _ _ (keeps_refl h)
      | some r =>
        obtain ⟨lvl, shift, idx⟩ := r
        dsimp only
        apply optAll_bind
        intro a _
        obtain ⟨lvl1, shift1, tot_size⟩ := a
        dsimp only
        apply keeps_bind h (fun r : heap × Nat × Nat × Nat => r.1) id _ _
          (heap_free_tail_keeps _ _ _ _ 9 h _ _ _)
        intro a
        obtain ⟨h1, lvl2, shift2, se⟩ := a
        dsimp only
        apply optAll_ite
        · intro _; exact optAll_none _
        · intro _; exact heap_free_merge_keeps _ _ 9 h1 _ _ _ _

/-- Every heap that calls of `heap_alloc` and `heap_free` lead to has the shape of the
first one, and a coherent registry when the first one has. -/
theorem reachable_keeps {h0 h : heap} (r : Reachable h0 h) : Keeps h0 h := by
  induction r with
  | start => exact keeps_refl h0
  | alloc sz p _ ha ih => exact keeps_trans ih (heap_alloc_keeps _ sz _ ha)
  | free address _ hf ih => exact keeps_trans ih (heap_free_keeps _ address _ hf)

/-! ## The scan of the occupancy words -/

theorem clz_of_bits (y l : Nat) (hl : l ≤ 31) (hset : y.testBit l = true)
    (hclr : ∀ b, l < b → y.testBit b = false) : CLZ y = 31 - l :=
  clz_of_bounds y l hl (Nat.testBit_implies_ge hset)
    (Nat.lt_pow_two_of_testBit y (fun b hb => hclr b (by omega)))

theorem zero_of_bits (y : Nat) (h : ∀ b, y.testBit b = false) : y = 0 :=
  Nat.eq_of_testBit_eq (fun b => by rw [h b, Nat.zero_testBit])

theorem testBit_shl32 (x t b : Nat) :
    (shl32 x t).testBit b = (decide (b < 32) && (decide (t ≤ b) && x.testBit (b - t))) := by
  unfold shl32
  rw [show (4294967296 : Nat) = 2 ^ 32 from rfl, Nat.testBit_mod_two_pow, Nat.testBit_shiftLeft]

theorem bit_of_word (hb : Nat → Nat) (s b : Nat) (hb31 : b ≤ 31) :
    (hb s).testBit b = occ_bit hb (32 * s + (31 - b)) := by
  unfold occ_bit
  rw [show (32 * s + (31 - b)) / 32 = s by omega, show 31 - (32 * s + (31 - b)) % 32 = b by omega]

theorem high_bits (x : Nat) (hx : x < 2 ^ 32) (b : Nat) (hb : 32 ≤ b) : x.testBit b = false :=
  Nat.testBit_lt_two_pow (lt_of_lt_of_le hx (Nat.pow_le_pow_right (by decide) hb))

/-- A word of `headsbits` none of whose lists is occupied is zero. -/
theorem word_zero (hb : Nat → Nat) (s i : Nat) (hw : hb s < 2 ^ 32)
    (hclear : ∀ j, i ≤ j → j < 105 → occ_bit hb j = false) (h1 : i ≤ 32 * s) (h2 : s < 3) :
    hb s = 0 := by
  apply zero_of_bits
  intro b
  by_cases hb32 : b < 32
  · rw [bit_of_word hb s b (by omega)]
    exact hclear _ (by omega) (by omega)
  · exact high_bits _ hw b (by omega)

/-- The sentinel word, when no list from 96 on is occupied. -/
theorem clz_sentinel (hb : Nat → Nat) (i : Nat) (hw : hb 3 < 2 ^ 32)
    (hclear : ∀ j, i ≤ j → j < 105 → occ_bit hb j = false)
    (hsent : ∀ j, 105 ≤ j → j < 128 → occ_bit hb j = true) (h1 : i ≤ 96) :
    hb 3 ≠ 0 ∧ CLZ (hb 3) = 9 := by
  have hset : (hb 3).testBit 22 = true := by
    rw [bit_of_word hb 3 22 (by decide)]
    exact hsent _ (by decide) (by decide)
  have hc := clz_of_bits (hb 3) 22 (by decide) hset (by
    intro b hb22
    by_cases hb32 : b < 32
    · rw [bit_of_word hb 3 b (by omega)]
      exact hclear _ (by omega) (by omega)
    · exact high_bits _ hw b (by omega))
  refine ⟨?_, hc⟩
  intro h0
  rw [h0] at hset
  simp at hset

/-- The shifted first word of the scan is zero when the scan starts below word 3. -/
theorem shl_zero (hb : Nat → Nat) (i : Nat)
    (hclear : ∀ j, i ≤ j → j < 105 → occ_bit hb j = false) (h1 : i < 96) :
    shl32 (hb (i / 32)) (i % 32) = 0 := by
  apply zero_of_bits
  intro b
  rw [testBit_shl32]
  by_cases hb32 : b < 32
  · by_cases ht : i % 32 ≤ b
    · rw [bit_of_word hb (i / 32) (b - i % 32) (by omega)]
      rw [hclear _ (by omega) (by omega)]
      simp
    · simp [ht]
  · simp [hb32]

/-- The shifted first word of the scan when the scan starts in word 3. -/
theorem shl_sentinel (hb : Nat → Nat) (i : Nat)
    (hclear : ∀ j, i ≤ j → j < 105 → occ_bit hb j = false)
    (hsent : ∀ j, 105 ≤ j → j < 128 → occ_bit hb j = true) (h1 : 96 ≤ i) (h2 : i < 105) :
    shl32 (hb 3) (i % 32) ≠ 0 ∧ CLZ (shl32 (hb 3) (i % 32)) = 105 - i := by
  have hset : (shl32 (hb 3) (i % 32)).testBit (22 + i % 32) = true := by
    rw [testBit_shl32, show 22 + i % 32 - i % 32 = 22 by omega,
      bit_of_word hb 3 22 (by decide), hsent _ (by decide) (by decide)]
    have : 22 + i % 32 < 32 := by omega
    simp [this]
  have hc := clz_of_bits _ (22 + i % 32) (by omega) hset (by
    intro b hb22
    rw [testBit_shl32]
    by_cases hb32 : b < 32
    · rw [bit_of_word hb 3 (b - i % 32) (by omega), hclear _ (by omega) (by omega)]
      simp
    · simp [hb32])
  refine ⟨?_, by rw [hc]; omega⟩
  intro h0
  rw [h0] at hset
  simp at hset

/-- The scan of the occupancy words finds nothing when no list from `i` on is occupied. -/
theorem scan_none (h : heap) (i : Nat) (hw : ∀ w, h.headsbits w < 2 ^ 32)
    (hclear : ∀ j, i ≤ j → j < 105 → occ_bit h.headsbits j = false)
    (hsent : ∀ j, 105 ≤ j → j < 128 → occ_bit h.headsbits j = true) (hi : i < 105) :
    next_available_head_index_from h i = some 105 := by
  have e31 : i &&& 0x1F = i % 32 := Nat.and_pow_two_sub_one_eq_mod i 5
  unfold next_available_head_index_from
  dsimp only
  rw [word_eq, e31]
  by_cases h96 : i < 96
  · have hx := shl_zero h.headsbits i hclear h96
    obtain ⟨hn3, hc3⟩ := clz_sentinel h.headsbits i (hw 3) hclear hsent (by omega)
    have hs : i / 32 = 0 ∨ i / 32 = 1 ∨ i / 32 = 2 := by omega
    rcases hs with hs | hs | hs
    · have w1 := word_zero h.headsbits 1 i (hw 1) hclear (by omega) (by decide)
      have w2 := word_zero h.headsbits 2 i (hw 2) hclear (by omega) (by decide)
      rw [hs] at hx ⊢
      rw [if_neg (by decide), if_pos hx]
      simp [w1, w2, hn3, hc3, HEADS_BITS_SIZE, add32, shl32]
    · have w2 := word_zero h.headsbits 2 i (hw 2) hclear (by omega) (by decide)
      rw [hs] at hx ⊢
      rw [if_neg (by decide), if_pos hx]
      simp [w2, hn3, hc3, HEADS_BITS_SIZE, add32, shl32]
    · rw [hs] at hx ⊢
      rw [if_neg (by decide), if_pos hx]
      simp [hn3, hc3, HEADS_BITS_SIZE, add32, shl32]
  · obtain ⟨hn, hc⟩ := shl_sentinel h.headsbits i hclear hsent (by omega) hi
    have hs : i / 32 = 3 := by omega
    rw [hs]
    simp [hn, hc, HEADS_BITS_SIZE, add32]
    omega

/-! ## The arguments that `heap_create` rejects -/

theorem band_exists (size : Nat) (h1 : 16 ≤ size) (h2 : size < 2 ^ 32) :
    ∃ j, 1 ≤ j ∧ j ≤ 7 ∧ 16 ^ j ≤ size ∧ size < 16 ^ (j + 1) := by
  by_cases a1 : size < 16 ^ 2
  · exact ⟨1, by decide, by decide, by omega, a1⟩
  by_cases a2 : size < 16 ^ 3
  · exact ⟨2, by decide, by decide, by omega, a2⟩
  by_cases a3 : size < 16 ^ 4
  · exact ⟨3, by decide, by decide, by omega, a3⟩
  by_cases a4 : size < 16 ^ 5
  · exact ⟨4, by decide, by decide, by omega, a4⟩
  by_cases a5 : size < 16 ^ 6
  · exact ⟨5, by decide, by decide, by omega, a5⟩
  by_cases a6 : size < 16 ^ 7
  · exact ⟨6, by decide, by decide, by omega, a6⟩
  · exact ⟨7, by decide, by decide, by omega, by omega⟩

theorem largest_main_eq (size j : Nat) (hj : 1 ≤ j) (hj7 : j ≤ 7) (h1 : 16 ^ j ≤ size)
    (h2 : size < 16 ^ (j + 1)) : 0x10000000 >>> (CLZ size &&& 0x1C) = 16 ^ j := by
  rw [clz_band size j hj hj7 h1 h2]
  interval_cases j <;> rfl

theorem and_largest_sub_one (address j : Nat) (hj : 1 ≤ j) (hj7 : j ≤ 7) :
    address &&& sub32 (16 ^ j) 1 = address % 16 ^ j := by
  have e : sub32 (16 ^ j) 1 = 2 ^ (4 * j) - 1 := by
    interval_cases j <;> rfl
  rw [e, Nat.and_pow_two_sub_one_eq_mod, Nat.pow_mul]

/-- C18. The function `heap_create` returns `NULL` when `size` is 0, when `size` is not a
multiple of 16, and when `address` is not a multiple of the largest main size `16 ^ j` that
is at most `size`; for every `size` from 16 up to `2 ^ 32 - 1` there is such a `j` in
`1..7`, and `0x10000000 >> (CLZ size & 0x1C)` is `16 ^ j`. -/
theorem heap_create_null (junk : Nat → Nat) (region : Nat → chunk) (address size : Nat) :
    heap_create junk region address 0 = some none ∧
    (size % 16 ≠ 0 → heap_create junk region address size = some none) ∧
    (∀ j, 1 ≤ j → j ≤ 7 → 16 ^ j ≤ size → size < 16 ^ (j + 1) →
      0x10000000 >>> (CLZ size &&& 0x1C) = 16 ^ j ∧
      (address % 16 ^ j ≠ 0 → heap_create junk region address size = some none)) ∧
    (16 ≤ size → size < 2 ^ 32 → ∃ j, 1 ≤ j ∧ j ≤ 7 ∧ 16 ^ j ≤ size ∧ size < 16 ^ (j + 1)) := by
  refine ⟨?_, ?_, ?_, band_exists size⟩
  · unfold heap_create
    rw [if_pos (Or.inl rfl)]
  · intro hs
    have hm : size &&& (BASE_SIZE_MIN - 1) = size % 16 := Nat.and_pow_two_sub_one_eq_mod size 4
    unfold heap_create
    rw [if_pos]
    rw [hm]
    exact Or.inr hs
  · intro j hj hj7 h1 h2
    have hl := largest_main_eq size j hj hj7 h1 h2
    refine ⟨hl, ?_⟩
    intro ha
    unfold heap_create
    dsimp only
    by_cases hg : size = 0 ∨ size &&& (BASE_SIZE_MIN - 1) ≠ 0
    · rw [if_pos hg]
    · rw [if_neg hg, hl, and_largest_sub_one address j hj hj7, if_pos ha]

theorem heap_create_null_witness :
    0x10000000 >>> (CLZ 0x1800 &&& 0x1C) = 16 ^ 3 ∧
      heap_create no_junk no_links 0x1100 0x1800 = some none :=
  ⟨((heap_create_null no_junk no_links 0x1100 0x1800).2.2.1 3 (by decide) (by decide)
      (by decide) (by decide)).1,
   ((heap_create_null no_junk no_links 0x1100 0x1800).2.2.1 3 (by decide) (by decide)
      (by decide) (by decide)).2 (by decide)⟩

/-! ## Requests that `heap_alloc` refuses -/

/-- C12. For every heap state, `heap_alloc (h, 0)` returns `NULL`, and the heap it leaves
is the heap it was given: no field of the metadata is written. -/
theorem heap_alloc_zero (h : heap) : heap_alloc h 0 = some (h, 0) := by
  unfold heap_alloc
  rfl

/-- Requests above the largest class whose rounding to 16 does not wrap are refused,
whatever the heap, and the heap is left as it was. -/
theorem heap_alloc_above_max (h : heap) (n : Nat) (h1 : 0xF0000000 < n)
    (h2 : n ≤ 0xFFFFFFF0) : heap_alloc h n = some (h, 0) := by
  apply heap_alloc_null h n (by omega)
  rw [needed_sz_eq n h2]
  have hr : 0xF0000000 < round_up_to_16 n := by unfold round_up_to_16; omega
  have hc : closest_base_size (round_up_to_16 n) = 0 := by
    unfold closest_base_size BASE_SIZE_MIN BASE_SIZE_MAX
    rw [if_neg (by omega), if_pos hr]
  unfold next_available_head_index
  dsimp only
  rw [hc, if_pos rfl]

/-- C14, as stated, fails from `0xFFFFFFF1` on: the rounding `(n + 15) & ~15` of the request
wraps to `0`, and on the fresh heap of 4096 bytes at `0x1000` the calls
`heap_alloc (h, 0xFFFFFFF1)` and `heap_alloc (h, 0xFFFFFFFF)` have no result: the first loop
runs past level 0.  The request `0xFFFFFFF0`, which does not wrap, is refused. -/
theorem heap_alloc_request_wraps :
    (create_heap 0x1000 0x1000).isSome = true ∧
    add32 0xFFFFFFF1 (BASE_SIZE_MIN - 1) &&& not32 (BASE_SIZE_MIN - 1) = 0 ∧
    ((create_heap 0x1000 0x1000).bind fun h =>
      (heap_alloc h 0xFFFFFFF1).map fun r => r.2) = none ∧
    ((create_heap 0x1000 0x1000).bind fun h =>
      (heap_alloc h 0xFFFFFFFF).map fun r => r.2) = none ∧
    ((create_heap 0x1000 0x1000).bind fun h =>
      (heap_alloc h 0xFFFFFFF0).map fun r => r.2) = some 0 := by
  decide!

/-! ## Addresses that are not allocations -/

/-- Outside the region and at addresses that are not multiples of 16,
`heap_get_alloc_size` reports 0. -/
theorem heap_get_alloc_size_outside (h : heap) (p : Nat)
    (hp : p < h.hdata ∨ h.hdata + h.hsize ≤ p ∨ p % 16 ≠ 0) :
    heap_get_alloc_size h p = some 0 := by
  have hm : p &&& 0x0F = p % 16 := Nat.and_pow_two_sub_one_eq_mod p 4
  unfold heap_get_alloc_size
  rw [if_pos]
  rw [hm]
  omega

/-- C16, as stated, fails on the heap of 18 KiB at `0x10000`: after `heap_alloc (h, 0x4000)`,
which returns `0x10000`, the address `0x14000` is in the region, is a multiple of 16 and is
not the address of an allocation, yet `heap_free (h, 0x14000)` writes the metadata: list 30
(chunks of 4096 bytes), empty before the call, has the head `0x14000` after it, and the
occupancy word 0 goes from `0x200` to `0x202`. -/
theorem heap_free_releases_padding :
    ((create_heap 0x10000 0x4800).bind fun h =>
      (run h [Call.alloc 0x4000]).bind fun r =>
        (heap_free r.1 0x14000).map fun h2 =>
          (r.2, r.1.heads 30, h2.heads 30, r.1.headsbits 0, h2.headsbits 0))
      = some ([0x10000], 0, 0x14000, 0x200, 0x202) ∧
    0x10000 ≤ 0x14000 ∧ 0x14000 < 0x10000 + 0x4800 ∧ 0x14000 % 16 = 0 := by
  decide!

/-- C17, as stated, fails on the heap of 18 KiB at `0x10000`: nothing is allocated on the
fresh heap, the address `0x14000` is in the region and a multiple of 16, and
`heap_get_alloc_size (h, 0x14000)` is 4096. -/
theorem heap_get_alloc_size_of_padding :
    ((create_heap 0x10000 0x4800).bind fun h => heap_get_alloc_size h 0x14000) = some 4096 ∧
    0x10000 ≤ 0x14000 ∧ 0x14000 < 0x10000 + 0x4800 ∧ 0x14000 % 16 = 0 := by
  decide!

/-! ## Construction above the largest class -/

/-- C19, as stated, fails above the largest class: `0xF0000010` is a multiple of 16 below
`2 ^ 32 - 16`, the base `0x10000000` is aligned on the largest main size, `heap_create`
does not return `NULL`, and the call has no result.  Whatever the heap and the address,
`populate_heads` has no result at that size: it passes the `0` that `closest_base_size`
returns to `base_size_to_index`.  At `0xF0000000` the call of `heap_create` returns a
heap. -/
theorem heap_create_above_largest_class :
    (heap_create no_junk no_links 0x10000000 0xF0000010).isNone = true ∧
    (∀ (h : heap) (data : Nat), (populate_heads 8 h data 0xF0000010).isNone = true) ∧
    closest_base_size 0xF0000010 = 0 ∧ ctz_checked 0 = none ∧
    0xF0000010 % 16 = 0 ∧ 0xF0000010 ≤ 2 ^ 32 - 16 ∧
    0x10000000 % (0x10000000 >>> (CLZ 0xF0000010 &&& 0x1C)) = 0 ∧
    (heap_create no_junk no_links 0x10000000 0xF0000000).map (fun r => r.isSome) = some true := by
  refine ⟨by decide!, ?_, by decide!, by decide!, by decide!, by decide!, by decide!, by decide!⟩
  intro h data
  have hc : closest_base_size 0xF0000010 = 0 := by decide!
  rw [populate_heads]
  dsimp only
  rw [hc]
  rfl

/-! ## What `heap_create` sets up -/

theorem sameRegistry_refl (H : heap) : SameRegistry H H := ⟨rfl, rfl, rfl, rfl, rfl, rfl, rfl⟩

theorem sameRegistry_trans {H H1 H2 : heap} (a : SameRegistry H H1) (b : SameRegistry H1 H2) :
    SameRegistry H H2 := by
  obtain ⟨a1, a2, a3, a4, a5, a6, a7⟩ := a
  obtain ⟨b1, b2, b3, b4, b5, b6, b7⟩ := b
  exact ⟨b1.trans a1, b2.trans a2, b3.trans a3, b4.trans a4, b5.trans a5, b6.trans a6,
    b7.trans a7⟩

theorem set_bf_ptr_frame (index nbc : Nat) (H : heap) (start size : Nat) :
    OptAll (SameRegistry H) (set_bf_ptr index nbc H start size) := by
  unfold set_bf_ptr
  apply optAll_ite
  · intro _
    apply optAll_ite
    · intro _; exact optAll_none _
    · intro _
      apply optAll_ite
      · intro _; exact optAll_none _
      · intro _
        apply optAll_ite
        · intro _
          apply optAll_bind
          intro bf _
          apply optAll_bind
          intro mem _
          apply optAll_bind
          intro mem1 _
          exact optAll_some _ _ ⟨rfl, rfl, rfl, rfl, rfl, rfl, rfl⟩
        · intro _; exact optAll_some _ _ ⟨rfl, rfl, rfl, rfl, rfl, rfl, rfl⟩
  · intro _
    apply optAll_ite
    · intro _; exact optAll_none _
    · intro _; exact optAll_some _ _ ⟨rfl, rfl, rfl, rfl, rfl, rfl, rfl⟩

theorem heap_create_levels_frame (size : Nat) :
    ∀ n H, OptAll (fun r => SameRegistry H r.1) (heap_create_levels size n H) := by
  intro n
  induction n with
  | zero =>
    intro H
    unfold heap_create_levels
    exact optAll_some _ _ (sameRegistry_refl H)
  | succ n ih =>
    intro H
    unfold heap_create_levels
    apply optAll_bind
    intro a ha
    obtain ⟨H1, start⟩ := a
    dsimp only
    apply optAll_bind
    intro H2 h2
    exact optAll_some _ _ (sameRegistry_trans (ih H _ ha) (set_bf_ptr_frame _ _ _ _ _ _ h2))

theorem update_prev_some {h h1 : heap} {c p : Nat} (e : update_prev h c p = some h1) :
    chunk_ok h c = true := by
  unfold update_prev at e
  by_cases hc : chunk_ok h c = true
  · exact hc
  · rw [if_neg hc] at e
    cases e

theorem chunk_ok_ne_zero {h : heap} {c : Nat} (e : chunk_ok h c = true) :
    c ≠ 0 ∧ h.hdata ≤ c ∧ c < h.hdata + h.hsize := by
  unfold chunk_ok at e
  simp at e
  exact ⟨e.1.1, e.1.2, e.2⟩

/-- The seeding of the free lists keeps the shape of the heap and a coherent registry. -/
theorem populate_heads_keeps :
    ∀ fuel h data size, OptAll (Keeps h) (populate_heads fuel h data size) := by
  intro fuel
  induction fuel with
  | zero =>
    intro h data size
    rw [populate_heads]
    exact optAll_none _
  | succ fuel ih =>
    intro h data size
    rw [populate_heads]
    apply optAll_bind
    intro _ _
    apply optAll_bind
    intro a _
    obtain ⟨i, used⟩ := a
    dsimp only
    apply optAll_ite
    · intro _; exact optAll_none _
    · intro hi
      apply optAll_ite
      · intro _; exact optAll_none _
      · intro _
        apply optAll_bind
        intro c hc
        have hcd : c = data := by
          unfold heads_at at hc
          dsimp only at hc
          rw [if_pos (by omega)] at hc
          simp [store] at hc
          exact hc.symm
        subst hcd
        apply optAll_bind
        intro h2 hup
        have hc0 := (chunk_ok_ne_zero (update_prev_some hup)).1
        have hi' : i < h.hdcnt := by omega
        have k1 : Keeps h
            { h with heads := store h.heads i c,
                     headsbits := store h.headsbits (i >>> 5)
                       (h.headsbits (i >>> 5) ||| (0x80000000 >>> (i &&& 31))) } :=
          ⟨⟨rfl, rfl, rfl, rfl, rfl, rfl⟩, fun r => registry_set _ _ _ i c r hi' hc0⟩
        have k2 := keeps_trans k1 (update_prev_keeps _ _ _ _ hup)
        apply optAll_bind
        intro c2 _
        apply keeps_mono id _ k2
        apply keeps_bind h2 id id _ _ (update_next_keeps h2 _ _)
        intro h3
        apply optAll_ite
        · intro _; exact ih h3 _ _
        · intro _; exact optAll_some _ _ (keeps_refl h3)

/-- The value `hd_cnt` of `heap_create` is the number of classes that are at most `size`. -/
theorem hd_cnt_eq (size j : Nat) (hj : 1 ≤ j) (hj7 : j ≤ 7) (h1 : 16 ^ j ≤ size)
    (h2 : size < 16 ^ (j + 1)) :
    add32 (mul32 (sub32 24 (CLZ size &&& 0x1C) >>> 2) 15)
      ((size >>> sub32 28 (CLZ size &&& 0x1C)) &&& 0x0F) = 15 * (j - 1) + size / 16 ^ j ∧
    sub32 28 (CLZ size &&& 0x1C) < 32 := by
  rw [clz_band size j hj hj7 h1 h2]
  have e : ∀ x : Nat, x &&& 0x0F = x % 16 := fun x => Nat.and_pow_two_sub_one_eq_mod x 4
  rw [e]
  interval_cases j <;> simp [sub32, mul32, add32, Nat.shiftRight_eq_div_pow] at h1 h2 ⊢ <;> omega

theorem initial_bits : ∀ i, i < 128 →
    occ_bit (store (store (store (store (fun _ => 0) 0 0) 1 0) 2 0) 3 0x007FFFFF) i
      = decide (105 ≤ i) := by
  decide!

theorem initial_words : ∀ w,
    store (store (store (store (fun _ => 0) 0 0) 1 0) 2 0) 3 0x007FFFFF w < 2 ^ 32 := by
  intro w
  unfold store
  split
  · decide
  · split
    · decide
    · split
      · decide
      · split
        · decide
        · show 0 < 2 ^ 32
          decide

/-- The registry that `heap_create` sets up before it seeds the lists. -/
theorem initial_registry (cnt : Nat) (hc : cnt ≤ 105) :
    RegistryOf (store (store (store (store (fun _ => 0) 0 0) 1 0) 2 0) 3 0x007FFFFF)
      (fun _ => 0) cnt := by
  refine ⟨hc, initial_words, ?_, ?_, ?_⟩
  · intro i hi
    rw [initial_bits i (by omega)]
    simp
    omega
  · intro i _ h2
    have h2 : i < 105 := h2
    rw [initial_bits i (by omega)]
    simp
    omega
  · intro i h1 h2
    have h1 : 105 ≤ i := h1
    rw [initial_bits i h2]
    simp
    omega

/-! ## Requests beyond the size of the heap -/

theorem populate_heads_some_le {fuel : Nat} {h h1 : heap} {data size : Nat}
    (e : populate_heads fuel h data size = some h1) : size ≤ 0xF0000000 := by
  by_contra hgt
  have hc : closest_base_size size = 0 := by
    unfold closest_base_size BASE_SIZE_MIN BASE_SIZE_MAX
    rw [if_neg (by omega), if_pos (by omega)]
  cases fuel with
  | zero =>
    rw [populate_heads] at e
    cases e
  | succ f =>
    rw [populate_heads] at e
    simp only [hc, ctz_checked, if_true, Option.none_bind] at e
    cases e

/-- A heap that `heap_create` returns: the band of its size, its shape and its registry. -/
theorem heap_create_registry (junk : Nat → Nat) (region : Nat → chunk) (address size : Nat)
    (hs : size < 2 ^ 32) :
    OptAll (fun r => ∀ h, r = some h →
      ∃ j, 1 ≤ j ∧ j ≤ 7 ∧ 16 ^ j ≤ size ∧ size < 16 ^ (j + 1) ∧ size % 16 = 0 ∧ size ≤ 0xF0000000 ∧
        address % 16 ^ j = 0 ∧ h.hdata = address ∧ h.hsize = size ∧
        h.hdcnt = 15 * (j - 1) + size / 16 ^ j ∧ Registry h)
      (heap_create junk region address size) := by
  have hm : size &&& (BASE_SIZE_MIN - 1) = size % 16 := Nat.and_pow_two_sub_one_eq_mod size 4
  unfold heap_create
  apply optAll_ite
  · intro _
    apply optAll_some
    intro h e
    cases e
  · intro hg
    rw [hm] at hg
    have h16 : 16 ≤ size := by omega
    obtain ⟨j, hj, hj7, b1, b2⟩ := band_exists size h16 hs
    obtain ⟨hcnt, _⟩ := hd_cnt_eq size j hj hj7 b1 b2
    have hl := largest_main_eq size j hj hj7 b1 b2
    apply optAll_ite
    · intro _
      apply optAll_some
      intro h e
      cases e
    · intro ha
      rw [hl, and_largest_sub_one address j hj hj7] at ha
      apply optAll_ite
      · intro _; exact optAll_none _
      · intro _
        apply optAll_bind
        intro a hlev
        obtain ⟨H1, st⟩ := a
        have fr := heap_create_levels_frame size _ _ _ hlev
        obtain ⟨f1, f2, f3, f4, f5, f6, f7⟩ := fr
        dsimp only at f1 f2 f3 f4 f5 f6 f7
        dsimp only
        apply optAll_bind
        intro h1 hpop
        apply optAll_some
        intro h e
        cases e
        have k := populate_heads_keeps _ _ _ _ _ hpop
        obtain ⟨⟨_, k2, k3, k4, _, _⟩, kr⟩ := k
        dsimp only at k2 k3 k4
        have hdiv : size / 16 ^ j ≤ 15 := by
          interval_cases j <;> simp at b1 b2 ⊢ <;> omega
        refine ⟨j, hj, hj7, b1, b2, by omega, populate_heads_some_le hpop, by omega, by rw [k2, f3], by rw [k3, f4],
          by rw [k4, f5, hcnt], ?_⟩
        apply kr
        unfold Registry
        dsimp only
        rw [f1, f2, f5, hcnt]
        exact initial_registry _ (by omega)

/-- A class above `size` has an index that is at least the number of heads of the heap. -/
theorem idx_above (size j c : Nat) (hj : 1 ≤ j) (hj7 : j ≤ 7) (h1 : 16 ^ j ≤ size)
    (h2 : size < 16 ^ (j + 1)) (hc : IsClass c) (hlt : size < c) :
    15 * (j - 1) + size / 16 ^ j ≤ base_size_to_index c := by
  obtain ⟨k, m, hk, hm1, hm2, rfl⟩ := hc
  rw [(class_index_table k (by omega) m (by omega) hm1).2]
  interval_cases j <;> interval_cases k <;> simp at h1 h2 hlt ⊢ <;> omega

/-- No list of a class above the size of the heap is ever occupied: the scan from such a
class finds nothing. -/
theorem scan_beyond_size (h : heap) (size j N : Nat) (hj : 1 ≤ j) (hj7 : j ≤ 7)
    (h1 : 16 ^ j ≤ size) (h2 : size < 16 ^ (j + 1)) (hcnt : h.hdcnt = 15 * (j - 1) + size / 16 ^ j)
    (reg : Registry h) (hN : size < N) :
    next_available_head_index h N = some BASE_SIZES_COUNT := by
  by_cases hc0 : closest_base_size N = 0
  · unfold next_available_head_index
    dsimp only
    rw [if_pos hc0]
  · have hmax : N ≤ 0xF0000000 := by
      by_contra hgt
      apply hc0
      unfold closest_base_size BASE_SIZE_MIN BASE_SIZE_MAX
      rw [if_neg (by omega), if_pos (by omega)]
    obtain ⟨cls, hle, _⟩ := closest_base_size_main N hmax
    have hidx := (class_index_inverse _ cls).1
    have hab := idx_above size j _ hj hj7 h1 h2 cls (by omega)
    apply next_available_head_index_none h N hc0
    apply scan_none h _ reg.word _ reg.sentinel hidx
    intro i hi1 hi2
    exact reg.clear i (by rw [hcnt]; omega) hi2

/-- C13. For every heap that `heap_create (address, size)` returns and every heap that calls
of `heap_alloc` and `heap_free` lead to from it, `heap_alloc (h, size + 1)` returns `NULL`
and the heap it leaves is the heap it was given. -/
theorem heap_alloc_beyond_size (junk : Nat → Nat) (region : Nat → chunk)
    (address size : Nat) (h0 h : heap) (hs : size < 2 ^ 32)
    (hc : heap_create junk region address size = some (some h0)) (hr : Reachable h0 h) :
    heap_alloc h (size + 1) = some (h, 0) := by
  obtain ⟨j, hj, hj7, b1, b2, h16, hmax, _, _, _, hcnt, reg⟩ :=
    heap_create_registry junk region address size hs _ hc h0 rfl
  obtain ⟨⟨_, _, _, k4, _, _⟩, kr⟩ := reachable_keeps hr
  apply heap_alloc_null h _ (by omega)
  rw [needed_sz_eq _ (by omega)]
  apply scan_beyond_size h size j _ hj hj7 b1 b2 (by rw [k4, hcnt]) (kr reg)
  unfold round_up_to_16
  omega

theorem created_4k_heap : ∃ h0 : heap, heap_create no_junk no_links 0x1000 0x1000 = some (some h0) := by
  have c : ((heap_create no_junk no_links 0x1000 0x1000).bind id).isSome = true := created_4k
  cases hc : heap_create no_junk no_links 0x1000 0x1000 with
  | none => rw [hc] at c; cases c
  | some r =>
    cases r with
    | none => rw [hc] at c; cases c
    | some h0 => exact ⟨h0, rfl⟩

theorem heap_alloc_beyond_size_witness :
    ∃ h0 : heap, heap_create no_junk no_links 0x1000 0x1000 = some (some h0) ∧
      heap_alloc h0 (0x1000 + 1) = some (h0, 0) := by
  obtain ⟨h0, hc⟩ := created_4k_heap
  exact ⟨h0, hc, heap_alloc_beyond_size no_junk no_links 0x1000 0x1000 h0 h0 (by decide) hc
    Reachable.start⟩

/-! ## The seeding of the free lists -/

theorem all_defined : ∀ i, i < 105 → base_size_from_index_defined i = true := by decide!

/-- The leading hexadecimal digit of a size between `16 ^ j` and `16 ^ (j + 1)`. -/
theorem digit_bounds (size j : Nat) (hj : 1 ≤ j) (hj7 : j ≤ 7) (h1 : 16 ^ j ≤ size)
    (h2 : size < 16 ^ (j + 1)) : 1 ≤ size / 16 ^ j ∧ size / 16 ^ j ≤ 15 := by
  interval_cases j <;> simp at h1 h2 ⊢ <;> omega

/-- The class and the index that `populate_heads` computes: the leading digit of `size`
alone, and the number of the classes up to it, less one. -/
theorem populate_pick (size j : Nat) (hj : 1 ≤ j) (hj7 : j ≤ 7) (h1 : 16 ^ j ≤ size)
    (h2 : size < 16 ^ (j + 1)) (hmax : size ≤ 0xF0000000) :
    closest_base_size size ≠ 0 ∧
    (if closest_base_size size ≠ size then
        if (!base_size_from_index_defined
              (sub32 (base_size_to_index (closest_base_size size)) 1)) = true then none
        else some (sub32 (base_size_to_index (closest_base_size size)) 1,
          base_size_from_index (sub32 (base_size_to_index (closest_base_size size)) 1))
      else some (base_size_to_index (closest_base_size size), closest_base_size size))
      = some (15 * (j - 1) + size / 16 ^ j - 1, size / 16 ^ j * 16 ^ j) := by
  obtain ⟨d1, d15⟩ := digit_bounds size j hj hj7 h1 h2
  have ce := closest_eq size j hj hj7 h1 h2 hmax
  have ej : j - 1 + 1 = j := by omega
  have tab := class_index_table (j - 1) (by omega) (size / 16 ^ j) (by omega) d1
  rw [ej] at tab
  obtain ⟨tab1, tab2⟩ := tab
  by_cases hr : size % 16 ^ j = 0
  · have hc : closest_base_size size = size := by
      rw [ce]
      interval_cases j <;> simp at h1 h2 hr ⊢ <;> omega
    have hsz : size / 16 ^ j * 16 ^ j = size := by
      interval_cases j <;> simp at h1 h2 hr ⊢ <;> omega
    rw [hc]
    refine ⟨by omega, ?_⟩
    rw [if_neg (by simp)]
    rw [hsz] at tab2 ⊢
    rw [tab2]
  · have hc : closest_base_size size = (size / 16 ^ j + 1) * 16 ^ j := by
      rw [ce]
      interval_cases j <;> simp at h1 h2 hr ⊢ <;> omega
    have hne : closest_base_size size ≠ size := by
      rw [hc]
      interval_cases j <;> simp at h1 h2 hr ⊢ <;> omega
    have hidx : base_size_to_index (closest_base_size size) = 15 * (j - 1) + size / 16 ^ j := by
      rw [hc]
      by_cases hd : size / 16 ^ j = 15
      · have hj6 : j ≤ 6 := by
          by_contra hcon
          have : j = 7 := by omega
          subst this
          simp at h1 h2 hr hd ⊢
          omega
        have t := (class_index_table j (by omega) 1 (by decide) (by decide)).2
        rw [hd]
        rw [show (15 + 1) * 16 ^ j = 1 * 16 ^ (j + 1) by rw [Nat.pow_succ]; ring, t]
        omega
      · have t := (class_index_table (j - 1) (by omega) (size / 16 ^ j + 1) (by omega)
          (by omega)).2
        rw [ej] at t
        rw [t]
        omega
    refine ⟨by rw [hc]; positivity, ?_⟩
    have hs1 : sub32 (15 * (j - 1) + size / 16 ^ j) 1 = 15 * (j - 1) + size / 16 ^ j - 1 := by
      unfold sub32
      omega
    rw [if_pos hne, hidx, hs1, all_defined _ (by omega), tab1]
    rfl

theorem heads_at_eq (h : heap) (i : Nat) (hi : i < h.hdcnt) : heads_at h i = some (h.heads i) := by
  unfold heads_at
  rw [if_pos hi]

theorem update_prev_eq (h : heap) (c p : Nat) (hc : chunk_ok h c = true) :
    update_prev h c p = some { h with chunks := fun a =>
      if a = c then { prev := p, next := (h.chunks c).next } else h.chunks a } := by
  unfold update_prev
  rw [if_pos hc]

theorem update_next_eq (h : heap) (c n : Nat) (hc : chunk_ok h c = true) :
    update_next h c n = some { h with chunks := fun a =>
      if a = c then { prev := (h.chunks c).prev, next := n } else h.chunks a } := by
  unfold update_next
  rw [if_pos hc]

theorem chunk_ok_of (h : heap) (c : Nat) (hd0 : c ≠ 0) (hlo : h.hdata ≤ c)
    (hhi : c < h.hdata + h.hsize) : chunk_ok h c = true := by
  unfold chunk_ok
  simp [hd0, hlo, hhi]

theorem store_same (m : Nat → Nat) (a v : Nat) : store m a v a = v := by
  unfold store
  rw [if_pos rfl]

/-- One call of `populate_heads` on a heap with room for the head: the chunk at `data` is
put alone in list `i`, and the call goes on after it unless `c` is the whole size. -/
theorem populate_body (fuel : Nat) (h : heap) (data size i c : Nat) (hd0 : data ≠ 0)
    (hlo : h.hdata ≤ data) (hhi : data < h.hdata + h.hsize) (hi : i < h.hdcnt)
    (hc105 : h.hdcnt ≤ 105) :
    ∃ h3,
      ((if h.hdcnt ≤ i then none
        else if HEADS_BITS_SIZE ≤ i >>> 5 then none
        else
          (heads_at
              { h with heads := store h.heads i data,
                       headsbits := store h.headsbits (i >>> 5)
                         (h.headsbits (i >>> 5) ||| (0x80000000 >>> (i &&& 31))) } i).bind
            fun a =>
              (update_prev
                  { h with heads := store h.heads i data,
                           headsbits := store h.headsbits (i >>> 5)
                             (h.headsbits (i >>> 5) ||| (0x80000000 >>> (i &&& 31))) }
                  a 0).bind
                fun a =>
                  (heads_at a i).bind fun a_1 =>
                    (update_next a a_1 0).bind fun a =>
                      if c ≠ size then populate_heads fuel a (add32 data c) (sub32 size c)
                      else some a) =
        if c ≠ size then populate_heads fuel h3 (add32 data c) (sub32 size c) else some h3) ∧
      SameShape h h3 ∧ h3.bfmem = h.bfmem ∧
      h3.heads = store h.heads i data ∧
      h3.headsbits = store h.headsbits (i >>> 5)
        (h.headsbits (i >>> 5) ||| (0x80000000 >>> (i &&& 31))) ∧
      (h3.chunks data).prev = 0 ∧ (h3.chunks data).next = 0 ∧
      ∀ a, a ≠ data → h3.chunks a = h.chunks a := by
  have hok : ∀ H : heap, H.hdata = h.hdata → H.hsize = h.hsize → chunk_ok H data = true := by
    intro H e1 e2
    exact chunk_ok_of H data hd0 (by rw [e1]; exact hlo) (by rw [e1, e2]; exact hhi)
  rw [if_neg (by omega), if_neg (by rw [word_eq]; unfold HEADS_BITS_SIZE; omega)]
  rw [heads_at_eq]
  swap
  · exact hi
  simp only [Option.some_bind, store_same]
  rw [update_prev_eq]
  swap
  · exact hok _ rfl rfl
  simp only [Option.some_bind]
  rw [heads_at_eq]
  swap
  · exact hi
  simp only [Option.some_bind, store_same]
  rw [update_next_eq]
  swap
  · exact hok _ rfl rfl
  simp only [Option.some_bind]
  refine ⟨_, rfl, ⟨rfl, rfl, rfl, rfl, rfl, rfl⟩, rfl, rfl, rfl, ?_, ?_, ?_⟩
  · simp
  · simp
  · intro a ha
    simp [ha]

/-- One call of `populate_heads` at a size between `16 ^ j` and `16 ^ (j + 1)`. -/
theorem populate_step (fuel : Nat) (h : heap) (data size j : Nat) (hj : 1 ≤ j) (hj7 : j ≤ 7)
    (h1 : 16 ^ j ≤ size) (h2 : size < 16 ^ (j + 1)) (hmax : size ≤ 0xF0000000)
    (hd0 : data ≠ 0) (hlo : h.hdata ≤ data) (hhi : data < h.hdata + h.hsize)
    (hcnt : 15 * (j - 1) + size / 16 ^ j ≤ h.hdcnt) (hc105 : h.hdcnt ≤ 105) :
    ∃ h3, populate_heads (fuel + 1) h data size =
        (if size / 16 ^ j * 16 ^ j ≠ size then
          populate_heads fuel h3 (add32 data (size / 16 ^ j * 16 ^ j))
            (sub32 size (size / 16 ^ j * 16 ^ j))
         else some h3) ∧
      SameShape h h3 ∧ h3.bfmem = h.bfmem ∧
      h3.heads = store h.heads (15 * (j - 1) + size / 16 ^ j - 1) data ∧
      h3.headsbits = store h.headsbits ((15 * (j - 1) + size / 16 ^ j - 1) >>> 5)
        (h.headsbits ((15 * (j - 1) + size / 16 ^ j - 1) >>> 5) |||
          (0x80000000 >>> ((15 * (j - 1) + size / 16 ^ j - 1) &&& 31))) ∧
      (h3.chunks data).prev = 0 ∧ (h3.chunks data).next = 0 ∧
      ∀ a, a ≠ data → h3.chunks a = h.chunks a := by
  obtain ⟨hc0, hpick⟩ := populate_pick size j hj hj7 h1 h2 hmax
  obtain ⟨d1, d15⟩ := digit_bounds size j hj hj7 h1 h2
  have hctz : ctz_checked (closest_base_size size) = some (CTZ (closest_base_size size)) := by
    unfold ctz_checked
    rw [if_neg hc0]
  rw [populate_heads]
  dsimp only
  rw [hctz, hpick]
  simp only [Option.some_bind]
  exact populate_body fuel h data size _ _ hd0 hlo hhi (by omega) hc105

theorem largest_of_band (size j : Nat) (hj : 1 ≤ j) (hj7 : j ≤ 7) (h1 : 16 ^ j ≤ size)
    (h2 : size < 16 ^ (j + 1)) : IsLargestClassLe (size / 16 ^ j * 16 ^ j) size := by
  obtain ⟨d1, d15⟩ := digit_bounds size j hj hj7 h1 h2
  refine ⟨⟨j - 1, size / 16 ^ j, by omega, d1, d15, by rw [show j - 1 + 1 = j by omega]⟩,
    Nat.div_mul_le_self _ _, ?_⟩
  intro s hs hle
  obtain ⟨m, hm1, hm2, hm⟩ := isClass_cases hs
  interval_cases j <;> simp at h1 h2 ⊢ <;>
    rcases hm with h | h | h | h | h | h | h <;> omega

theorem idx_inj (a b : Nat) (ha : IsClass a) (hb : IsClass b)
    (e : base_size_to_index a = base_size_to_index b) : a = b := by
  rw [← (class_index_inverse a ha).2, ← (class_index_inverse b hb).2, e]

theorem pow16_lt (j k : Nat) (h : 16 ^ j < 16 ^ k) : j < k := by
  by_contra hc
  have : 16 ^ k ≤ 16 ^ j := Nat.pow_le_pow_right (by decide) (by omega)
  omega

/-- The seeding of the free lists from `data` on, for the `size` bytes that remain. -/
theorem populate_heads_spec :
    ∀ fuel j size (h : heap) data, j ≤ fuel → 1 ≤ j → j ≤ 7 → 16 ^ j ≤ size →
      size < 16 ^ (j + 1) → size % 16 = 0 → size ≤ 0xF0000000 → data ≠ 0 → h.hdata ≤ data →
      data + size ≤ h.hdata + h.hsize → data + size ≤ 2 ^ 32 →
      15 * (j - 1) + size / 16 ^ j ≤ h.hdcnt → h.hdcnt ≤ 105 →
      ∃ h1 L, populate_heads fuel h data size = some h1 ∧ Greedy (data - h.hdata) size L ∧
        SameShape h h1 ∧ h1.bfmem = h.bfmem ∧
        (∀ e, e ∈ L → IsClass e.2 ∧ e.2 < 16 ^ (j + 1) ∧ data - h.hdata ≤ e.1 ∧
          SoleEntry h1 h.hdata e) ∧
        (∀ i, (∀ e, e ∈ L → base_size_to_index e.2 ≠ i) →
          h1.heads i = h.heads i ∧ occ_bit h1.headsbits i = occ_bit h.headsbits i) ∧
        (∀ a, (∀ e, e ∈ L → h.hdata + e.1 ≠ a) → h1.chunks a = h.chunks a) := by
  intro fuel
  induction fuel with
  | zero =>
    intro j size h data hjf hj
    omega
  | succ fuel ih =>
    intro j size h data hjf hj hj7 b1 b2 h16 hmax hd0 hlo hfit h32 hcnt hc105
    obtain ⟨d1, d15⟩ := digit_bounds size j hj hj7 b1 b2
    have hpos : 0 < size := by
      have : 0 < 16 ^ j := pow_pos (by decide) j
      omega
    obtain ⟨h3, heq, shp, hbf, hheads, hbits, hprev, hnext, hchunks⟩ :=
      populate_step fuel h data size j hj hj7 b1 b2 hmax hd0 hlo (by omega) hcnt hc105
    have hlarge := largest_of_band size j hj hj7 b1 b2
    have tab := (class_index_table (j - 1) (by omega) (size / 16 ^ j) (by omega) d1).2
    rw [show j - 1 + 1 = j by omega] at tab
    have hcle : size / 16 ^ j * 16 ^ j ≤ size := Nat.div_mul_le_self _ _
    have hcge : 16 ^ j ≤ size / 16 ^ j * 16 ^ j := Nat.le_mul_of_pos_left _ (by omega)
    have hoff : h.hdata + (data - h.hdata) = data := by omega
    -- the entry that this call records
    have hsole : ∀ h1 : heap,
        h1.heads (15 * (j - 1) + size / 16 ^ j - 1) = h3.heads (15 * (j - 1) + size / 16 ^ j - 1) →
        occ_bit h1.headsbits (15 * (j - 1) + size / 16 ^ j - 1)
          = occ_bit h3.headsbits (15 * (j - 1) + size / 16 ^ j - 1) →
        h1.chunks data = h3.chunks data →
        SoleEntry h1 h.hdata (data - h.hdata, size / 16 ^ j * 16 ^ j) := by
      intro h1 e1 e2 e3
      unfold SoleEntry
      dsimp only
      rw [tab, hoff, e1, e2, e3, hheads, hbits, occ_bit_set, store_same]
      exact ⟨rfl, hprev, hnext, by simp⟩
    have hother : ∀ i, i ≠ 15 * (j - 1) + size / 16 ^ j - 1 →
        h3.heads i = h.heads i ∧ occ_bit h3.headsbits i = occ_bit h.headsbits i := by
      intro i hi
      rw [hheads, hbits, occ_bit_set]
      unfold store
      rw [if_neg hi]
      simp [hi]
    by_cases hr : size / 16 ^ j * 16 ^ j = size
    · rw [if_neg (by simpa using hr)] at heq
      refine ⟨h3, [(data - h.hdata, size / 16 ^ j * 16 ^ j)], heq, ?_, shp, hbf, ?_, ?_, ?_⟩
      · have g := Greedy.step (data - h.hdata) size _ [] hlarge
          (by rw [hr, Nat.sub_self]; exact Greedy.done _)
        exact g
      · intro e he
        simp only [List.mem_singleton] at he
        subst he
        exact ⟨hlarge.1, by dsimp only; omega, le_refl _, hsole h3 rfl rfl rfl⟩
      · intro i hi
        apply hother
        intro hcon
        exact hi _ (List.mem_singleton.2 rfl) (by dsimp only; rw [tab, hcon])
      · intro a ha
        apply hchunks
        intro hcon
        exact ha _ (List.mem_singleton.2 rfl) (by dsimp only; omega)
    · rw [if_pos hr] at heq
      have hrem : size - size / 16 ^ j * 16 ^ j = size % 16 ^ j := by
        have := Nat.div_add_mod size (16 ^ j)
        have := Nat.mul_comm (16 ^ j) (size / 16 ^ j)
        omega
      have hrlt : size % 16 ^ j < 16 ^ j := Nat.mod_lt _ (pow_pos (by decide) j)
      have hr16 : (size - size / 16 ^ j * 16 ^ j) % 16 = 0 := by
        interval_cases j <;> simp at b1 b2 ⊢ <;> omega
      have hrge : 16 ≤ size - size / 16 ^ j * 16 ^ j := by omega
      obtain ⟨j1, hj1, hj17, c1, c2⟩ :=
        band_exists (size - size / 16 ^ j * 16 ^ j) hrge (by omega)
      have hjlt : j1 < j := pow16_lt j1 j (by omega)
      obtain ⟨e1, e15⟩ := digit_bounds _ j1 hj1 hj17 c1 c2
      obtain ⟨s1, s2, s3, s4, s5, s6⟩ := shp
      have ha32 : add32 data (size / 16 ^ j * 16 ^ j) = data + size / 16 ^ j * 16 ^ j := by
        unfold add32
        exact Nat.mod_eq_of_lt (by omega)
      have hs32 : sub32 size (size / 16 ^ j * 16 ^ j) = size - size / 16 ^ j * 16 ^ j := by
        unfold sub32
        omega
      rw [ha32, hs32] at heq
      obtain ⟨h1, L, hp, hg, shp1, hbf1, hent, hfr, hch⟩ :=
        ih j1 (size - size / 16 ^ j * 16 ^ j) h3 (data + size / 16 ^ j * 16 ^ j) (by omega)
          hj1 hj17 c1 c2 hr16 (by omega) (by omega) (by rw [s2]; omega)
          (by rw [s2, s3]; omega) (by omega) (by rw [s4]; omega) (by rw [s4]; exact hc105)
      rw [s2] at hg hent hch
      have hpw : 16 ^ (j1 + 1) ≤ 16 ^ j := Nat.pow_le_pow_right (by decide) (by omega)
      have hpw2 : 16 ^ j ≤ 16 ^ (j + 1) := Nat.pow_le_pow_right (by decide) (by omega)
      have hdist : ∀ e, e ∈ L →
          base_size_to_index e.2 ≠ 15 * (j - 1) + size / 16 ^ j - 1 ∧ h.hdata + e.1 ≠ data := by
        intro e he
        obtain ⟨k1, k2, k3, _⟩ := hent e he
        refine ⟨?_, by omega⟩
        intro hcon
        rw [← tab] at hcon
        have := idx_inj _ _ k1 hlarge.1 hcon
        omega
      obtain ⟨t1, t2, t3, t4, t5, t6⟩ := shp1
      refine ⟨h1, (data - h.hdata, size / 16 ^ j * 16 ^ j) :: L, by rw [heq, hp], ?_,
        ⟨t1.trans s1, t2.trans s2, t3.trans s3, t4.trans s4, t5.trans s5, t6.trans s6⟩,
        hbf1.trans hbf, ?_, ?_, ?_⟩
      · apply Greedy.step _ _ _ _ hlarge
        rw [show data - h.hdata + size / 16 ^ j * 16 ^ j
          = data + size / 16 ^ j * 16 ^ j - h.hdata by omega]
        exact hg
      · intro e he
        rcases List.mem_cons.1 he with he | he
        · subst he
          refine ⟨hlarge.1, by dsimp only; omega, le_refl _, ?_⟩
          apply hsole h1
          · exact (hfr _ (fun e he => (hdist e he).1)).1
          · exact (hfr _ (fun e he => (hdist e he).1)).2
          · exact hch _ (fun e he => (hdist e he).2)
        · obtain ⟨k1, k2, k3, k4⟩ := hent e he
          exact ⟨k1, by omega, by omega, k4⟩
      · intro i hi
        have hi0 : i ≠ 15 * (j - 1) + size / 16 ^ j - 1 := by
          intro hcon
          exact hi _ (List.mem_cons_self _ _) (by dsimp only; rw [tab, hcon])
        obtain ⟨o1, o2⟩ := hother i hi0
        obtain ⟨f1, f2⟩ := hfr i (fun e he => hi e (List.mem_cons_of_mem _ he))
        exact ⟨f1.trans o1, f2.trans o2⟩
      · intro a ha
        have ha0 : a ≠ data := by
          intro hcon
          exact ha _ (List.mem_cons_self _ _) (by dsimp only; omega)
        rw [hch a (fun e he => ha e (List.mem_cons_of_mem _ he))]
        exact hchunks a ha0

/-! ## The levels of the bitfield -/

theorem bxx_some (mem : Nat → Nat) (bf index cnt pattern : Nat)
    (h1 : sub32 32 (shl32 cnt 1) < 32)
    (h2 : sub32 (sub32 32 (shl32 cnt 1)) ((index &&& 0xF) <<< 1) < 32) :
    ∃ m, bf_set_bxx_multi mem bf index cnt pattern = some m := by
  unfold bf_set_bxx_multi
  dsimp only
  rw [if_neg (by omega), if_neg (by omega)]
  exact ⟨_, rfl⟩

theorem bitfield_at_eq (bf : Nat) (h : heap) (lvl w : Nat) (hl : lvl < 7)
    (hb : h.bitfield lvl = some bf) (hw : bf + w < h.bfcnt) : bitfield_at h lvl w = some bf := by
  unfold bitfield_at MAIN_BASE_SIZE_COUNT
  rw [if_pos hl, hb]
  dsimp only
  rw [if_pos hw]

/-- The call of `set_bf_ptr` for level `i` returns when the words of the level fit in the
bookkeeping buffer. -/
theorem set_bf_ptr_some (i : Nat) (H : heap) (start size : Nat) (hi : i < 7)
    (hs : size < 2 ^ 32) (hfit : start + needed_bitfield_count size i ≤ H.bfcnt) :
    ∃ H1, set_bf_ptr i (needed_bitfield_count size i) H start size = some H1 := by
  have hsh : (i + 1) <<< 2 = 4 * (i + 1) := by rw [Nat.shiftLeft_eq]; omega
  have hcnt : size >>> ((i + 1) <<< 2) < 2 ^ 28 := by
    rw [hsh, Nat.shiftRight_eq_div_pow]
    have h16 : 2 ^ 4 ≤ 2 ^ (4 * (i + 1)) := Nat.pow_le_pow_right (by decide) (by omega)
    apply Nat.div_lt_of_lt_mul
    have := Nat.mul_le_mul_right (2 ^ 28) h16
    omega
  unfold set_bf_ptr
  unfold needed_bitfield_count at hfit ⊢
  dsimp only at hfit ⊢
  generalize size >>> ((i + 1) <<< 2) = c at hcnt hfit ⊢
  have hnbc : add32 c 15 >>> 4 = (c + 15) / 16 := by
    unfold add32
    rw [Nat.mod_eq_of_lt (by omega), Nat.shiftRight_eq_div_pow]
  rw [hnbc] at hfit ⊢
  have hc4 : c >>> 4 = c / 16 := Nat.shiftRight_eq_div_pow c 4
  have hand : c &&& 0x0F = c % 16 := Nat.and_pow_two_sub_one_eq_mod c 4
  have hidx : c &&& not32 0x0F = c / 16 * 16 := and_not_low c 4 (by omega) (by decide)
  rw [hc4, hand, hidx]
  by_cases hn : (c + 15) / 16 ≠ 0
  · rw [if_pos hn, if_neg (by unfold MAIN_BASE_SIZE_COUNT; omega), if_neg (by omega)]
    by_cases hp : c % 16 ≠ 0
    · rw [if_pos hp]
      rw [bitfield_at_eq start]
      rotate_left
      · exact hi
      · dsimp only
        rw [if_pos rfl]
      · dsimp only
        rw [Nat.shiftRight_eq_div_pow]
        omega
      simp only [Option.some_bind]
      have ha : add32 (c / 16 * 16) (c % 16) = c := by
        unfold add32
        rw [Nat.mod_eq_of_lt (by omega)]
        omega
      have e0 : (c / 16 * 16) &&& 0xF = 0 := by
        rw [Nat.and_pow_two_sub_one_eq_mod _ 4]
        omega
      obtain ⟨m1, e1⟩ := bxx_some (fill_all_free H.bfmem start (c / 16)) start (c / 16 * 16)
        (c % 16) 0xAAAAAAAA (by unfold sub32 shl32; rw [Nat.shiftLeft_eq]; omega)
        (by rw [e0]; unfold sub32 shl32; rw [Nat.shiftLeft_eq, Nat.shiftLeft_eq]; omega)
      obtain ⟨m2, e2⟩ := bxx_some m1 start c (16 - c % 16) 0x55555555
        (by unfold sub32 shl32; rw [Nat.shiftLeft_eq]; omega)
        (by rw [hand]; unfold sub32 shl32; rw [Nat.shiftLeft_eq, Nat.shiftLeft_eq]; omega)
      unfold bf_set_free_multi bf_set_b10_multi bf_set_alloc_head_multi bf_set_b01_multi
      rw [e1]
      simp only [Option.some_bind]
      rw [ha, e2]
      exact ⟨_, rfl⟩
    · rw [if_neg hp]
      exact ⟨_, rfl⟩
  · rw [if_neg hn, if_neg (by unfold MAIN_BASE_SIZE_COUNT; omega)]
    exact ⟨_, rfl⟩

theorem needed_bitfield_count_le (size i : Nat) :
    needed_bitfield_count size i ≤ 2 ^ 28 := by
  unfold needed_bitfield_count
  dsimp only
  have h1 : size >>> ((i + 1) <<< 2) ≤ size := by
    rw [Nat.shiftRight_eq_div_pow]
    exact Nat.div_le_self _ _
  generalize size >>> ((i + 1) <<< 2) = c at h1
  unfold add32
  rw [Nat.shiftRight_eq_div_pow]
  omega

theorem total_upto_step (size : Nat) :
    ∀ n, n ≤ 7 → total_bitfield_count_upto size n ≤ n * 2 ^ 28 ∧
      (n < 7 → total_bitfield_count_upto size (n + 1)
        = total_bitfield_count_upto size n + needed_bitfield_count size n) := by
  intro n
  induction n with
  | zero =>
    intro _
    have z : total_bitfield_count_upto size 0 = 0 := rfl
    refine ⟨by rw [z]; omega, fun _ => ?_⟩
    show add32 (total_bitfield_count_upto size 0) (needed_bitfield_count size 0) = _
    unfold add32
    have := needed_bitfield_count_le size 0
    rw [Nat.mod_eq_of_lt (by rw [z]; omega)]
  | succ n ih =>
    intro hn
    obtain ⟨i1, i2⟩ := ih (by omega)
    have e := i2 (by omega)
    have b := needed_bitfield_count_le size n
    have b1 := needed_bitfield_count_le size (n + 1)
    refine ⟨by rw [e]; omega, fun _ => ?_⟩
    show add32 (total_bitfield_count_upto size (n + 1)) (needed_bitfield_count size (n + 1)) = _
    unfold add32
    rw [Nat.mod_eq_of_lt (by omega)]

theorem total_upto_mono (size : Nat) :
    ∀ k n, n + k ≤ 7 → total_bitfield_count_upto size n
      ≤ total_bitfield_count_upto size (n + k) := by
  intro k
  induction k with
  | zero => intro n _; exact le_refl _
  | succ k ih =>
    intro n hn
    have := ih n (by omega)
    have e := (total_upto_step size (n + k) (by omega)).2 (by omega)
    rw [show n + (k + 1) = n + k + 1 by omega, e]
    omega

/-- The loop of `heap_create` over the levels returns: the bookkeeping buffer, of
`total_bitfield_count (size)` words, has room for the words of every level. -/
theorem heap_create_levels_some (size : Nat) (hs : size < 2 ^ 32) :
    ∀ n, n ≤ 7 → ∀ H : heap, total_bitfield_count_upto size 7 ≤ H.bfcnt →
      ∃ H1, heap_create_levels size n H = some (H1, total_bitfield_count_upto size n) := by
  intro n
  induction n with
  | zero =>
    intro _ H _
    exact ⟨H, rfl⟩
  | succ n ih =>
    intro hn H hH
    obtain ⟨H1, e1⟩ := ih (by omega) H hH
    have fr := heap_create_levels_frame size n H _ e1
    obtain ⟨_, _, _, _, _, _, f7⟩ := fr
    dsimp only at f7
    have st := (total_upto_step size n (by omega)).2 (by omega)
    have mo := total_upto_mono size (7 - (n + 1)) (n + 1) (by omega)
    rw [show n + 1 + (7 - (n + 1)) = 7 by omega] at mo
    obtain ⟨H2, e2⟩ := set_bf_ptr_some n H1 (total_bitfield_count_upto size n) size (by omega) hs
      (by rw [f7]; omega)
    refine ⟨H2, ?_⟩
    rw [heap_create_levels, e1]
    simp only [Option.some_bind]
    rw [e2]
    rfl

/-! ## The greedy decomposition that `heap_create` records -/

theorem class_ge16 {s : Nat} (h : IsClass s) : 16 ≤ s := by
  obtain ⟨m, hm1, hm2, hm⟩ := isClass_cases h
  rcases hm with h | h | h | h | h | h | h <;> omega

theorem largest_unique {c c1 r : Nat} (a : IsLargestClassLe c r) (b : IsLargestClassLe c1 r) :
    c = c1 :=
  Nat.le_antisymm (b.2.2 c a.1 a.2.1) (a.2.2 c1 b.1 b.2.1)

/-- What is left after the largest class that fits is smaller than that class. -/
theorem largest_gt_half {c r : Nat} (a : IsLargestClassLe c r) (hr : r < 2 ^ 32) : r - c < c := by
  by_contra hcon
  obtain ⟨⟨k, m, hk, hm1, hm2, rfl⟩, hle, hmax⟩ := a
  by_cases hm : m ≤ 14
  · have := hmax ((m + 1) * 16 ^ (k + 1)) ⟨k, m + 1, hk, by omega, by omega, rfl⟩
      (by interval_cases k <;> simp at hle hcon ⊢ <;> omega)
    interval_cases k <;> simp at this
  · have hm15 : m = 15 := by omega
    subst hm15
    by_cases hk6 : k = 6
    · subst hk6
      simp at hle hcon
      omega
    · have := hmax (1 * 16 ^ (k + 1 + 1)) ⟨k + 1, 1, by omega, by decide, by decide, rfl⟩
        (by interval_cases k <;> simp at hle hcon hk6 ⊢ <;> omega)
      interval_cases k <;> simp at this hk6

/-- The greedy decomposition: the classes add up to the size, they go down strictly, every
chunk starts where the one before it ends, the first one at the first offset, and all of
them lie in the region. -/
theorem greedy_facts {off r : Nat} {L : List (Nat × Nat)} (g : Greedy off r L) (hr : r < 2 ^ 32) :
    (L.map Prod.snd).sum = r ∧ L.Pairwise (fun a b => b.2 < a.2) ∧
      L.Chain' (fun a b => b.1 = a.1 + a.2) ∧ (∀ e, e ∈ L.head? → e.1 = off) ∧
      ∀ e, e ∈ L → IsClass e.2 ∧ e.2 ≤ r ∧ off ≤ e.1 ∧ e.1 + e.2 ≤ off + r := by
  induction g with
  | done off => simp
  | step off r c L hl g ih =>
    obtain ⟨i1, i2, i3, i4, i5⟩ := ih (by omega)
    have hlt := largest_gt_half hl hr
    have hle := hl.2.1
    refine ⟨?_, ?_, ?_, ?_, ?_⟩
    · simp only [List.map_cons, List.sum_cons, i1]
      omega
    · rw [List.pairwise_cons]
      refine ⟨?_, i2⟩
      intro e he
      have := (i5 e he).2.1
      dsimp only
      omega
    · rw [List.chain'_cons']
      refine ⟨?_, i3⟩
      intro e he
      exact i4 e he
    · intro e he
      simp at he
      rw [← he]
    · intro e he
      rcases List.mem_cons.1 he with he | he
      · subst he
        exact ⟨hl.1, hle, le_refl _, by dsimp only; omega⟩
      · obtain ⟨k1, k2, k3, k4⟩ := i5 e he
        exact ⟨k1, by omega, by omega, by omega⟩

/-- The greedy decomposition of a region is unique. -/
theorem greedy_unique {off r : Nat} {L : List (Nat × Nat)} (g : Greedy off r L) :
    ∀ L1, Greedy off r L1 → L = L1 := by
  induction g with
  | done off =>
    intro L1 g1
    cases g1 with
    | done => rfl
    | step _ _ c L2 hl _ =>
      have := class_ge16 hl.1
      have := hl.2.1
      omega
  | step off r c L hl g ih =>
    intro L1 g1
    cases g1 with
    | done =>
      have := class_ge16 hl.1
      have := hl.2.1
      omega
    | step _ _ c1 L2 hl1 g2 =>
      have e := largest_unique hl hl1
      subst e
      rw [ih L2 g2]

/-- The tail of `heap_create`, from the loop over the levels on, on the header that
`heap_create` has filled in. -/
theorem create_tail (address size j : Nat) (NEW : heap) (hj : 1 ≤ j) (hj7 : j ≤ 7)
    (b1 : 16 ^ j ≤ size) (b2 : size < 16 ^ (j + 1)) (h16 : size % 16 = 0)
    (hmax : size ≤ 0xF0000000) (ha0 : address ≠ 0) (hfit : address + size ≤ 2 ^ 32)
    (n1 : NEW.headsbits = fun _ => 0) (n2 : NEW.heads = fun _ => 0) (n3 : NEW.hdata = address)
    (n4 : NEW.hsize = size) (n5 : NEW.hdcnt = 15 * (j - 1) + size / 16 ^ j)
    (n6 : NEW.bfcnt = total_bitfield_count size) :
    ∃ h L,
      ((heap_create_levels size MAIN_BASE_SIZE_COUNT NEW).bind fun x =>
        (populate_heads 8
            { x.1 with
              headsbits := store (store (store (store x.1.headsbits 0 0) 1 0) 2 0) 3 0x007FFFFF }
            address size).bind
          fun new_heap => some (some new_heap)) = some (some h) ∧
      Greedy 0 size L ∧ Seeded h address L ∧ h.hdata = address ∧ h.hsize = size ∧
      h.hdcnt = 15 * (j - 1) + size / 16 ^ j := by
  obtain ⟨d1, d15⟩ := digit_bounds size j hj hj7 b1 b2
  obtain ⟨H1, e1⟩ := heap_create_levels_some size (by omega) 7 (le_refl 7) NEW
    (by rw [n6]; exact le_refl _)
  obtain ⟨f1, f2, f3, f4, f5, f6, f7⟩ := heap_create_levels_frame size _ _ _ e1
  dsimp only at f1 f2 f3 f4 f5 f6 f7
  obtain ⟨h, L, hp, hg, shp, _, hent, hfr, _⟩ :=
    populate_heads_spec 8 j size
      { H1 with
        headsbits := store (store (store (store H1.headsbits 0 0) 1 0) 2 0) 3 0x007FFFFF }
      address (by omega) hj hj7 b1 b2 h16 hmax ha0
      (by show H1.hdata ≤ address; rw [f3, n3])
      (by show address + size ≤ H1.hdata + H1.hsize; rw [f3, f4, n3, n4])
      hfit
      (by show _ ≤ H1.hdcnt; rw [f5, n5])
      (by show H1.hdcnt ≤ 105; rw [f5, n5]; omega)
  obtain ⟨_, s2, s3, s4, _, _⟩ := shp
  dsimp only at s2 s3 s4 hg hent hfr
  rw [f3, n3] at hg hent s2
  rw [Nat.sub_self] at hg
  refine ⟨h, L, ?_, hg, ⟨fun e he => (hent e he).2.2.2, ?_⟩, s2, by rw [s3, f4, n4],
    by rw [s4, f5, n5]⟩
  · show (heap_create_levels size 7 NEW).bind _ = _
    rw [e1]
    simp only [Option.some_bind]
    rw [hp]
    rfl
  · intro i hi hne
    have hi : i < 105 := hi
    obtain ⟨o1, o2⟩ := hfr i hne
    rw [o1, o2, f1, f2, n1, n2, initial_bits i (by omega)]
    exact ⟨rfl, by simp; omega⟩

/-- For a size and a base that `heap_create` accepts, up to the largest class, the call
returns a heap whose free lists hold the greedy decomposition of `size`. -/
theorem heap_create_greedy (junk : Nat → Nat) (region : Nat → chunk) (address size j : Nat)
    (hj : 1 ≤ j) (hj7 : j ≤ 7) (b1 : 16 ^ j ≤ size) (b2 : size < 16 ^ (j + 1))
    (h16 : size % 16 = 0) (hmax : size ≤ 0xF0000000) (ha : address % 16 ^ j = 0)
    (ha0 : address ≠ 0) (hfit : address + size ≤ 2 ^ 32) :
    ∃ h L, heap_create junk region address size = some (some h) ∧
      Greedy 0 size L ∧ Seeded h address L := by
  have hm : size &&& (BASE_SIZE_MIN - 1) = size % 16 := Nat.and_pow_two_sub_one_eq_mod size 4
  have hpos : 0 < 16 ^ j := pow_pos (by decide) j
  obtain ⟨hcnt, hsh⟩ := hd_cnt_eq size j hj hj7 b1 b2
  have hl := largest_main_eq size j hj hj7 b1 b2
  obtain ⟨h, L, e, hg, hseed, _, _, _⟩ := create_tail address size j
    { headsbits := fun _ => 0, bitfield := fun _ => none, hdata := address, hsize := size,
      hdcnt := add32 (mul32 (sub32 24 (CLZ size &&& 0x1C) >>> 2) 15)
        ((size >>> sub32 28 (CLZ size &&& 0x1C)) &&& 0x0F),
      bscnt := 0, heads := fun _ => 0, bfmem := junk, bfcnt := total_bitfield_count size,
      chunks := region }
    hj hj7 b1 b2 h16 hmax ha0 hfit rfl rfl rfl rfl hcnt rfl
  refine ⟨h, L, ?_, hg, hseed⟩
  unfold heap_create
  rw [if_neg (by rw [hm]; omega)]
  dsimp only
  rw [hl, and_largest_sub_one address j hj hj7, if_neg (by omega), if_neg (by omega)]
  exact e

/-- C20. For every size that is a multiple of 16 from 16 up to `0xF0000000`, and every base
that is not `NULL`, is a multiple of the largest main size `16 ^ j` that is at most `size`
and leaves the region inside the 32-bit address space, `heap_create` returns a heap whose
free lists hold the greedy decomposition `L` of `size`: every chunk of `L` is the sole
entry of the list of its class (head of the list, `prev` and `next` `NULL`, occupancy bit
set), every other list is empty with its bit clear, the classes of `L` add up to `size`
and go down strictly, every chunk starts where the one before it ends, the first one at
offset 0; a size that is a class gives the single entry `(0, size)`, and 18 KiB gives 16 KiB
at offset 0 and 2 KiB at offset 16 KiB. -/
theorem heap_create_seeds (junk : Nat → Nat) (region : Nat → chunk) (address size j : Nat)
    (hj : 1 ≤ j) (hj7 : j ≤ 7) (b1 : 16 ^ j ≤ size) (b2 : size < 16 ^ (j + 1))
    (h16 : size % 16 = 0) (hmax : size ≤ 0xF0000000) (ha : address % 16 ^ j = 0)
    (ha0 : address ≠ 0) (hfit : address + size ≤ 2 ^ 32) :
    ∃ h L, heap_create junk region address size = some (some h) ∧
      Greedy 0 size L ∧ Seeded h address L ∧
      (L.map Prod.snd).sum = size ∧ L.Pairwise (fun a b => b.2 < a.2) ∧
      L.Chain' (fun a b => b.1 = a.1 + a.2) ∧ (∀ e, e ∈ L.head? → e.1 = 0) ∧
      (IsClass size → L = [(0, size)]) ∧
      (size = 0x4800 → L = [(0, 0x4000), (0x4000, 0x800)]) := by
  have hpos : 0 < 16 ^ j := pow_pos (by decide) j
  obtain ⟨h, L, e, hg, hseed⟩ :=
    heap_create_greedy junk region address size j hj hj7 b1 b2 h16 hmax ha ha0 hfit
  obtain ⟨g1, g2, g3, g4, _⟩ := greedy_facts hg (by omega)
  refine ⟨h, L, e, hg, hseed, g1, g2, g3, g4, ?_, ?_⟩
  · intro hc
    apply greedy_unique hg
    apply Greedy.step 0 size size [] ⟨hc, le_refl _, fun s _ hs => hs⟩
    rw [Nat.sub_self]
    exact Greedy.done _
  · intro hsz
    subst hsz
    apply greedy_unique hg
    have l1 : IsLargestClassLe 0x4000 0x4800 := largest_of_band 0x4800 3 (by decide) (by decide)
      (by decide) (by decide)
    have l2 : IsLargestClassLe 0x800 0x800 := largest_of_band 0x800 2 (by decide) (by decide)
      (by decide) (by decide)
    exact Greedy.step 0 0x4800 0x4000 _ l1
      (Greedy.step 0x4000 0x800 0x800 _ l2 (Greedy.done _))

theorem heap_create_seeds_witness :
    ∃ h L, heap_create no_junk no_links 0x10000 0x4800 = some (some h) ∧
      Greedy 0 0x4800 L ∧ Seeded h 0x10000 L ∧
      (L.map Prod.snd).sum = 0x4800 ∧ L.Pairwise (fun a b => b.2 < a.2) ∧
      L.Chain' (fun a b => b.1 = a.1 + a.2) ∧ (∀ e, e ∈ L.head? → e.1 = 0) ∧
      (IsClass 0x4800 → L = [(0, 0x4800)]) ∧
      (0x4800 = 0x4800 → L = [(0, 0x4000), (0x4000, 0x800)]) :=
  heap_create_seeds no_junk no_links 0x10000 0x4800 3 (by decide) (by decide) (by decide)
    (by decide) (by decide) (by decide) (by decide) (by decide) (by decide)

/-! ## The whole heap in one request -/

/-- The scan of the occupancy words stops at once on a list that is occupied. -/
theorem scan_hit (h : heap) (i : Nat) (hi : i < 128)
    (hbit : occ_bit h.headsbits i = true) : next_available_head_index_from h i = some i := by
  have e31 : i &&& 0x1F = i % 32 := Nat.and_pow_two_sub_one_eq_mod i 5
  have hset : (shl32 (h.headsbits (i / 32)) (i % 32)).testBit 31 = true := by
    rw [testBit_shl32]
    unfold occ_bit at hbit
    rw [hbit]
    have : i % 32 ≤ 31 := by omega
    simp [this]
  have hc := clz_of_bits _ 31 (by decide) hset (by
    intro b hb
    rw [testBit_shl32]
    have : ¬ b < 32 := by omega
    simp [this])
  have hx : shl32 (h.headsbits (i / 32)) (i % 32) ≠ 0 := by
    intro h0
    rw [h0] at hset
    simp at hset
  unfold next_available_head_index_from
  dsimp only
  rw [word_eq, e31, if_neg (by unfold HEADS_BITS_SIZE; omega), if_neg hx, hc]
  unfold add32
  rw [Nat.mod_eq_of_lt (by omega)]
  rfl

theorem class_alloc_table : ∀ k, k < 7 → ∀ m, m < 16 → 1 ≤ m →
    sub32 (CTZ (m * 16 ^ (k + 1)) >>> 2) 1 = k ∧
    add32 (shl32 k 2) 4 = 4 * (k + 1) ∧
    (m * 16 ^ (k + 1)) >>> (4 * (k + 1)) = m ∧
    shl32 m (4 * (k + 1)) = m * 16 ^ (k + 1) := by
  decide!

theorem class_alloc_table2 : ∀ k, k < 7 → ∀ m, m < 16 → 1 ≤ m →
    shl32 1 (4 * (k + 1)) = 16 ^ (k + 1) ∧
    16 ^ (k + 1) >>> (4 * (k + 1)) = 1 ∧
    sub32 (4 * (k + 1)) 4 = 4 * k ∧
    mul32 (16 ^ (k + 1)) (m - 1) = (m - 1) * 16 ^ (k + 1) := by
  decide!

/-- The first loop of `heap_alloc` stops at once when nothing is left over at the level
and the request has a digit there. -/
theorem carve_break (base extra_sz needed_sz fuel : Nat) (h : heap) (c bs_level shift : Nat)
    (hs : shift < 32) (hr : (extra_sz >>> shift) &&& 0x0F = 0) (hn : needed_sz >>> shift ≠ 0) :
    heap_alloc_carve base extra_sz needed_sz (fuel + 1) h c bs_level shift
      = some (h, c, bs_level, shift, needed_sz >>> shift) := by
  rw [heap_alloc_carve]
  dsimp only
  rw [if_neg (by omega), if_neg (by simpa using hr)]
  simp only [Option.some_bind]
  rw [if_pos hn]

/-- The second loop of `heap_alloc` ends at once when nothing is left of the request and
nothing is left over. -/
theorem tail_done (base fuel : Nat) (h : heap) (c bs_level shift main_bs : Nat)
    (hs : sub32 shift 4 < 32) :
    heap_alloc_tail base 0 (fuel + 1) h c bs_level shift main_bs 0 = some h := by
  rw [heap_alloc_tail]
  dsimp only
  rw [if_neg (by omega)]
  simp [sub32, shl32]

theorem set_bf_ptr_bitfield (index nbc : Nat) (H : heap) (start size : Nat) :
    OptAll (fun H1 => H1.bitfield index = (if nbc ≠ 0 then some start else none) ∧
        ∀ k, k ≠ index → H1.bitfield k = H.bitfield k)
      (set_bf_ptr index nbc H start size) := by
  unfold set_bf_ptr
  apply optAll_ite
  · intro hn
    have key : ∀ H1 : heap,
        H1.bitfield = (fun k => if k = index then some start else H.bitfield k) →
        H1.bitfield index = (if nbc ≠ 0 then some start else none) ∧
          ∀ k, k ≠ index → H1.bitfield k = H.bitfield k := by
      intro H1 e
      rw [e, if_pos hn]
      exact ⟨if_pos rfl, fun k hk => if_neg hk⟩
    apply optAll_ite
    · intro _; exact optAll_none _
    · intro _
      apply optAll_ite
      · intro _; exact optAll_none _
      · intro _
        apply optAll_ite
        · intro _
          apply optAll_bind
          intro bf _
          apply optAll_bind
          intro mem _
          apply optAll_bind
          intro mem1 _
          exact optAll_some _ _ (key _ rfl)
        · intro _; exact optAll_some _ _ (key _ rfl)
  · intro hn
    apply optAll_ite
    · intro _; exact optAll_none _
    · intro _
      apply optAll_some
      rw [if_neg hn]
      exact ⟨if_pos rfl, fun k hk => if_neg hk⟩

/-- The pointers to the levels of the bitfield that the loop of `heap_create` sets. -/
theorem heap_create_levels_bitfield (size : Nat) :
    ∀ n H, OptAll (fun r => r.2 = total_bitfield_count_upto size n ∧
        (∀ i, i < n → r.1.bitfield i =
          (if needed_bitfield_count size i ≠ 0 then some (total_bitfield_count_upto size i)
           else none)) ∧
        ∀ i, n ≤ i → r.1.bitfield i = H.bitfield i)
      (heap_create_levels size n H) := by
  intro n
  induction n with
  | zero =>
    intro H
    unfold heap_create_levels
    apply optAll_some
    exact ⟨rfl, fun i hi => by omega, fun i _ => rfl⟩
  | succ n ih =>
    intro H
    unfold heap_create_levels
    apply optAll_bind
    intro a ha
    obtain ⟨H1, start⟩ := a
    obtain ⟨i1, i2, i3⟩ := ih H _ ha
    dsimp only at i1 i2 i3
    dsimp only
    apply optAll_bind
    intro H2 h2
    obtain ⟨b1, b2⟩ := set_bf_ptr_bitfield _ _ _ _ _ _ h2
    apply optAll_some
    dsimp only
    refine ⟨by rw [i1]; rfl, ?_, ?_⟩
    · intro i hi
      by_cases hin : i = n
      · subst hin
        rw [b1, i1]
      · rw [b2 i hin]
        exact i2 i (by omega)
    · intro i hi
      rw [b2 i (by omega)]
      exact i3 i (by omega)

/-- In a heap that `heap_create` returns, the pointer to the bitfield of a level that has
words is the sum of the word counts of the levels below it, and the bookkeeping buffer has
`total_bitfield_count (size)` words. -/
theorem heap_create_bitfield (junk : Nat → Nat) (region : Nat → chunk) (address size : Nat) :
    OptAll (fun r => ∀ h, r = some h →
      (∀ i, i < 7 → h.bitfield i =
        (if needed_bitfield_count size i ≠ 0 then some (total_bitfield_count_upto size i)
         else none)) ∧
      h.bfcnt = total_bitfield_count_upto size 7)
      (heap_create junk region address size) := by
  unfold heap_create
  apply optAll_ite
  · intro _
    apply optAll_some
    intro h e
    cases e
  · intro _
    apply optAll_ite
    · intro _
      apply optAll_some
      intro h e
      cases e
    · intro _
      apply optAll_ite
      · intro _; exact optAll_none _
      · intro _
        apply optAll_bind
        intro a hlev
        obtain ⟨H1, st⟩ := a
        obtain ⟨_, _, _, _, _, _, f7⟩ := heap_create_levels_frame size _ _ _ hlev
        obtain ⟨_, l2, _⟩ := heap_create_levels_bitfield size _ _ _ hlev
        dsimp only at f7 l2
        dsimp only
        apply optAll_bind
        intro h1 hpop
        apply optAll_some
        intro h e
        cases e
        obtain ⟨⟨k1, _, _, _, _, k6⟩, _⟩ := populate_heads_keeps _ _ _ _ _ hpop
        dsimp only at k1 k6
        refine ⟨fun i hi => by rw [k1]; exact l2 i hi, by rw [k6, f7]; rfl⟩

theorem chunk_next_eq (h : heap) (c : Nat) (hok : chunk_ok h c = true) :
    chunk_next h c = some (h.chunks c).next := by
  unfold chunk_next
  rw [if_pos hok]

theorem update_head_eq (h : heap) (index c : Nat) (h1 : index < 128) (h2 : index < h.hdcnt) :
    update_head h index c = some { h with
      headsbits := store h.headsbits (index >>> 5)
        (if c ≠ 0 then h.headsbits (index >>> 5) ||| (0x80000000 >>> (index &&& 31))
         else h.headsbits (index >>> 5) &&& not32 (0x80000000 >>> (index &&& 31))),
      heads := store h.heads index c } := by
  unfold update_head
  rw [if_neg (by rw [word_eq]; unfold HEADS_BITS_SIZE; omega), if_neg (by omega)]

theorem heap_set_alloc_head_eq (s : Nat) (h : heap) (lvl index : Nat) (hl : lvl < 7)
    (hb : h.bitfield lvl = some s) (hw : s + (index >>> 4) < h.bfcnt) :
    heap_set_alloc_head h lvl index
      = some { h with bfmem := bf_set_alloc_head h.bfmem s index } := by
  unfold heap_set_alloc_head
  rw [bitfield_at_eq s h lvl _ hl hb hw]
  rfl

theorem heap_set_alloc_multi_some (s : Nat) (h : heap) (lvl index cnt : Nat) (hl : lvl < 7)
    (hb : h.bitfield lvl = some s) (hw : s + (index >>> 4) < h.bfcnt)
    (h1 : sub32 32 (shl32 cnt 1) < 32)
    (h2 : sub32 (sub32 32 (shl32 cnt 1)) ((index &&& 0xF) <<< 1) < 32) :
    heap_set_alloc_multi h lvl index cnt
      = some { h with bfmem := (store h.bfmem (s + (index >>> 4))
          (h.bfmem (s + (index >>> 4)) &&&
            not32 (shl32 (0xFFFFFFFF >>> sub32 32 (shl32 cnt 1))
              (sub32 (sub32 32 (shl32 cnt 1)) ((index &&& 0xF) <<< 1))))) } := by
  unfold heap_set_alloc_multi bf_set_alloc_multi bf_set_b00_multi
  rw [bitfield_at_eq s h lvl _ hl hb hw]
  simp only [Option.some_bind]
  rw [if_neg (by omega), if_neg (by omega)]
  rfl

/-- On a heap whose only free chunk is the whole region, of a class size, `heap_alloc` of
that size returns the base of the region. -/
theorem heap_alloc_whole (h : heap) (address k m s : Nat) (hk : k < 7) (hm1 : 1 ≤ m)
    (hm : m < 16) (ha0 : address ≠ 0) (hd : h.hdata = address)
    (hsz : h.hsize = m * 16 ^ (k + 1)) (hcnt : h.hdcnt = 15 * k + m)
    (hbit : occ_bit h.headsbits (15 * k + m - 1) = true)
    (hhead : h.heads (15 * k + m - 1) = address) (hnext : (h.chunks address).next = 0)
    (hbf : h.bitfield k = some s) (hs : s < h.bfcnt)
    (hfit : address + m * 16 ^ (k + 1) ≤ 2 ^ 32) :
    ∃ h1, heap_alloc h (m * 16 ^ (k + 1)) = some (h1, address) := by
  obtain ⟨t1, t2, t3, t4⟩ := class_alloc_table k hk m hm hm1
  obtain ⟨u1, u2, u3, u4⟩ := class_alloc_table2 k hk m hm hm1
  obtain ⟨_, tab2⟩ := class_index_table k hk m hm hm1
  obtain ⟨tab1, _⟩ := class_index_table k hk m hm hm1
  have hcls : IsClass (m * 16 ^ (k + 1)) := ⟨k, m, by omega, hm1, by omega, rfl⟩
  have hpos : 0 < 16 ^ (k + 1) := pow_pos (by decide) _
  have hge : 16 ≤ m * 16 ^ (k + 1) := class_ge16 hcls
  have hmax : m * 16 ^ (k + 1) ≤ 0xF0000000 := by
    have : 16 ^ (k + 1) ≤ 16 ^ 7 := Nat.pow_le_pow_right (by decide) (by omega)
    have := Nat.mul_le_mul (show m ≤ 15 by omega) this
    omega
  have h16 : (m * 16 ^ (k + 1)) % 16 = 0 := by
    rw [Nat.pow_succ, ← Nat.mul_assoc]
    exact Nat.mul_mod_left _ _
  generalize hsize : m * 16 ^ (k + 1) = size at *
  have hclosest : closest_base_size size = size := by
    obtain ⟨_, c2, c3⟩ := closest_base_size_main size hmax
    exact Nat.le_antisymm (c3 size hcls (le_refl _)) c2
  have hscan : next_available_head_index h size = some (15 * k + m - 1) := by
    unfold next_available_head_index
    dsimp only
    rw [hclosest, if_neg (by omega), tab2]
    exact scan_hit h _ (by omega) hbit
  have hok : chunk_ok h address = true :=
    chunk_ok_of h address ha0 (by omega) (by omega)
  unfold heap_alloc
  dsimp only
  rw [if_neg (by omega), round_up_to_16_fix size (by omega) h16, hscan]
  simp only [Option.some_bind]
  rw [if_neg (by unfold BASE_SIZES_COUNT; omega), all_defined _ (by omega)]
  simp only [Bool.not_true, Bool.false_eq_true, if_false]
  rw [heads_at_eq h _ (by omega), hhead]
  simp only [Option.some_bind]
  rw [chunk_next_eq h address hok, hnext]
  simp only [Option.some_bind, ne_eq, not_true_eq_false, if_false]
  rw [chunk_next_eq h address hok, hnext]
  simp only [Option.some_bind]
  rw [update_head_eq h _ 0 (by omega) (by omega)]
  simp only [Option.some_bind]
  have hctz : ctz_checked size = some (CTZ size) := by
    unfold ctz_checked
    rw [if_neg (by omega)]
  have hsub : sub32 size size = 0 := by unfold sub32; omega
  rw [tab1]
  rw [hctz]
  rw [Option.some_bind]
  rw [t1, t2, hsub]
  have h0 : ∀ x : Nat, (0 >>> x) &&& 0x0F = 0 := by
    intro x
    rw [Nat.zero_shiftRight]
    rfl
  have hcarve : ∀ (H : heap) (c : Nat), heap_alloc_carve h.hdata 0 size 9 H c k (4 * (k + 1))
      = some (H, c, k, 4 * (k + 1), size >>> (4 * (k + 1))) :=
    fun H c => carve_break h.hdata 0 size 8 H c k (4 * (k + 1)) (by omega)
      (h0 _) (by rw [t3]; omega)
  rw [hcarve, t3, Option.some_bind]
  dsimp only
  have hrel : sub32 address h.hdata = 0 := by rw [hd]; unfold sub32; omega
  have hrel1 : sub32 (add32 address (16 ^ (k + 1))) h.hdata = 16 ^ (k + 1) := by
    have : 16 ^ (k + 1) ≤ size := by
      rw [← hsize]
      exact Nat.le_mul_of_pos_left _ (by omega)
    rw [hd]
    unfold sub32 add32
    omega
  have hzero : sub32 size size = 0 := hsub
  have htail : ∀ (H : heap) (c mb : Nat),
      heap_alloc_tail h.hdata 0 9 H c (sub32 k 1) (4 * (k + 1)) mb 0 = some H :=
    fun H c mb => tail_done h.hdata 8 H c (sub32 k 1) (4 * (k + 1)) mb (by rw [u3]; omega)
  rw [hrel, Nat.zero_shiftRight, u1, hrel1, u2, t4, hzero]
  rw [heap_set_alloc_head_eq s]
  rotate_left
  · exact hk
  · exact hbf
  · show s + (0 >>> 4) < h.bfcnt
    rw [Nat.zero_shiftRight]
    exact hs
  rw [Option.some_bind]
  dsimp only
  by_cases hm1' : sub32 m 1 = 0
  · rw [if_neg (by simpa using hm1'), Option.some_bind]
    dsimp only
    rw [if_neg (by simp), Option.some_bind]
    by_cases hk0 : k = 0
    · rw [if_neg (by simpa using hk0)]
      exact ⟨_, rfl⟩
    · rw [if_pos hk0, htail, Option.some_bind]
      exact ⟨_, rfl⟩
  · have hcnt1 : sub32 m 1 = m - 1 := by unfold sub32; omega
    have hm2 : 2 ≤ m := by
      rw [hcnt1] at hm1'
      omega
    rw [if_pos hm1', hcnt1]
    rw [heap_set_alloc_multi_some s]
    rotate_left
    · exact hk
    · exact hbf
    · show s + (1 >>> 4) < h.bfcnt
      exact hs
    · unfold sub32 shl32
      rw [Nat.shiftLeft_eq]
      omega
    · unfold sub32 shl32
      rw [Nat.shiftLeft_eq]
      have : (1 &&& 0xF) <<< 1 = 2 := rfl
      rw [this]
      omega
    rw [Option.some_bind, Option.some_bind]
    dsimp only
    rw [if_neg (by simp), Option.some_bind]
    by_cases hk0 : k = 0
    · rw [if_neg (by simpa using hk0)]
      exact ⟨_, rfl⟩
    · rw [if_pos hk0, htail, Option.some_bind]
      exact ⟨_, rfl⟩

/-! ## Conservation -/

/-- On the heap of 4096 bytes at `0x1000`, after `heap_alloc (h, 16)` and
`heap_alloc (h, 256)`, which return `0x1FF0` and `0x1E00`, the call `heap_free (h, 0x1E00)`
has no result: the chunk after the block is split by the first allocation, the walk that
measures the block goes down one level for nothing, and the loop that follows shifts by
`0 - 2`.  In the other order both calls of `heap_free` return and the heap is whole
again. -/
theorem heap_free_beside_split_chunk :
    ((create_heap 0x1000 0x1000).bind fun h =>
      (run h [Call.alloc 16, Call.alloc 256]).map fun r => (r.2, (heap_free r.1 0x1E00).isNone))
      = some ([0x1FF0, 0x1E00], true) ∧
    ((create_heap 0x1000 0x1000).bind fun h =>
      (run h [Call.alloc 16, Call.alloc 256, Call.free 0x1FF0, Call.free 0x1E00,
        Call.alloc 4096]).map fun r => r.2) = some [0x1FF0, 0x1E00, 0x1000] := by
  decide!

theorem optAll_const {α : Type} (P : Prop) (o : Option α) (h : P) : OptAll (fun _ => P) o :=
  fun _ _ => h

/-- The seeding of the free lists writes the links of the chunk at `data`: it has a result
only if `data` is not `NULL`. -/
theorem populate_heads_base (fuel : Nat) (h : heap) (data size : Nat) :
    OptAll (fun _ => data ≠ 0) (populate_heads fuel h data size) := by
  cases fuel with
  | zero =>
    rw [populate_heads]
    exact optAll_none _
  | succ fuel =>
    rw [populate_heads]
    apply optAll_bind
    intro _ _
    apply optAll_bind
    intro a _
    obtain ⟨i, used⟩ := a
    dsimp only
    apply optAll_ite
    · intro _; exact optAll_none _
    · intro hi
      apply optAll_ite
      · intro _; exact optAll_none _
      · intro _
        apply optAll_bind
        intro c hc
        have hcd : c = data := by
          unfold heads_at at hc
          dsimp only at hc
          rw [if_pos (by omega)] at hc
          simp [store] at hc
          exact hc.symm
        subst hcd
        apply optAll_bind
        intro h2 hup
        exact optAll_const _ _ (chunk_ok_ne_zero (update_prev_some hup)).1

/-- The base of a heap that `heap_create` returns is not `NULL`. -/
theorem heap_create_base (junk : Nat → Nat) (region : Nat → chunk) (address size : Nat) :
    OptAll (fun r => ∀ h, r = some h → address ≠ 0) (heap_create junk region address size) := by
  unfold heap_create
  apply optAll_ite
  · intro _
    apply optAll_some
    intro h e
    cases e
  · intro _
    apply optAll_ite
    · intro _
      apply optAll_some
      intro h e
      cases e
    · intro _
      apply optAll_ite
      · intro _; exact optAll_none _
      · intro _
        apply optAll_bind
        intro a _
        apply optAll_bind
        intro h1 hpop
        apply optAll_some
        intro h _
        exact populate_heads_base _ _ _ _ _ hpop

/-- C15. For every heap state, `heap_free (h, p)` returns the heap it was given when `p`
is outside `[hdata, hdata + hsize)` and when `p` is not a multiple of 16; the same holds
for `p = NULL` in every heap that calls of `heap_alloc` and `heap_free` lead to from a heap
that `heap_create` returned, whose base is never `NULL`. -/
theorem heap_free_ignores :
    (∀ (h : heap) (p : Nat), p < h.hdata ∨ h.hdata + h.hsize ≤ p ∨ p % 16 ≠ 0 →
      heap_free h p = some h) ∧
    (∀ (junk : Nat → Nat) (region : Nat → chunk) (address size : Nat) (h0 h : heap),
      heap_create junk region address size = some (some h0) → Reachable h0 h →
      heap_free h 0 = some h) := by
  have key : ∀ (h : heap) (p : Nat), p < h.hdata ∨ h.hdata + h.hsize ≤ p ∨ p % 16 ≠ 0 →
      heap_free h p = some h := by
    intro h p hp
    have hm : p &&& 0x0F = p % 16 := Nat.and_pow_two_sub_one_eq_mod p 4
    unfold heap_free
    dsimp only
    rw [if_pos]
    rw [hm]
    exact hp
  refine ⟨key, ?_⟩
  intro junk region address size h0 h hc hr
  have ha0 := heap_create_base junk region address size _ hc h0 rfl
  obtain ⟨⟨_, k2, _, _, _, _⟩, _⟩ := reachable_keeps hr
  have hd : OptAll (fun r => ∀ h, r = some h → h.hdata = address)
      (heap_create junk region address size) := by
    unfold heap_create
    apply optAll_ite
    · intro _
      apply optAll_some
      intro h e
      cases e
    · intro _
      apply optAll_ite
      · intro _
        apply optAll_some
        intro h e
        cases e
      · intro _
        apply optAll_ite
        · intro _; exact optAll_none _
        · intro _
          apply optAll_bind
          intro a hlev
          obtain ⟨H1, st⟩ := a
          obtain ⟨_, _, f3, _, _, _, _⟩ := heap_create_levels_frame size _ _ _ hlev
          dsimp only at f3
          dsimp only
          apply optAll_bind
          intro h1 hpop
          apply optAll_some
          intro h e
          cases e
          obtain ⟨⟨_, p2, _, _, _, _⟩, _⟩ := populate_heads_keeps _ _ _ _ _ hpop
          dsimp only at p2
          rw [p2, f3]
  have hd0 := hd _ hc h0 rfl
  apply key
  left
  rw [k2, hd0]
  omega

theorem heap_free_ignores_witness :
    ∃ h : heap, create_heap 0x1000 0x1000 = some h ∧ heap_free h 0x1008 = some h := by
  cases hc : create_heap 0x1000 0x1000 with
  | none =>
    have := created_4k
    rw [hc] at this
    cases this
  | some h =>
    exact ⟨h, rfl, heap_free_ignores.1 h 0x1008 (Or.inr (Or.inr (by decide)))⟩

/-- The function `heap_alloc` returns `NULL` and leaves the heap as it was whenever no list
of a class that is at least the request rounded up to 16 is occupied, as long as the
rounding does not wrap. -/
theorem heap_alloc_none_available (h : heap) (n : Nat) (h1 : 1 ≤ n) (h2 : n ≤ 0xFFFFFFF0)
    (hw : ∀ w, h.headsbits w < 2 ^ 32)
    (hsent : ∀ j, 105 ≤ j → j < 128 → occ_bit h.headsbits j = true)
    (hclear : ∀ j, base_size_to_index (closest_base_size (round_up_to_16 n)) ≤ j → j < 105 →
      occ_bit h.headsbits j = false) : heap_alloc h n = some (h, 0) := by
  apply heap_alloc_null h n (by omega)
  rw [needed_sz_eq n h2]
  by_cases hc0 : closest_base_size (round_up_to_16 n) = 0
  · unfold next_available_head_index
    dsimp only
    rw [if_pos hc0]
  · have hmax : round_up_to_16 n ≤ 0xF0000000 := by
      by_contra hgt
      apply hc0
      unfold closest_base_size BASE_SIZE_MIN BASE_SIZE_MAX
      rw [if_neg (by omega), if_pos (by omega)]
    obtain ⟨cls, _, _⟩ := closest_base_size_main _ hmax
    exact next_available_head_index_none h _ hc0
      (scan_none h _ hw hclear hsent (class_index_inverse _ cls).1)

/-! ## The predicate `is_base_size` -/

theorem clz_band_zero (n : Nat) (h1 : 1 ≤ n) (h2 : n < 16) : CLZ n &&& 0x1C = 28 := by
  interval_cases n <;> rfl

/-- The mask of one hexadecimal digit keeps that digit. -/
theorem and_digit (x t : Nat) (hx : x < 2 ^ (t + 4)) : (15 * 2 ^ t) &&& x = x / 2 ^ t * 2 ^ t := by
  apply Nat.eq_of_testBit_eq
  intro i
  rw [Nat.testBit_and, Nat.mul_comm 15, Nat.testBit_mul_pow_two,
    show (15 : Nat) = 2 ^ 4 - 1 from rfl, Nat.testBit_two_pow_sub_one,
    Nat.mul_comm (x / 2 ^ t), Nat.testBit_mul_pow_two, ← Nat.shiftRight_eq_div_pow,
    Nat.testBit_shiftRight]
  by_cases hit : t ≤ i
  · have e : t + (i - t) = i := by omega
    rw [e]
    by_cases hi : i - t < 4
    · simp [hit, hi]
    · have : x.testBit i = false :=
        Nat.testBit_lt_two_pow
          (Nat.lt_of_lt_of_le hx (Nat.pow_le_pow_right (by decide) (by omega)))
      simp [hit, hi, this]
  · simp [hit]

theorem band_exists_zero (size : Nat) (h1 : 0 < size) (h2 : size < 2 ^ 32) :
    ∃ j, j ≤ 7 ∧ 16 ^ j ≤ size ∧ size < 16 ^ (j + 1) := by
  by_cases h16 : 16 ≤ size
  · obtain ⟨j, _, hj7, a, b⟩ := band_exists size h16 h2
    exact ⟨j, hj7, a, b⟩
  · exact ⟨0, by decide, by simpa using h1, by simpa using Nat.lt_of_not_le h16⟩

/-- In the band of `16 ^ j` the function `is_base_size` tests that the digits below the leading one are
zero. -/
theorem is_base_size_band (size j : Nat) (hj7 : j ≤ 7) (h1 : 16 ^ j ≤ size)
    (h2 : size < 16 ^ (j + 1)) : is_base_size size = true ↔ size % 16 ^ j = 0 := by
  have hc : CLZ size &&& 0x1C = 28 - 4 * j := by
    by_cases hj : 1 ≤ j
    · exact clz_band size j hj hj7 h1 h2
    · have : j = 0 := by omega
      subst this
      exact clz_band_zero size (by simpa using h1) (by simpa using h2)
  have hm : 0xF0000000 >>> (28 - 4 * j) = 15 * 2 ^ (4 * j) := by
    interval_cases j <;> rfl
  have hx : size < 2 ^ (4 * j + 4) := by
    rw [show 4 * j + 4 = 4 * (j + 1) by ring, Nat.pow_mul]; exact h2
  unfold is_base_size
  simp only [hc, hm, and_digit size (4 * j) hx, beq_iff_eq]
  rw [Nat.pow_mul]
  have := Nat.div_add_mod size ((2 ^ 4) ^ j)
  have e : (2 : Nat) ^ 4 = 16 := rfl
  rw [e] at this ⊢
  constructor
  · intro h
    have h3 : 16 ^ j * (size / 16 ^ j) = size / 16 ^ j * 16 ^ j := Nat.mul_comm _ _
    omega
  · intro h
    have h3 : 16 ^ j * (size / 16 ^ j) = size / 16 ^ j * 16 ^ j := Nat.mul_comm _ _
    omega

/-- C30, as stated, fails below 16: `is_base_size (1)` is true and 1 is not a class value. -/
theorem is_base_size_below_sixteen : is_base_size 1 = true ∧ ¬ IsClass 1 := by
  refine ⟨by decide, ?_⟩
  intro h
  have := class_ge16 h
  omega

/-- C30, amended. For every non-zero 32-bit `size`, `is_base_size (size)` is true if and only if `size`
has a single non-zero hexadecimal digit, that is, `size` is `m * 16 ^ k` with `k` in `0..7`
and `m` in `1..15`; from 16 on this is the same as being one of the 105 class values. -/
theorem is_base_size_iff (size : Nat) (h0 : 0 < size) (hs : size < 2 ^ 32) :
    (is_base_size size = true ↔ ∃ k m, k ≤ 7 ∧ 1 ≤ m ∧ m ≤ 15 ∧ size = m * 16 ^ k) ∧
    (16 ≤ size → (is_base_size size = true ↔ IsClass size)) := by
  obtain ⟨j, hj7, h1, h2⟩ := band_exists_zero size h0 hs
  have hb := is_base_size_band size j hj7 h1 h2
  have key : is_base_size size = true ↔ ∃ k m, k ≤ 7 ∧ 1 ≤ m ∧ m ≤ 15 ∧ size = m * 16 ^ k := by
    rw [hb]
    constructor
    · intro hm
      refine ⟨j, size / 16 ^ j, hj7, ?_, ?_, ?_⟩
      · interval_cases j <;> simp at h1 h2 hm ⊢ <;> omega
      · interval_cases j <;> simp at h1 h2 hm ⊢ <;> omega
      · interval_cases j <;> simp at h1 h2 hm ⊢ <;> omega
    · rintro ⟨k, m, hk, hm1, hm2, rfl⟩
      interval_cases j <;> interval_cases k <;> simp at h1 h2 ⊢ <;> omega
  refine ⟨key, ?_⟩
  intro h16
  rw [key]
  constructor
  · rintro ⟨k, m, hk, hm1, hm2, e⟩
    have hk0 : k ≠ 0 := by
      intro hk0
      subst hk0
      simp at e
      omega
    exact ⟨k - 1, m, by omega, hm1, hm2, by rw [show k - 1 + 1 = k by omega]; exact e⟩
  · rintro ⟨k, m, hk, hm1, hm2, e⟩
    exact ⟨k + 1, m, by omega, hm1, hm2, e⟩

theorem is_base_size_iff_witness :
    (is_base_size 0x3000 = true ↔ ∃ k m, k ≤ 7 ∧ 1 ≤ m ∧ m ≤ 15 ∧ 0x3000 = m * 16 ^ k) ∧
    (16 ≤ 0x3000 → (is_base_size 0x3000 = true ↔ IsClass 0x3000)) :=
  is_base_size_iff 0x3000 (by decide) (by decide)

/-! ## Reachable heaps: the registry, and what the padded level and the walk below a `SPLIT` chunk break -/

/-- C23. In every heap that calls of `heap_alloc` and `heap_free` lead to from a heap that `heap_create`
returned, the occupancy bit of every list `i < hdcnt`, which is bit `31 - i % 32` of
`headsbits[i / 32]`, is set if and only if `heads[i]` is not `NULL`; no bit of a list in
`[hdcnt, 105)` is set; the sentinel bits 105..127, all in `headsbits[3]`, are set; and
`hdcnt` is at most 105. -/
theorem registry_coherent (junk : Nat → Nat) (region : Nat → chunk) (address size : Nat)
    (hs : size < 2 ^ 32) (h0 h : heap)
    (hc : heap_create junk region address size = some (some h0)) (r : Reachable h0 h) :
    (∀ i, i < h.hdcnt →
      ((h.headsbits (i / 32)).testBit (31 - i % 32) = true ↔ h.heads i ≠ 0)) ∧
    (∀ i, h.hdcnt ≤ i → i < BASE_SIZES_COUNT →
      (h.headsbits (i / 32)).testBit (31 - i % 32) = false) ∧
    (∀ i, BASE_SIZES_COUNT ≤ i → i < 128 →
      i / 32 = 3 ∧ (h.headsbits 3).testBit (31 - i % 32) = true) ∧
    h.hdcnt ≤ BASE_SIZES_COUNT := by
  obtain ⟨j, _, _, _, _, _, _, _, _, _, _, reg0⟩ :=
    heap_create_registry junk region address size hs (some h0) hc h0 rfl
  have reg : Registry h := (reachable_keeps r).2 reg0
  refine ⟨fun i hi => reg.sync i hi, fun i h1 h2 => reg.clear i h1 h2, ?_, reg.cnt_le⟩
  intro i h1 h2
  have h1' : 105 ≤ i := h1
  have e : i / 32 = 3 := by omega
  have := reg.sentinel i h1 h2
  unfold occ_bit at this
  rw [e] at this
  exact ⟨e, this⟩

theorem registry_coherent_witness :
    ∃ h0 : heap, heap_create no_junk no_links 0x1000 0x1000 = some (some h0) ∧
      (∀ i, i < h0.hdcnt →
        ((h0.headsbits (i / 32)).testBit (31 - i % 32) = true ↔ h0.heads i ≠ 0)) ∧
      (∀ i, h0.hdcnt ≤ i → i < BASE_SIZES_COUNT →
        (h0.headsbits (i / 32)).testBit (31 - i % 32) = false) ∧
      (∀ i, BASE_SIZES_COUNT ≤ i → i < 128 →
        i / 32 = 3 ∧ (h0.headsbits 3).testBit (31 - i % 32) = true) ∧
      h0.hdcnt ≤ BASE_SIZES_COUNT := by
  obtain ⟨h0, hc⟩ := created_4k_heap
  exact ⟨h0, hc, registry_coherent no_junk no_links 0x1000 0x1000 (by decide) h0 h0 hc
    Reachable.start⟩

/-- C29. On the heap of 4096 bytes at `0x1000`, after `heap_alloc (h, 16)`, which returns `0x1FF0`, and
`heap_alloc (h, 256)`, which returns `0x1E00`, the call `heap_free (h, 0x1E00)` finds the
`ALLOC_HEAD` at level 1, chunk 14 (the search starts at level `(CTZ 0x1E00 >> 2) - 1 = 1`
with shift 8), and measures `tot_size = 256`, which is what `heap_get_alloc_size` returns;
but chunk 15, which follows, is `SPLIT` by the other allocation, so the measuring walk goes
down and stops at level 0, while the lowest non-zero hexadecimal digit of 256 is at level
`(CTZ 256 >> 2) - 1 = 1`.  The call then has no defined result. -/
theorem heap_free_measure_stops_below :
    ((create_heap 0x1000 0x1000).bind fun h =>
      (run h [Call.alloc 16, Call.alloc 256]).bind fun r =>
        (heap_get_alloc_size r.1 0x1E00).map fun s => (r.2, s, r.1.hdata))
      = some ([0x1FF0, 0x1E00], 256, 0x1000) ∧
    ctz_checked 0x1E00 = some 9 ∧ sub32 (9 >>> 2) 1 = 1 ∧ shl32 (add32 1 1) 2 = 8 ∧
    ((create_heap 0x1000 0x1000).bind fun h =>
      (run h [Call.alloc 16, Call.alloc 256]).bind fun r =>
        heap_free_find_head r.1 (sub32 0x1E00 0x1000) 1 8) = some (some (1, 8, 14)) ∧
    ((create_heap 0x1000 0x1000).bind fun h =>
      (run h [Call.alloc 16, Call.alloc 256]).bind fun r =>
        (bitfield_word r.1 1 (14 >>> 4)).map fun w =>
          count_leading_allocs (shl32 w (((14 &&& 0x0F) + 1) <<< 1)) + 1) = some 1 ∧
    ((create_heap 0x1000 0x1000).bind fun h =>
      (run h [Call.alloc 16, Call.alloc 256]).bind fun r =>
        heap_free_measure r.1 (sub32 0x1E00 0x1000) 1 8 14 1 (shl32 1 8)) = some (0, 4, 256) ∧
    sub32 (CTZ 256 >>> 2) 1 = 1 ∧
    ((create_heap 0x1000 0x1000).bind fun h =>
      (run h [Call.alloc 16, Call.alloc 256]).map fun r => (heap_free r.1 0x1E00).isNone)
      = some true := by
  decide!

/-- C22. On the heap of 18 KiB at `0x10000` the calls `alloc 0x4000`, `alloc 0x800`, `free 0x14000`,
`alloc 0x800` return `0x10000`, `0x14000` and `0x14800`: the last pointer is the end of
the region, and `heap_get_address_status` says `INVALID` for it.  After `alloc 0x4000`,
`alloc 0x700`, `alloc 0x10`, `free 0x14000`, `alloc 0x1000`, which return `0x10000`,
`0x14100`, `0x140F0` and `0x14000`, the status of the last pointer is `FREE`. -/
theorem heap_alloc_status_not_alloc_head :
    ((create_heap 0x10000 0x4800).bind fun h =>
      (run h [Call.alloc 0x4000, Call.alloc 0x800, Call.free 0x14000, Call.alloc 0x800]).bind
        fun r => (heap_get_address_status r.1 0x14800).map fun s =>
          (r.2, s, r.1.hdata + r.1.hsize))
      = some ([0x10000, 0x14000, 0x14800], eSTATUS_INVALID, 0x14800) ∧
    ((create_heap 0x10000 0x4800).bind fun h =>
      (run h [Call.alloc 0x4000, Call.alloc 0x700, Call.alloc 0x10, Call.free 0x14000,
        Call.alloc 0x1000]).bind
        fun r => (heap_get_address_status r.1 0x14000).map fun s => (r.2, s))
      = some ([0x10000, 0x14100, 0x140F0, 0x14000], eSTATUS_FREE) ∧
    eSTATUS_INVALID ≠ eSTATUS_ALLOC_HEAD ∧ eSTATUS_FREE ≠ eSTATUS_ALLOC_HEAD := by
  decide!

/-- C24. On the heap of 18 KiB at `0x10000`, whose level 1 holds the free run of the eight chunks 64..71
at `0x14000` in list `15 * 1 + 7 = 22`, the calls `alloc 0x4000` and `free 0x14000` (an
address that no call returned) leave that run free and in list 22, and put its leftmost
chunk `0x14000` in list 30 as well, as a free chunk of level 2; the next calls
`alloc 0x800` and `alloc 0x1000` both return `0x14000`. -/
theorem free_run_in_two_lists :
    ((create_heap 0x10000 0x4800).bind fun h =>
      (run h [Call.alloc 0x4000, Call.free 0x14000]).map fun r =>
        (r.2, (List.range 9).map (fun i => heap_chunk_status r.1 1 (64 + i)),
          heap_chunk_status r.1 2 4, r.1.heads 22, r.1.heads 30))
      = some ([0x10000],
          [some eSTATUS_FREE, some eSTATUS_FREE, some eSTATUS_FREE, some eSTATUS_FREE,
           some eSTATUS_FREE, some eSTATUS_FREE, some eSTATUS_FREE, some eSTATUS_FREE,
           some eSTATUS_ALLOC_HEAD],
          some eSTATUS_FREE, 0x14000, 0x14000) ∧
    ((create_heap 0x10000 0x4800).bind fun h =>
      (run h [Call.alloc 0x4000, Call.free 0x14000, Call.alloc 0x800, Call.alloc 0x1000]).map
        fun r => r.2) = some [0x10000, 0x14000, 0x14000] := by
  decide!

/-! ## The head count of `heap_create` -/

theorem base_size_list_eq : base_size_list = (List.range 105).map base_size_from_index := by
  decide!

theorem count_below (n : Nat) : ∀ m, n ≤ m →
    ((List.range m).filter (fun i => decide (i < n))).length = n := by
  intro m
  induction m with
  | zero => intro h; simp; omega
  | succ m ih =>
    intro h
    rw [List.range_succ, List.filter_append, List.length_append]
    by_cases hn : n ≤ m
    · rw [ih hn]
      have : ¬ m < n := by omega
      simp [this]
    · have e : n = m + 1 := by omega
      subst e
      have hall : (List.range m).filter (fun i => decide (i < m + 1)) = List.range m := by
        apply List.filter_eq_self.2
        intro a ha
        have := List.mem_range.1 ha
        simp; omega
      rw [hall]
      simp

/-- The classes that are at most `size` are those of the first `hd_cnt` indices. -/
theorem class_le_iff (size j i : Nat) (hj : 1 ≤ j) (hj7 : j ≤ 7) (h1 : 16 ^ j ≤ size)
    (h2 : size < 16 ^ (j + 1)) (hi : i < 105) :
    base_size_from_index i ≤ size ↔ i < 15 * (j - 1) + size / 16 ^ j := by
  rw [(index_class_table i hi).1]
  obtain ⟨k, m, hk, hm, rfl⟩ : ∃ k m, k < 7 ∧ m < 15 ∧ i = 15 * k + m :=
    ⟨i / 15, i % 15, by omega, by omega, by omega⟩
  rw [show (15 * k + m) % 15 = m by omega, show (15 * k + m) / 15 = k by omega]
  interval_cases j <;> interval_cases k <;> simp at h1 h2 ⊢ <;> omega

theorem hd_cnt_band (size j : Nat) (hj : 1 ≤ j) (hj7 : j ≤ 7) (h1 : 16 ^ j ≤ size)
    (h2 : size < 16 ^ (j + 1)) : hd_cnt size = 15 * (j - 1) + size / 16 ^ j :=
  (hd_cnt_eq size j hj hj7 h1 h2).1

theorem class_count (size j : Nat) (hj : 1 ≤ j) (hj7 : j ≤ 7) (h1 : 16 ^ j ≤ size)
    (h2 : size < 16 ^ (j + 1)) :
    (base_size_list.filter (fun c => decide (c ≤ size))).length
      = 15 * (j - 1) + size / 16 ^ j := by
  obtain ⟨_, d15⟩ := digit_bounds size j hj hj7 h1 h2
  rw [base_size_list_eq, List.filter_map, List.length_map]
  have e : (List.range 105).filter ((fun c => decide (c ≤ size)) ∘ base_size_from_index)
      = (List.range 105).filter (fun i => decide (i < 15 * (j - 1) + size / 16 ^ j)) := by
    apply List.filter_congr
    intro i hi
    have hi' := List.mem_range.1 hi
    have := class_le_iff size j i hj hj7 h1 h2 hi'
    simp only [Function.comp, decide_eq_decide]
    exact this
  rw [e]
  exact count_below _ 105 (by omega)

/-- C28. For every `size` that is a positive multiple of 16, the head count `hd_cnt` of `heap_create` is
the number of the class values that are at most `size`, it is one more than the index of
the largest class that is at most `size`, and it is at most 105.  Up to `0xF0000000`,
`heap_create` (for every base that it accepts) returns a heap whose `hdcnt` is that count
and the lists that `populate_heads` fills all have an index below it.  Above `0xF0000000`
`populate_heads` has no defined result: it asks `base_size_to_index` for the index of the
`0` that `closest_base_size` returns, which is `CTZ (0)`. -/
theorem hd_cnt_counts_classes (size : Nat) (h0 : 0 < size) (h16 : size % 16 = 0)
    (hs : size < 2 ^ 32) :
    hd_cnt size = (base_size_list.filter (fun c => decide (c ≤ size))).length ∧
    (∃ c, IsLargestClassLe c size ∧ hd_cnt size = 1 + base_size_to_index c) ∧
    hd_cnt size ≤ BASE_SIZES_COUNT ∧
    (size ≤ 0xF0000000 → ∀ (junk : Nat → Nat) (region : Nat → chunk) (address : Nat),
      address ≠ 0 → address &&& sub32 (0x10000000 >>> (CLZ size &&& 0x1C)) 1 = 0 →
      address + size ≤ 2 ^ 32 →
      ∃ h L, heap_create junk region address size = some (some h) ∧ h.hdcnt = hd_cnt size ∧
        Seeded h address L ∧ ∀ e, e ∈ L → base_size_to_index e.2 < h.hdcnt) ∧
    (0xF0000000 < size → closest_base_size size = 0 ∧
      ∀ fuel (h : heap) data, populate_heads fuel h data size = none) := by
  obtain ⟨j, hj, hj7, b1, b2⟩ := band_exists size (by omega) hs
  obtain ⟨d1, d15⟩ := digit_bounds size j hj hj7 b1 b2
  have hcnt := hd_cnt_band size j hj hj7 b1 b2
  refine ⟨?_, ?_, ?_, ?_, ?_⟩
  · rw [hcnt, class_count size j hj hj7 b1 b2]
  · refine ⟨size / 16 ^ j * 16 ^ j, largest_of_band size j hj hj7 b1 b2, ?_⟩
    have tab := (class_index_table (j - 1) (by omega) (size / 16 ^ j) (by omega) d1).2
    rw [show j - 1 + 1 = j by omega] at tab
    rw [tab, hcnt]
    omega
  · rw [hcnt]
    show _ ≤ 105
    omega
  · intro hmax junk region address ha0 ha hfit
    rw [largest_main_eq size j hj hj7 b1 b2, and_largest_sub_one address j hj hj7] at ha
    obtain ⟨h, L, e, hg, hseed⟩ :=
      heap_create_greedy junk region address size j hj hj7 b1 b2 h16 hmax ha ha0 hfit
    obtain ⟨j1, _, _, c1, c2, _, _, _, _, _, hc, _⟩ :=
      heap_create_registry junk region address size hs (some h) e h rfl
    have hjj : j1 = j := by
      have p1 : ¬ j < j1 := fun hlt => by
        have : 16 ^ (j + 1) ≤ 16 ^ j1 := Nat.pow_le_pow_right (by decide) hlt
        omega
      have p2 : ¬ j1 < j := fun hlt => by
        have : 16 ^ (j1 + 1) ≤ 16 ^ j := Nat.pow_le_pow_right (by decide) hlt
        omega
      omega
    subst hjj
    refine ⟨h, L, e, by rw [hc, hcnt], hseed, ?_⟩
    intro e1 he1
    obtain ⟨_, _, _, _, facts⟩ := greedy_facts hg hs
    obtain ⟨f1, f2, _, _⟩ := facts e1 he1
    obtain ⟨i1, i2⟩ := class_index_inverse e1.2 f1
    rw [hc]
    apply (class_le_iff size j1 _ hj hj7 b1 b2 i1).1
    rw [i2]
    exact f2
  · intro hbig
    have hc0 : closest_base_size size = 0 := by
      unfold closest_base_size BASE_SIZE_MIN BASE_SIZE_MAX
      rw [if_neg (by omega), if_pos hbig]
    refine ⟨hc0, ?_⟩
    intro fuel h data
    cases fuel with
    | zero => rfl
    | succ f =>
      rw [populate_heads]
      simp only [hc0]
      rfl

theorem hd_cnt_counts_classes_witness :
    hd_cnt 0xF0000010 = (base_size_list.filter (fun c => decide (c ≤ 0xF0000010))).length ∧
    (∃ c, IsLargestClassLe c 0xF0000010 ∧ hd_cnt 0xF0000010 = 1 + base_size_to_index c) ∧
    hd_cnt 0xF0000010 ≤ BASE_SIZES_COUNT ∧
    (0xF0000010 ≤ 0xF0000000 → ∀ (junk : Nat → Nat) (region : Nat → chunk) (address : Nat),
      address ≠ 0 → address &&& sub32 (0x10000000 >>> (CLZ 0xF0000010 &&& 0x1C)) 1 = 0 →
      address + 0xF0000010 ≤ 2 ^ 32 →
      ∃ h L, heap_create junk region address 0xF0000010 = some (some h) ∧
        h.hdcnt = hd_cnt 0xF0000010 ∧
        Seeded h address L ∧ ∀ e, e ∈ L → base_size_to_index e.2 < h.hdcnt) ∧
    (0xF0000000 < 0xF0000010 → closest_base_size 0xF0000010 = 0 ∧
      ∀ fuel (h : heap) data, populate_heads fuel h data 0xF0000010 = none) :=
  hd_cnt_counts_classes 0xF0000010 (by decide) (by decide) (by decide)

/-! ## The first occupied list -/

/-- A word of `headsbits` whose 32 lists are all empty is zero. -/
theorem word_clear (hb : Nat → Nat) (s : Nat) (hw : hb s < 2 ^ 32)
    (hclear : ∀ k, 32 * s ≤ k → k < 32 * s + 32 → occ_bit hb k = false) : hb s = 0 := by
  apply zero_of_bits
  intro b
  by_cases hb32 : b < 32
  · rw [bit_of_word hb s b (by omega)]
    exact hclear _ (by omega) (by omega)
  · exact high_bits _ hw b (by omega)

/-- The shifted first word of the scan is zero when no list from `i` to the end of its word is
occupied. -/
theorem shl_clear (hb : Nat → Nat) (i : Nat)
    (hclear : ∀ k, i ≤ k → k < 32 * (i / 32) + 32 → occ_bit hb k = false) :
    shl32 (hb (i / 32)) (i % 32) = 0 := by
  apply zero_of_bits
  intro b
  rw [testBit_shl32]
  by_cases hb32 : b < 32
  · by_cases ht : i % 32 ≤ b
    · rw [bit_of_word hb (i / 32) (b - i % 32) (by omega)]
      rw [hclear _ (by omega) (by omega)]
      simp
    · simp [ht]
  · simp [hb32]

/-- The leading zeros of the word of list `j` when `j` is the first occupied list of its word. -/
theorem clz_word (hb : Nat → Nat) (j : Nat) (hw : hb (j / 32) < 2 ^ 32)
    (hset : occ_bit hb j = true)
    (hclear : ∀ k, 32 * (j / 32) ≤ k → k < j → occ_bit hb k = false) :
    hb (j / 32) ≠ 0 ∧ CLZ (hb (j / 32)) = j % 32 := by
  have hs : (hb (j / 32)).testBit (31 - j % 32) = true := hset
  have hc := clz_of_bits (hb (j / 32)) (31 - j % 32) (by omega) hs (by
    intro b hb1
    by_cases hb32 : b < 32
    · rw [bit_of_word hb (j / 32) b (by omega)]
      exact hclear _ (by omega) (by omega)
    · exact high_bits _ hw b (by omega))
  refine ⟨?_, by rw [hc]; omega⟩
  intro h0
  rw [h0] at hs
  simp at hs

/-- The leading zeros of the shifted first word of the scan when the first occupied list from `i` on,
`j`, is in the word of `i`. -/
theorem clz_shl (hb : Nat → Nat) (i j : Nat) (hij : i ≤ j) (hword : j / 32 = i / 32)
    (hset : occ_bit hb j = true) (hclear : ∀ k, i ≤ k → k < j → occ_bit hb k = false) :
    shl32 (hb (i / 32)) (i % 32) ≠ 0 ∧ CLZ (shl32 (hb (i / 32)) (i % 32)) = j - i := by
  have hs : (shl32 (hb (i / 32)) (i % 32)).testBit (31 - j % 32 + i % 32) = true := by
    rw [testBit_shl32, show 31 - j % 32 + i % 32 - i % 32 = 31 - j % 32 by omega]
    have h1 : (hb (i / 32)).testBit (31 - j % 32) = true := by
      rw [← hword]; exact hset
    have : 31 - j % 32 + i % 32 < 32 := by omega
    simp [this, h1]
  have hc := clz_of_bits _ (31 - j % 32 + i % 32) (by omega) hs (by
    intro b hb1
    rw [testBit_shl32]
    by_cases hb32 : b < 32
    · rw [bit_of_word hb (i / 32) (b - i % 32) (by omega), hclear _ (by omega) (by omega)]
      simp
    · simp [hb32])
  refine ⟨?_, by rw [hc]; omega⟩
  intro h0
  rw [h0] at hs
  simp at hs

/-- The scan of the occupancy words from list `i` finds the first occupied list. -/
theorem scan_first (h : heap) (i j : Nat) (hw : ∀ w, h.headsbits w < 2 ^ 32) (hij : i ≤ j)
    (hj : j < 128) (hset : occ_bit h.headsbits j = true)
    (hclear : ∀ k, i ≤ k → k < j → occ_bit h.headsbits k = false) :
    next_available_head_index_from h i = some j := by
  have e31 : i &&& 0x1F = i % 32 := Nat.and_pow_two_sub_one_eq_mod i 5
  unfold next_available_head_index_from
  dsimp only
  rw [word_eq, e31]
  have hs4 : ¬ HEADS_BITS_SIZE ≤ i / 32 := by
    show ¬ 4 ≤ i / 32
    omega
  rw [if_neg hs4]
  by_cases hword : j / 32 = i / 32
  · obtain ⟨hn, hc⟩ := clz_shl h.headsbits i j hij hword hset hclear
    rw [if_neg hn, hc]
    unfold add32
    congr 1
    omega
  · have hlt : i / 32 < j / 32 := by
      have : i / 32 ≤ j / 32 := Nat.div_le_div_right hij
      omega
    have hx := shl_clear h.headsbits i (fun k a b => hclear k a (by omega))
    rw [if_pos hx]
    obtain ⟨hn, hc⟩ := clz_word h.headsbits j (hw _) hset
      (fun k a b => hclear k (by omega) b)
    have zero : ∀ s, i / 32 < s → s < j / 32 → h.headsbits s = 0 := fun s a b =>
      word_clear h.headsbits s (hw s) (fun k c d => hclear k (by omega) (by omega))
    have e5 : shl32 (i / 32) 5 = 32 * (i / 32) := by
      unfold shl32
      rw [Nat.shiftLeft_eq]
      omega
    rw [e5]
    have cases : (i / 32 = 0 ∨ i / 32 = 1 ∨ i / 32 = 2) ∧
        (j / 32 = 1 ∨ j / 32 = 2 ∨ j / 32 = 3) := by omega
    obtain ⟨ci, cj⟩ := cases
    rcases ci with ci | ci | ci <;> rcases cj with cj | cj | cj <;>
      rw [ci] at hlt zero ⊢ <;> rw [cj] at hlt zero hn hc <;>
      first
      | omega
      | (simp [HEADS_BITS_SIZE, hn, hc, add32, zero 1 (by omega) (by omega),
          zero 2 (by omega) (by omega)]; omega)
      | (simp [HEADS_BITS_SIZE, hn, hc, add32, zero 1 (by omega) (by omega)]; omega)
      | (simp [HEADS_BITS_SIZE, hn, hc, add32, zero 2 (by omega) (by omega)]; omega)
      | (simp [HEADS_BITS_SIZE, hn, hc, add32]; omega)

/-- C25. Let the words of the occupancy bitmap be 32-bit words and the sentinel bits 105..127 be set.
For every `size` up to `0xF0000000`, with `i0` the index of `closest_base_size (size)`,
`next_available_head_index (h, size)` returns the smallest `j >= i0` whose occupancy bit
is set: a `j` below 105 if one exists, and 105, the first sentinel, otherwise.  For every
`size` above `0xF0000000` it returns 105.  The result is never above 105. -/
theorem next_available_head_index_first (h : heap) (size : Nat)
    (hw : ∀ w, h.headsbits w < 2 ^ 32)
    (hsent : ∀ j, BASE_SIZES_COUNT ≤ j → j < 128 → occ_bit h.headsbits j = true) :
    (size ≤ 0xF0000000 →
      base_size_to_index (closest_base_size size) < BASE_SIZES_COUNT ∧
      (∀ j, base_size_to_index (closest_base_size size) ≤ j → j < BASE_SIZES_COUNT →
        occ_bit h.headsbits j = true →
        (∀ k, base_size_to_index (closest_base_size size) ≤ k → k < j →
          occ_bit h.headsbits k = false) →
        next_available_head_index h size = some j) ∧
      ((∀ j, base_size_to_index (closest_base_size size) ≤ j → j < BASE_SIZES_COUNT →
          occ_bit h.headsbits j = false) →
        next_available_head_index h size = some BASE_SIZES_COUNT)) ∧
    (0xF0000000 < size → next_available_head_index h size = some BASE_SIZES_COUNT) ∧
    ∃ j, next_available_head_index h size = some j ∧ j ≤ BASE_SIZES_COUNT ∧
      (size ≤ 0xF0000000 → base_size_to_index (closest_base_size size) ≤ j ∧
        occ_bit h.headsbits j = true ∧
        ∀ k, base_size_to_index (closest_base_size size) ≤ k → k < j →
          occ_bit h.headsbits k = false) := by
  have big : 0xF0000000 < size → next_available_head_index h size = some BASE_SIZES_COUNT := by
    intro hbig
    have hc0 : closest_base_size size = 0 := by
      unfold closest_base_size BASE_SIZE_MIN BASE_SIZE_MAX
      rw [if_neg (by omega), if_pos hbig]
    unfold next_available_head_index
    simp only [hc0]
    rfl
  have small : size ≤ 0xF0000000 →
      base_size_to_index (closest_base_size size) < 105 ∧
      ∀ j, base_size_to_index (closest_base_size size) ≤ j → j < 128 →
        occ_bit h.headsbits j = true →
        (∀ k, base_size_to_index (closest_base_size size) ≤ k → k < j →
          occ_bit h.headsbits k = false) →
        next_available_head_index h size = some j := by
    intro hsm
    obtain ⟨hcl, hle, _⟩ := closest_base_size_main size hsm
    have hc0 : closest_base_size size ≠ 0 := by
      have := class_ge16 hcl
      omega
    refine ⟨(class_index_inverse _ hcl).1, ?_⟩
    intro j h1 h2 h3 h4
    unfold next_available_head_index
    simp only [hc0, if_false]
    exact scan_first h _ j hw h1 h2 h3 h4
  refine ⟨?_, big, ?_⟩
  · intro hsm
    obtain ⟨hi, hscan⟩ := small hsm
    refine ⟨hi, fun j a b c d => hscan j a (by have : j < 105 := b; omega) c d, ?_⟩
    intro hclear
    exact hscan 105 (by omega) (by decide) (hsent 105 (le_refl _) (by decide))
      (fun k a b => hclear k a b)
  · by_cases hsm : size ≤ 0xF0000000
    · obtain ⟨hi, hscan⟩ := small hsm
      have hex : ∃ j, base_size_to_index (closest_base_size size) ≤ j ∧
          occ_bit h.headsbits j = true :=
        ⟨105, by omega, hsent 105 (le_refl _) (by decide)⟩
      have hmin : ∀ {m : Nat}, m < Nat.find hex →
          ¬ (base_size_to_index (closest_base_size size) ≤ m ∧ occ_bit h.headsbits m = true) :=
        fun hm => Nat.find_min hex hm
      obtain ⟨f1, f2⟩ := Nat.find_spec hex
      have f3 : Nat.find hex ≤ 105 :=
        Nat.find_min' hex ⟨by omega, hsent 105 (le_refl _) (by decide)⟩
      refine ⟨Nat.find hex, ?_, f3, fun _ => ⟨f1, f2, ?_⟩⟩
      · apply hscan _ f1 (by omega) f2
        intro k a b
        have := hmin b
        simp only [not_and, Bool.not_eq_true] at this
        exact this a
      · intro k a b
        have := hmin b
        simp only [not_and, Bool.not_eq_true] at this
        exact this a
    · exact ⟨105, big (by omega), le_refl _, fun hh => absurd hh hsm⟩

theorem next_available_head_index_first_witness :
    ∃ h0 : heap, heap_create no_junk no_links 0x1000 0x1000 = some (some h0) ∧
      ∃ j, next_available_head_index h0 16 = some j ∧ j ≤ BASE_SIZES_COUNT ∧
        (16 ≤ 0xF0000000 → base_size_to_index (closest_base_size 16) ≤ j ∧
          occ_bit h0.headsbits j = true ∧
          ∀ k, base_size_to_index (closest_base_size 16) ≤ k → k < j →
            occ_bit h0.headsbits k = false) := by
  obtain ⟨h0, hc⟩ := created_4k_heap
  obtain ⟨_, _, _, _, _, _, _, _, _, _, _, reg⟩ :=
    heap_create_registry no_junk no_links 0x1000 0x1000 (by decide) (some h0) hc h0 rfl
  exact ⟨h0, hc, (next_available_head_index_first h0 16 reg.word reg.sentinel).2.2⟩

/-! ## The codec of the bitfield -/

/-- The two bits of a status, read from bit `k` on. -/
theorem status_bits (w k : Nat) :
    (w >>> k) &&& 0x03 = (if w.testBit (k + 1) then 2 else 0) + (if w.testBit k then 1 else 0) := by
  have e : (w >>> k) &&& 0x03 = (w >>> k) % 4 := Nat.and_pow_two_sub_one_eq_mod _ 2
  rw [e, Nat.testBit_to_div_mod, Nat.testBit_to_div_mod, Nat.shiftRight_eq_div_pow,
    Nat.pow_succ, ← Nat.div_div_eq_div_mul]
  generalize w / 2 ^ k = y
  by_cases h1 : y / 2 % 2 = 1 <;> by_cases h0 : y % 2 = 1 <;> simp [h1, h0] <;> omega

/-- The statuses read from two words whose bits agree at the place of the chunk are the same. -/
theorem status_congr (w v k : Nat) (h0 : w.testBit k = v.testBit k)
    (h1 : w.testBit (k + 1) = v.testBit (k + 1)) : (w >>> k) &&& 0x03 = (v >>> k) &&& 0x03 := by
  rw [status_bits, status_bits, h0, h1]

theorem sub_of_index (idx : Nat) : not32 idx &&& 15 = 15 - idx % 16 := by
  have e : not32 idx &&& 15 = not32 idx % 16 := Nat.and_pow_two_sub_one_eq_mod _ 4
  rw [e]
  unfold not32
  omega

/-- The formula of `chunk_get_status`. -/
theorem chunk_get_status_eq (mem : Nat → Nat) (bf idx : Nat) :
    chunk_get_status mem bf idx = (mem (bf + idx / 16) >>> ((15 - idx % 16) * 2)) &&& 0x03 := by
  unfold chunk_get_status
  simp only [sub_of_index, Nat.shiftRight_eq_div_pow idx 4, Nat.shiftLeft_eq]

theorem testBit_not32 (a b : Nat) :
    (not32 a).testBit b = (decide (b < 32) && !(a % 4294967296).testBit b) := by
  unfold not32
  have h : a % 4294967296 < 2 ^ 32 := Nat.mod_lt _ (by decide)
  rw [show (4294967295 : Nat) - a % 4294967296 = 2 ^ 32 - (a % 4294967296 + 1) by omega,
    Nat.testBit_two_pow_sub_succ h]

/-- The mask of `bf_set_bxx_multi` and `bf_set_b00_multi` covers the bits of `cnt` chunks from
chunk `sub` of the word on. -/
theorem mask_bit (cnt sub b : Nat) (h1 : 1 ≤ cnt) (h2 : sub + cnt ≤ 16) :
    (shl32 (0xFFFFFFFF >>> (32 - 2 * cnt)) (32 - 2 * cnt - 2 * sub)).testBit b
      = decide (32 - 2 * cnt - 2 * sub ≤ b ∧ b < 32 - 2 * sub) := by
  rw [testBit_shl32, Nat.testBit_shiftRight, show (0xFFFFFFFF : Nat) = 2 ^ 32 - 1 from rfl,
    Nat.testBit_two_pow_sub_one]
  rw [Bool.eq_iff_iff]
  simp only [Bool.and_eq_true, decide_eq_true_eq]
  omega

theorem mask_lt (cnt sub : Nat) :
    shl32 (0xFFFFFFFF >>> (32 - 2 * cnt)) (32 - 2 * cnt - 2 * sub) % 4294967296
      = shl32 (0xFFFFFFFF >>> (32 - 2 * cnt)) (32 - 2 * cnt - 2 * sub) := by
  unfold shl32
  exact Nat.mod_mod _ _

theorem shifts_of (index cnt : Nat) (h1 : 1 ≤ cnt) (h2 : index % 16 + cnt ≤ 16) :
    index &&& 0xF = index % 16 ∧ sub32 32 (shl32 cnt 1) = 32 - 2 * cnt ∧
      sub32 (32 - 2 * cnt) ((index % 16) <<< 1) = 32 - 2 * cnt - 2 * (index % 16) := by
  refine ⟨Nat.and_pow_two_sub_one_eq_mod index 4, ?_, ?_⟩
  · unfold sub32 shl32
    rw [Nat.shiftLeft_eq]
    omega
  · unfold sub32
    rw [Nat.shiftLeft_eq]
    omega

theorem pattern_free_bit : ∀ b, b < 32 → (0xAAAAAAAA : Nat).testBit b = decide (b % 2 = 1) := by
  decide

theorem pattern_head_bit : ∀ b, b < 32 → (0x55555555 : Nat).testBit b = decide (b % 2 = 0) := by
  decide

/-- The status of chunk `s` of a word in which the chunks from `sub` on, `cnt` of them, are set to the
pattern `pat`. -/
theorem word_set_status (W pat cnt sub s : Nat) (h1 : 1 ≤ cnt) (h2 : sub + cnt ≤ 16)
    (hs : s ≤ 15) :
    (((W &&& not32 (shl32 (0xFFFFFFFF >>> (32 - 2 * cnt)) (32 - 2 * cnt - 2 * sub))) |||
        (shl32 (0xFFFFFFFF >>> (32 - 2 * cnt)) (32 - 2 * cnt - 2 * sub) &&& pat))
          >>> ((15 - s) * 2)) &&& 0x03
      = if sub ≤ s ∧ s < sub + cnt then (pat >>> ((15 - s) * 2)) &&& 0x03
        else (W >>> ((15 - s) * 2)) &&& 0x03 := by
  have bit : ∀ b, b < 32 →
      ((W &&& not32 (shl32 (0xFFFFFFFF >>> (32 - 2 * cnt)) (32 - 2 * cnt - 2 * sub))) |||
        (shl32 (0xFFFFFFFF >>> (32 - 2 * cnt)) (32 - 2 * cnt - 2 * sub) &&& pat)).testBit b
      = if 32 - 2 * cnt - 2 * sub ≤ b ∧ b < 32 - 2 * sub then pat.testBit b else W.testBit b := by
    intro b hb
    rw [Nat.testBit_or, Nat.testBit_and, Nat.testBit_and, testBit_not32, mask_lt,
      mask_bit cnt sub _ h1 h2]
    by_cases hm : 32 - 2 * cnt - 2 * sub ≤ b ∧ b < 32 - 2 * sub
    · rw [if_pos hm, decide_eq_true hm]
      simp
    · rw [if_neg hm, decide_eq_false hm]
      simp [hb]
  by_cases hin : sub ≤ s ∧ s < sub + cnt
  · rw [if_pos hin]
    apply status_congr
    · rw [bit _ (by omega), if_pos (by omega)]
    · rw [bit _ (by omega), if_pos (by omega)]
  · rw [if_neg hin]
    apply status_congr
    · rw [bit _ (by omega), if_neg (by omega)]
    · rw [bit _ (by omega), if_neg (by omega)]

theorem pattern_status : ∀ s, s < 16 →
    ((0xAAAAAAAA : Nat) >>> ((15 - s) * 2)) &&& 0x03 = eSTATUS_FREE ∧
    ((0x55555555 : Nat) >>> ((15 - s) * 2)) &&& 0x03 = eSTATUS_ALLOC_HEAD := by
  decide

theorem run_in_word (index idx cnt : Nat) (hw : idx / 16 = index / 16) :
    (index ≤ idx ∧ idx < index + cnt) ↔ (index % 16 ≤ idx % 16 ∧ idx % 16 < index % 16 + cnt) := by
  omega

theorem run_other_word (index idx cnt : Nat) (h2 : index % 16 + cnt ≤ 16)
    (hw : idx / 16 ≠ index / 16) : ¬ (index ≤ idx ∧ idx < index + cnt) := by
  omega

/-- The function `bf_set_bxx_multi` gives the chunks from `index` on, `cnt` of them, the status of
the pattern, and leaves every other chunk and every other word as they are. -/
theorem bxx_multi_spec (mem : Nat → Nat) (bf index cnt pat : Nat) (h1 : 1 ≤ cnt)
    (h2 : index % 16 + cnt ≤ 16) :
    ∃ m, bf_set_bxx_multi mem bf index cnt pat = some m ∧
      (∀ idx, chunk_get_status m bf idx =
        if index ≤ idx ∧ idx < index + cnt then (pat >>> ((15 - idx % 16) * 2)) &&& 0x03
        else chunk_get_status mem bf idx) ∧
      ∀ x, x ≠ bf + index / 16 → m x = mem x := by
  obtain ⟨e1, e2, e3⟩ := shifts_of index cnt h1 h2
  unfold bf_set_bxx_multi
  dsimp only
  rw [e1, e2, e3, if_neg (by omega), if_neg (by omega), Nat.shiftRight_eq_div_pow index 4]
  refine ⟨_, rfl, ?_, ?_⟩
  · intro idx
    rw [chunk_get_status_eq, chunk_get_status_eq]
    by_cases hw : idx / 16 = index / 16
    · rw [hw]
      unfold store
      rw [if_pos rfl, word_set_status _ _ _ _ _ h1 h2 (by omega)]
      by_cases hin : index ≤ idx ∧ idx < index + cnt
      · rw [if_pos hin, if_pos ((run_in_word index idx cnt hw).1 hin)]
      · rw [if_neg hin, if_neg (fun c => hin ((run_in_word index idx cnt hw).2 c))]
    · rw [if_neg (run_other_word index idx cnt h2 hw)]
      unfold store
      rw [if_neg (by omega)]
  · intro x hx
    unfold store
    rw [if_neg hx]

/-- The function `bf_set_b00_multi` gives the chunks from `index` on, `cnt` of them, the status
`ALLOC`, and leaves every other chunk and every other word as they are. -/
theorem b00_multi_spec (mem : Nat → Nat) (bf index cnt : Nat) (h1 : 1 ≤ cnt)
    (h2 : index % 16 + cnt ≤ 16) :
    ∃ m, bf_set_b00_multi mem bf index cnt = some m ∧
      (∀ idx, chunk_get_status m bf idx =
        if index ≤ idx ∧ idx < index + cnt then eSTATUS_ALLOC
        else chunk_get_status mem bf idx) ∧
      ∀ x, x ≠ bf + index / 16 → m x = mem x := by
  obtain ⟨e1, e2, e3⟩ := shifts_of index cnt h1 h2
  unfold bf_set_b00_multi
  dsimp only
  rw [e1, e2, e3, if_neg (by omega), if_neg (by omega), Nat.shiftRight_eq_div_pow index 4]
  refine ⟨_, rfl, ?_, ?_⟩
  · intro idx
    rw [chunk_get_status_eq, chunk_get_status_eq]
    by_cases hw : idx / 16 = index / 16
    · rw [hw]
      unfold store
      rw [if_pos rfl]
      have key := word_set_status (mem (bf + index / 16)) 0 cnt (index % 16) (idx % 16) h1 h2
        (by omega)
      rw [Nat.and_zero, Nat.or_zero] at key
      rw [key]
      by_cases hin : index ≤ idx ∧ idx < index + cnt
      · rw [if_pos hin, if_pos ((run_in_word index idx cnt hw).1 hin)]
        simp [eSTATUS_ALLOC]
      · rw [if_neg hin, if_neg (fun c => hin ((run_in_word index idx cnt hw).2 c))]
    · rw [if_neg (run_other_word index idx cnt h2 hw)]
      unfold store
      rw [if_neg (by omega)]
  · intro x hx
    unfold store
    rw [if_neg hx]

theorem testBit_high_bit (n b : Nat) : ((0x80000000 : Nat) >>> n).testBit b = decide (n + b = 31) := by
  rw [Nat.testBit_shiftRight, show (0x80000000 : Nat) = 2 ^ 31 from rfl, Nat.testBit_two_pow]
  rw [Bool.eq_iff_iff]
  simp only [decide_eq_true_eq]
  omega

theorem testBit_head_bit (n b : Nat) : ((0x40000000 : Nat) >>> n).testBit b = decide (n + b = 30) := by
  rw [Nat.testBit_shiftRight, show (0x40000000 : Nat) = 2 ^ 30 from rfl, Nat.testBit_two_pow]
  rw [Bool.eq_iff_iff]
  simp only [decide_eq_true_eq]
  omega

theorem testBit_split_bits (n b : Nat) :
    ((0xC0000000 : Nat) >>> n).testBit b = decide (n + b = 30 ∨ n + b = 31) := by
  rw [Nat.testBit_shiftRight, show (0xC0000000 : Nat) = 2 ^ 31 ||| 2 ^ 30 from rfl,
    Nat.testBit_or, Nat.testBit_two_pow, Nat.testBit_two_pow]
  rw [Bool.eq_iff_iff]
  simp only [Bool.or_eq_true, decide_eq_true_eq]
  omega

theorem high_bit_lt (n : Nat) : (0x80000000 : Nat) >>> n % 4294967296 = 0x80000000 >>> n := by
  apply Nat.mod_eq_of_lt
  rw [Nat.shiftRight_eq_div_pow]
  exact Nat.lt_of_le_of_lt (Nat.div_le_self _ _) (by decide)

/-- The function `bf_set_b01` makes the chunk `index` an `ALLOC_HEAD` and leaves every other chunk and
every other word as they are. -/
theorem b01_spec (mem : Nat → Nat) (bf index : Nat) :
    (∀ idx, chunk_get_status (bf_set_b01 mem bf index) bf idx =
      if idx = index then eSTATUS_ALLOC_HEAD else chunk_get_status mem bf idx) ∧
    ∀ x, x ≠ bf + index / 16 → bf_set_b01 mem bf index x = mem x := by
  have e1 : index &&& 0xF = index % 16 := Nat.and_pow_two_sub_one_eq_mod index 4
  have e2 : (index % 16) <<< 1 = 2 * (index % 16) := by rw [Nat.shiftLeft_eq]; omega
  unfold bf_set_b01
  dsimp only
  rw [e1, e2, Nat.shiftRight_eq_div_pow index 4]
  constructor
  · intro idx
    rw [chunk_get_status_eq, chunk_get_status_eq]
    unfold store
    by_cases hw : idx / 16 = index / 16
    · rw [hw, if_pos rfl, if_pos rfl]
      have bit : ∀ b, b < 32 →
          ((mem (bf + index / 16) &&& not32 (0x80000000 >>> (2 * (index % 16)))) |||
            (0x40000000 >>> (2 * (index % 16)))).testBit b
          = if 2 * (index % 16) + b = 31 then false
            else if 2 * (index % 16) + b = 30 then true
            else (mem (bf + index / 16)).testBit b := by
        intro b hb
        rw [Nat.testBit_or, Nat.testBit_and, testBit_not32, high_bit_lt, testBit_high_bit,
          testBit_head_bit]
        by_cases c1 : 2 * (index % 16) + b = 31
        · have c2 : ¬ 2 * (index % 16) + b = 30 := by omega
          simp [c1, c2, hb]
        · by_cases c2 : 2 * (index % 16) + b = 30
          · simp [c1, c2, hb]
          · simp [c1, c2, hb]
      by_cases hi : idx = index
      · subst hi
        have k1 : 2 * (idx % 16) + ((15 - idx % 16) * 2 + 1) = 31 := by omega
        have k0 : 2 * (idx % 16) + (15 - idx % 16) * 2 = 30 := by omega
        have b1 := bit ((15 - idx % 16) * 2 + 1) (by omega)
        have b0 := bit ((15 - idx % 16) * 2) (by omega)
        rw [if_pos k1] at b1
        rw [if_neg (by omega), if_pos k0] at b0
        rw [if_pos rfl, status_bits, b1, b0]
        rfl
      · rw [if_neg hi]
        have hne : idx % 16 ≠ index % 16 := by omega
        apply status_congr
        · rw [bit ((15 - idx % 16) * 2) (by omega), if_neg (by omega), if_neg (by omega)]
        · rw [bit ((15 - idx % 16) * 2 + 1) (by omega), if_neg (by omega), if_neg (by omega)]
    · have hi : idx ≠ index := fun c => hw (by rw [c])
      rw [if_neg (by omega), if_neg (by omega), if_neg hi]
  · intro x hx
    unfold store
    rw [if_neg hx, if_neg hx]

/-- The function `bf_set_b11` makes the chunk `index` `SPLIT` and leaves every other chunk and every
other word as they are. -/
theorem b11_spec (mem : Nat → Nat) (bf index : Nat) :
    (∀ idx, chunk_get_status (bf_set_b11 mem bf index) bf idx =
      if idx = index then eSTATUS_SPLIT else chunk_get_status mem bf idx) ∧
    ∀ x, x ≠ bf + index / 16 → bf_set_b11 mem bf index x = mem x := by
  have e1 : index &&& 0xF = index % 16 := Nat.and_pow_two_sub_one_eq_mod index 4
  have e2 : (index % 16) <<< 1 = 2 * (index % 16) := by rw [Nat.shiftLeft_eq]; omega
  unfold bf_set_b11
  dsimp only
  rw [e1, e2, Nat.shiftRight_eq_div_pow index 4]
  constructor
  · intro idx
    rw [chunk_get_status_eq, chunk_get_status_eq]
    unfold store
    by_cases hw : idx / 16 = index / 16
    · rw [hw, if_pos rfl]
      have bit : ∀ b,
          (mem (bf + index / 16) ||| (0xC0000000 >>> (2 * (index % 16)))).testBit b
          = if 2 * (index % 16) + b = 30 ∨ 2 * (index % 16) + b = 31 then true
            else (mem (bf + index / 16)).testBit b := by
        intro b
        rw [Nat.testBit_or, testBit_split_bits]
        by_cases c1 : 2 * (index % 16) + b = 30 ∨ 2 * (index % 16) + b = 31
        · rw [if_pos c1, decide_eq_true c1]
          simp
        · rw [if_neg c1, decide_eq_false c1]
          simp
      by_cases hi : idx = index
      · subst hi
        have k1 : 2 * (idx % 16) + ((15 - idx % 16) * 2 + 1) = 30 ∨
            2 * (idx % 16) + ((15 - idx % 16) * 2 + 1) = 31 := by omega
        have k0 : 2 * (idx % 16) + (15 - idx % 16) * 2 = 30 ∨
            2 * (idx % 16) + (15 - idx % 16) * 2 = 31 := by omega
        have b1 := bit ((15 - idx % 16) * 2 + 1)
        have b0 := bit ((15 - idx % 16) * 2)
        rw [if_pos k1] at b1
        rw [if_pos k0] at b0
        rw [if_pos rfl, status_bits, b1, b0]
        rfl
      · rw [if_neg hi]
        have hne : idx % 16 ≠ index % 16 := by omega
        apply status_congr
        · rw [bit ((15 - idx % 16) * 2), if_neg (by omega)]
        · rw [bit ((15 - idx % 16) * 2 + 1), if_neg (by omega)]
    · have hi : idx ≠ index := fun c => hw (by rw [c])
      rw [if_neg (by omega), if_neg hi]
  · intro x hx
    unfold store
    rw [if_neg hx]

/-- C26. For every bitfield, every chunk index and every `cnt` in `1..16` with
`index % 16 + cnt <= 16`: after `bf_set_bxx_multi` with the pattern `0xAAAAAAAA`
(`0x55555555`) and after `bf_set_b00_multi`, `chunk_get_status` is `FREE` (`ALLOC_HEAD`,
`ALLOC`) for the chunks of `[index, index + cnt)` and what it was for every other chunk,
and every word but the one of `index` is unchanged; after `bf_set_b01` and `bf_set_b11`
the chunk `index` is `ALLOC_HEAD` and `SPLIT`, whatever it was, and nothing else changes;
and `chunk_get_status (bf, idx)` is `(bf[idx / 16] >> ((15 - idx % 16) * 2)) & 3`. -/
theorem bitfield_codec (mem : Nat → Nat) (bf index cnt : Nat) (h1 : 1 ≤ cnt)
    (h2 : index % 16 + cnt ≤ 16) :
    (∃ m, bf_set_bxx_multi mem bf index cnt 0xAAAAAAAA = some m ∧
      (∀ idx, chunk_get_status m bf idx =
        if index ≤ idx ∧ idx < index + cnt then eSTATUS_FREE
        else chunk_get_status mem bf idx) ∧
      ∀ x, x ≠ bf + index / 16 → m x = mem x) ∧
    (∃ m, bf_set_bxx_multi mem bf index cnt 0x55555555 = some m ∧
      (∀ idx, chunk_get_status m bf idx =
        if index ≤ idx ∧ idx < index + cnt then eSTATUS_ALLOC_HEAD
        else chunk_get_status mem bf idx) ∧
      ∀ x, x ≠ bf + index / 16 → m x = mem x) ∧
    (∃ m, bf_set_b00_multi mem bf index cnt = some m ∧
      (∀ idx, chunk_get_status m bf idx =
        if index ≤ idx ∧ idx < index + cnt then eSTATUS_ALLOC
        else chunk_get_status mem bf idx) ∧
      ∀ x, x ≠ bf + index / 16 → m x = mem x) ∧
    ((∀ idx, chunk_get_status (bf_set_b01 mem bf index) bf idx =
        if idx = index then eSTATUS_ALLOC_HEAD else chunk_get_status mem bf idx) ∧
      ∀ x, x ≠ bf + index / 16 → bf_set_b01 mem bf index x = mem x) ∧
    ((∀ idx, chunk_get_status (bf_set_b11 mem bf index) bf idx =
        if idx = index then eSTATUS_SPLIT else chunk_get_status mem bf idx) ∧
      ∀ x, x ≠ bf + index / 16 → bf_set_b11 mem bf index x = mem x) ∧
    ∀ idx, chunk_get_status mem bf idx
      = (mem (bf + idx / 16) >>> ((15 - idx % 16) * 2)) &&& 0x03 := by
  refine ⟨?_, ?_, b00_multi_spec mem bf index cnt h1 h2, b01_spec mem bf index,
    b11_spec mem bf index, chunk_get_status_eq mem bf⟩
  · obtain ⟨m, e, st, fr⟩ := bxx_multi_spec mem bf index cnt 0xAAAAAAAA h1 h2
    refine ⟨m, e, ?_, fr⟩
    intro idx
    rw [st idx, (pattern_status (idx % 16) (by omega)).1]
  · obtain ⟨m, e, st, fr⟩ := bxx_multi_spec mem bf index cnt 0x55555555 h1 h2
    refine ⟨m, e, ?_, fr⟩
    intro idx
    rw [st idx, (pattern_status (idx % 16) (by omega)).2]

theorem bitfield_codec_witness :
    ∃ m, bf_set_bxx_multi no_junk 0 3 5 0xAAAAAAAA = some m ∧
      (∀ idx, chunk_get_status m 0 idx =
        if 3 ≤ idx ∧ idx < 3 + 5 then eSTATUS_FREE else chunk_get_status no_junk 0 idx) ∧
      ∀ x, x ≠ 0 + 3 / 16 → m x = no_junk x :=
  (bitfield_codec no_junk 0 3 5 (by decide) (by decide)).1

/-! ## The bitfields that `heap_create` sets up -/

theorem fill_all_free_eq (mem : Nat → Nat) (bf : Nat) : ∀ n x,
    fill_all_free mem bf n x = if bf ≤ x ∧ x < bf + n then ALL_FREE else mem x := by
  intro n
  induction n with
  | zero =>
    intro x
    rw [if_neg (by omega)]
    rfl
  | succ n ih =>
    intro x
    show store (fill_all_free mem bf n) (bf + n) ALL_FREE x = _
    unfold store
    by_cases hx : x = bf + n
    · rw [if_pos hx, if_pos (by omega)]
    · rw [if_neg hx, ih x]
      by_cases hin : bf ≤ x ∧ x < bf + n
      · rw [if_pos hin, if_pos (by omega)]
      · rw [if_neg hin, if_neg (by omega)]

/-- Every chunk of a word `ALL_FREE` is `FREE`. -/
theorem all_free_status (mem : Nat → Nat) (bf idx : Nat) (h : mem (bf + idx / 16) = ALL_FREE) :
    chunk_get_status mem bf idx = eSTATUS_FREE := by
  rw [chunk_get_status_eq, h]
  exact (pattern_status (idx % 16) (by omega)).1

theorem shift_level (size i : Nat) : size >>> ((i + 1) <<< 2) = size / 16 ^ (i + 1) := by
  rw [Nat.shiftRight_eq_div_pow, Nat.shiftLeft_eq, show (i + 1) * 2 ^ 2 = 4 * (i + 1) by omega,
    Nat.pow_mul]

/-- What the call of `set_bf_ptr` for level `i` leaves in the bookkeeping buffer: the words of the
level hold `FREE` for the whole chunks of the level and `ALLOC_HEAD` for the chunks after them. -/
theorem set_bf_ptr_contents (i : Nat) (H : heap) (start size : Nat) (hi : i < 7)
    (hs : size < 2 ^ 32) (hfit : start + needed_bitfield_count size i ≤ H.bfcnt) :
    ∃ H1, set_bf_ptr i (needed_bitfield_count size i) H start size = some H1 ∧
      (∀ x, x < start ∨ start + needed_bitfield_count size i ≤ x → H1.bfmem x = H.bfmem x) ∧
      H1.bscnt = (if needed_bitfield_count size i ≠ 0 then i + 1 else H.bscnt) ∧
      needed_bitfield_count size i = (size / 16 ^ (i + 1) + 15) / 16 ∧
      (∀ idx, idx < size / 16 ^ (i + 1) → chunk_get_status H1.bfmem start idx = eSTATUS_FREE) ∧
      (∀ idx, size / 16 ^ (i + 1) ≤ idx → idx < 16 * needed_bitfield_count size i →
        chunk_get_status H1.bfmem start idx = eSTATUS_ALLOC_HEAD) := by
  have hcnt : size >>> ((i + 1) <<< 2) < 2 ^ 28 := by
    rw [shift_level]
    have h16 : 16 ^ 1 ≤ 16 ^ (i + 1) := Nat.pow_le_pow_right (by decide) (by omega)
    apply Nat.div_lt_of_lt_mul
    have := Nat.mul_le_mul_right (2 ^ 28) h16
    omega
  rw [← shift_level]
  unfold set_bf_ptr
  unfold needed_bitfield_count at hfit ⊢
  dsimp only at hfit ⊢
  generalize size >>> ((i + 1) <<< 2) = c at hcnt hfit ⊢
  have hnbc : add32 c 15 >>> 4 = (c + 15) / 16 := by
    unfold add32
    rw [Nat.mod_eq_of_lt (by omega), Nat.shiftRight_eq_div_pow]
  rw [hnbc] at hfit ⊢
  have hc4 : c >>> 4 = c / 16 := Nat.shiftRight_eq_div_pow c 4
  have hand : c &&& 0x0F = c % 16 := Nat.and_pow_two_sub_one_eq_mod c 4
  have hidx : c &&& not32 0x0F = c / 16 * 16 := and_not_low c 4 (by omega) (by decide)
  rw [hc4, hand, hidx]
  by_cases hn : (c + 15) / 16 ≠ 0
  · rw [if_pos hn, if_neg (by unfold MAIN_BASE_SIZE_COUNT; omega), if_neg (by omega)]
    by_cases hp : c % 16 ≠ 0
    · rw [if_pos hp]
      rw [bitfield_at_eq start]
      rotate_left
      · exact hi
      · dsimp only
        rw [if_pos rfl]
      · dsimp only
        rw [Nat.shiftRight_eq_div_pow]
        omega
      simp only [Option.some_bind]
      have ha : add32 (c / 16 * 16) (c % 16) = c := by
        unfold add32
        rw [Nat.mod_eq_of_lt (by omega)]
        omega
      obtain ⟨m1, e1, st1, fr1⟩ := bxx_multi_spec (fill_all_free H.bfmem start (c / 16)) start
        (c / 16 * 16) (c % 16) 0xAAAAAAAA (by omega) (by omega)
      obtain ⟨m2, e2, st2, fr2⟩ := bxx_multi_spec m1 start c (16 - c % 16) 0x55555555
        (by omega) (by omega)
      unfold bf_set_free_multi bf_set_b10_multi bf_set_alloc_head_multi bf_set_b01_multi
      rw [e1]
      simp only [Option.some_bind]
      rw [ha, e2]
      refine ⟨_, rfl, ?_, (if_pos hn).symm, trivial, ?_, ?_⟩
      · intro x hx
        show m2 x = H.bfmem x
        rw [fr2 x (by omega), fr1 x (by omega), fill_all_free_eq, if_neg (by omega)]
      · intro idx hidx
        show chunk_get_status m2 start idx = eSTATUS_FREE
        rw [st2 idx, if_neg (by omega), st1 idx]
        by_cases hin : c / 16 * 16 ≤ idx ∧ idx < c / 16 * 16 + c % 16
        · rw [if_pos hin]
          exact (pattern_status (idx % 16) (by omega)).1
        · rw [if_neg hin]
          apply all_free_status
          rw [fill_all_free_eq, if_pos (by omega)]
      · intro idx h1 h2
        show chunk_get_status m2 start idx = eSTATUS_ALLOC_HEAD
        rw [st2 idx, if_pos (by omega)]
        exact (pattern_status (idx % 16) (by omega)).2
    · rw [if_neg hp]
      refine ⟨_, rfl, ?_, (if_pos hn).symm, rfl, ?_, ?_⟩
      · intro x hx
        show fill_all_free H.bfmem start (c / 16) x = H.bfmem x
        rw [fill_all_free_eq, if_neg (by omega)]
      · intro idx hidx
        apply all_free_status
        show fill_all_free H.bfmem start (c / 16) (start + idx / 16) = ALL_FREE
        rw [fill_all_free_eq, if_pos (by omega)]
      · intro idx h1 h2
        omega
  · rw [if_neg hn, if_neg (by unfold MAIN_BASE_SIZE_COUNT; omega)]
    refine ⟨_, rfl, fun x _ => rfl, (if_neg hn).symm, rfl, ?_, ?_⟩
    · intro idx hidx
      omega
    · intro idx h1 h2
      omega

theorem status_frame (mem mem1 : Nat → Nat) (bf idx : Nat)
    (h : mem1 (bf + idx / 16) = mem (bf + idx / 16)) :
    chunk_get_status mem1 bf idx = chunk_get_status mem bf idx := by
  rw [chunk_get_status_eq, chunk_get_status_eq, h]

/-- What the loop of `heap_create` over the levels below `n` leaves in the bookkeeping buffer. -/
theorem heap_create_levels_contents (size : Nat) (hs : size < 2 ^ 32) :
    ∀ n, n ≤ 7 → ∀ H : heap, total_bitfield_count_upto size 7 ≤ H.bfcnt →
      ∃ H1, heap_create_levels size n H = some (H1, total_bitfield_count_upto size n) ∧
        (∀ x, total_bitfield_count_upto size n ≤ x → H1.bfmem x = H.bfmem x) ∧
        (∀ i, i < n → needed_bitfield_count size i ≠ 0 → i + 1 ≤ H1.bscnt) ∧
        (H1.bscnt = H.bscnt ∨ ∃ i, i < n ∧ needed_bitfield_count size i ≠ 0 ∧ H1.bscnt = i + 1) ∧
        ∀ i, i < n →
          needed_bitfield_count size i = (size / 16 ^ (i + 1) + 15) / 16 ∧
          (∀ idx, idx < size / 16 ^ (i + 1) →
            chunk_get_status H1.bfmem (total_bitfield_count_upto size i) idx = eSTATUS_FREE) ∧
          (∀ idx, size / 16 ^ (i + 1) ≤ idx → idx < 16 * needed_bitfield_count size i →
            chunk_get_status H1.bfmem (total_bitfield_count_upto size i) idx
              = eSTATUS_ALLOC_HEAD) := by
  intro n
  induction n with
  | zero =>
    intro _ H _
    exact ⟨H, rfl, fun _ _ => rfl, fun i hi => by omega, Or.inl rfl, fun i hi => by omega⟩
  | succ n ih =>
    intro hn H hH
    obtain ⟨H1, e1, fr1, lo1, hi1, st1⟩ := ih (by omega) H hH
    have fr := heap_create_levels_frame size n H _ e1
    obtain ⟨_, _, _, _, _, _, f7⟩ := fr
    dsimp only at f7
    have st := (total_upto_step size n (by omega)).2 (by omega)
    have mo := total_upto_mono size (7 - (n + 1)) (n + 1) (by omega)
    rw [show n + 1 + (7 - (n + 1)) = 7 by omega] at mo
    obtain ⟨H2, e2, fr2, bs2, nb2, free2, head2⟩ :=
      set_bf_ptr_contents n H1 (total_bitfield_count_upto size n) size (by omega) hs
        (by rw [f7]; omega)
    refine ⟨H2, ?_, ?_, ?_, ?_, ?_⟩
    · rw [heap_create_levels, e1]
      simp only [Option.some_bind]
      rw [e2]
      rfl
    · intro x hx
      rw [fr2 x (by omega), fr1 x (by omega)]
    · intro i hi hne
      by_cases hin : i = n
      · subst hin
        rw [bs2, if_pos hne]
      · have := lo1 i (by omega) hne
        rw [bs2]
        by_cases hnn : needed_bitfield_count size n ≠ 0
        · rw [if_pos hnn]; omega
        · rw [if_neg hnn]; exact this
    · by_cases hnn : needed_bitfield_count size n ≠ 0
      · right
        exact ⟨n, by omega, hnn, by rw [bs2, if_pos hnn]⟩
      · rw [bs2, if_neg hnn]
        rcases hi1 with h | ⟨i, a, b, c⟩
        · exact Or.inl h
        · exact Or.inr ⟨i, by omega, b, c⟩
    · intro i hi
      by_cases hin : i = n
      · subst hin
        exact ⟨nb2, free2, head2⟩
      · obtain ⟨a, b, c⟩ := st1 i (by omega)
        have mo2 := total_upto_mono size (n - (i + 1)) (i + 1) (by omega)
        rw [show i + 1 + (n - (i + 1)) = n by omega] at mo2
        have st2 := (total_upto_step size i (by omega)).2 (by omega)
        refine ⟨a, ?_, ?_⟩
        · intro idx hidx
          rw [status_frame H1.bfmem H2.bfmem _ idx (fr2 _ (by omega))]
          exact b idx hidx
        · intro idx h1 h2
          rw [status_frame H1.bfmem H2.bfmem _ idx (fr2 _ (by omega))]
          exact c idx h1 h2

theorem update_prev_bfmem (h : heap) (c p : Nat) :
    OptAll (fun h1 => h1.bfmem = h.bfmem) (update_prev h c p) := by
  unfold update_prev
  apply optAll_ite
  · intro _; exact optAll_some _ _ rfl
  · intro _; exact optAll_none _

theorem update_next_bfmem (h : heap) (c n : Nat) :
    OptAll (fun h1 => h1.bfmem = h.bfmem) (update_next h c n) := by
  unfold update_next
  apply optAll_ite
  · intro _; exact optAll_some _ _ rfl
  · intro _; exact optAll_none _

/-- The seeding of the free lists does not write to the bookkeeping buffer. -/
theorem populate_heads_bfmem :
    ∀ fuel h data size, OptAll (fun h1 => h1.bfmem = h.bfmem) (populate_heads fuel h data size) := by
  intro fuel
  induction fuel with
  | zero =>
    intro h data size
    rw [populate_heads]
    exact optAll_none _
  | succ fuel ih =>
    intro h data size
    rw [populate_heads]
    apply optAll_bind
    intro _ _
    apply optAll_bind
    intro a _
    obtain ⟨i, used⟩ := a
    dsimp only
    apply optAll_ite
    · intro _; exact optAll_none _
    · intro _
      apply optAll_ite
      · intro _; exact optAll_none _
      · intro _
        apply optAll_bind
        intro c _
        apply optAll_bind
        intro h2 hup
        have k2a := update_prev_bfmem _ _ _ h2 hup
        have k2 : h2.bfmem = h.bfmem := k2a
        apply optAll_bind
        intro c2 _
        apply optAll_bind
        intro h3 hup3
        have k3 : h3.bfmem = h.bfmem := by
          rw [update_next_bfmem _ _ _ _ hup3, k2]
        apply optAll_ite
        · intro _
          intro h4 e4
          rw [ih h3 _ _ h4 e4, k3]
        · intro _
          exact optAll_some _ _ k3

/-- In a heap that `heap_create` returns, the content of the words of every level, and the count of
the levels. -/
theorem heap_create_contents (junk : Nat → Nat) (region : Nat → chunk) (address size : Nat)
    (hs : size < 2 ^ 32) :
    OptAll (fun r => ∀ h, r = some h →
      (∀ i, i < 7 → needed_bitfield_count size i ≠ 0 → i + 1 ≤ h.bscnt) ∧
      (h.bscnt = 0 ∨ ∃ i, i < 7 ∧ needed_bitfield_count size i ≠ 0 ∧ h.bscnt = i + 1) ∧
      ∀ i, i < 7 →
        needed_bitfield_count size i = (size / 16 ^ (i + 1) + 15) / 16 ∧
        (∀ idx, idx < size / 16 ^ (i + 1) →
          chunk_get_status h.bfmem (total_bitfield_count_upto size i) idx = eSTATUS_FREE) ∧
        (∀ idx, size / 16 ^ (i + 1) ≤ idx → idx < 16 * needed_bitfield_count size i →
          chunk_get_status h.bfmem (total_bitfield_count_upto size i) idx
            = eSTATUS_ALLOC_HEAD))
      (heap_create junk region address size) := by
  unfold heap_create
  apply optAll_ite
  · intro _
    apply optAll_some
    intro h e
    cases e
  · intro _
    apply optAll_ite
    · intro _
      apply optAll_some
      intro h e
      cases e
    · intro _
      apply optAll_ite
      · intro _; exact optAll_none _
      · intro _
        apply optAll_bind
        intro a hlev
        obtain ⟨H1, e1, _, lo1, hi1, st1⟩ := heap_create_levels_contents size hs 7 (le_refl _)
          { headsbits := fun _ => 0, bitfield := fun _ => none, hdata := address, hsize := size,
            hdcnt := add32 (mul32 (sub32 24 (CLZ size &&& 0x1C) >>> 2) 15)
              ((size >>> sub32 28 (CLZ size &&& 0x1C)) &&& 0x0F),
            bscnt := 0, heads := fun _ => 0, bfmem := junk,
            bfcnt := total_bitfield_count size, chunks := region }
          (le_refl _)
        have ea : a = (H1, total_bitfield_count_upto size 7) :=
          Option.some.inj (hlev.symm.trans e1)
        subst ea
        dsimp only
        apply optAll_bind
        intro h1 hpop
        apply optAll_some
        intro h e
        cases e
        have kbf := populate_heads_bfmem _ _ _ _ h1 hpop
        obtain ⟨⟨_, _, _, _, k5, _⟩, _⟩ := populate_heads_keeps _ _ _ _ h1 hpop
        dsimp only at kbf k5
        rw [kbf, k5]
        exact ⟨lo1, hi1, st1⟩

theorem level_count (size j k : Nat) (hj : 1 ≤ j) (hj7 : j ≤ 7) (b1 : 16 ^ j ≤ size)
    (b2 : size < 16 ^ (j + 1)) (hk : k < 7) : 0 < size / 16 ^ (k + 1) ↔ k < j := by
  interval_cases j <;> interval_cases k <;> simp at b1 b2 ⊢ <;> omega

/-- C27. For every size that is a multiple of 16 from 16 up to `0xF0000000` and every base that
`heap_create` accepts, `heap_create` returns a heap in which, with `16 ^ j` the largest
main size that is at most `size`: `bscnt` is `j`; every level `k < j`, that is, every level
with `size >> 4 (k + 1) > 0`, has its bitfield at the word of the bookkeeping buffer that
follows the words of the levels below, of `ceil ((size >> 4 (k + 1)) / 16)` words, all
inside the buffer; in these words every chunk of index below `size >> 4 (k + 1)` is `FREE`
and every chunk after them, up to the end of the last word, is `ALLOC_HEAD`; and every
level from `j` on has no bitfield. -/
theorem heap_create_bitfields (junk : Nat → Nat) (region : Nat → chunk) (address size j : Nat)
    (hj : 1 ≤ j) (hj7 : j ≤ 7) (b1 : 16 ^ j ≤ size) (b2 : size < 16 ^ (j + 1))
    (h16 : size % 16 = 0) (hmax : size ≤ 0xF0000000) (ha : address % 16 ^ j = 0)
    (ha0 : address ≠ 0) (hfit : address + size ≤ 2 ^ 32) :
    ∃ h, heap_create junk region address size = some (some h) ∧ h.bscnt = j ∧
      h.bfcnt = total_bitfield_count size ∧
      ∀ k, k < 7 →
        (0 < size >>> (4 * (k + 1)) → k < j ∧
          h.bitfield k = some (total_bitfield_count_upto size k) ∧
          needed_bitfield_count size k = (size >>> (4 * (k + 1)) + 15) / 16 ∧
          total_bitfield_count_upto size k + needed_bitfield_count size k
            = total_bitfield_count_upto size (k + 1) ∧
          total_bitfield_count_upto size (k + 1) ≤ h.bfcnt ∧
          (∀ idx, idx < size >>> (4 * (k + 1)) →
            heap_chunk_status h k idx = some eSTATUS_FREE) ∧
          (∀ idx, size >>> (4 * (k + 1)) ≤ idx →
            idx < 16 * ((size >>> (4 * (k + 1)) + 15) / 16) →
            heap_chunk_status h k idx = some eSTATUS_ALLOC_HEAD)) ∧
        (size >>> (4 * (k + 1)) = 0 → j ≤ k ∧ h.bitfield k = none) := by
  have hs : size < 2 ^ 32 := by omega
  obtain ⟨h, L, e, _, _⟩ :=
    heap_create_greedy junk region address size j hj hj7 b1 b2 h16 hmax ha ha0 hfit
  obtain ⟨lo, hi, st⟩ := heap_create_contents junk region address size hs (some h) e h rfl
  obtain ⟨bf, bfc⟩ := heap_create_bitfield junk region address size (some h) e h rfl
  have sh : ∀ k, size >>> (4 * (k + 1)) = size / 16 ^ (k + 1) := by
    intro k
    rw [Nat.shiftRight_eq_div_pow, Nat.pow_mul]
  have nz : ∀ k, k < 7 → (needed_bitfield_count size k ≠ 0 ↔ k < j) := by
    intro k hk
    rw [(st k hk).1, ← level_count size j k hj hj7 b1 b2 hk]
    generalize size / 16 ^ (k + 1) = c
    omega
  refine ⟨h, e, ?_, bfc, ?_⟩
  · have l1 := lo (j - 1) (by omega) ((nz (j - 1) (by omega)).2 (by omega))
    rcases hi with h0 | ⟨i, i7, ne, hb⟩
    · omega
    · have := (nz i i7).1 ne
      omega
  · intro k hk
    obtain ⟨nb, fr, hd⟩ := st k hk
    rw [sh k]
    have step := (total_upto_step size k (by omega)).2 hk
    have mo := total_upto_mono size (7 - (k + 1)) (k + 1) (by omega)
    rw [show k + 1 + (7 - (k + 1)) = 7 by omega] at mo
    constructor
    · intro hpos
      have hkj := (level_count size j k hj hj7 b1 b2 hk).1 hpos
      have hb : h.bitfield k = some (total_bitfield_count_upto size k) := by
        rw [bf k hk, if_pos ((nz k hk).2 hkj)]
      have status : ∀ idx, idx < 16 * needed_bitfield_count size k →
          heap_chunk_status h k idx
            = some (chunk_get_status h.bfmem (total_bitfield_count_upto size k) idx) := by
        intro idx hidx
        unfold heap_chunk_status
        rw [bitfield_at_eq (total_bitfield_count_upto size k) h k (idx >>> 4) hk hb
          (by rw [Nat.shiftRight_eq_div_pow, bfc]; show _ < total_bitfield_count_upto size 7
              omega)]
        rfl
      refine ⟨hkj, hb, nb, step.symm, by rw [bfc]; exact mo, ?_, ?_⟩
      · intro idx hidx
        rw [status idx (by omega), fr idx hidx]
      · intro idx h1 h2
        rw [← nb] at h2
        rw [status idx h2, hd idx h1 h2]
    · intro hz
      have hkj : ¬ k < j := fun c => by
        have := (level_count size j k hj hj7 b1 b2 hk).2 c
        omega
      refine ⟨by omega, ?_⟩
      rw [bf k hk, if_neg (fun c => hkj ((nz k hk).1 c))]

theorem heap_create_bitfields_witness :
    ∃ h, heap_create no_junk no_links 0x10000 0x4800 = some (some h) ∧ h.bscnt = 3 ∧
      h.bfcnt = total_bitfield_count 0x4800 ∧
      ∀ k, k < 7 →
        (0 < 0x4800 >>> (4 * (k + 1)) → k < 3 ∧
          h.bitfield k = some (total_bitfield_count_upto 0x4800 k) ∧
          needed_bitfield_count 0x4800 k = (0x4800 >>> (4 * (k + 1)) + 15) / 16 ∧
          total_bitfield_count_upto 0x4800 k + needed_bitfield_count 0x4800 k
            = total_bitfield_count_upto 0x4800 (k + 1) ∧
          total_bitfield_count_upto 0x4800 (k + 1) ≤ h.bfcnt ∧
          (∀ idx, idx < 0x4800 >>> (4 * (k + 1)) →
            heap_chunk_status h k idx = some eSTATUS_FREE) ∧
          (∀ idx, 0x4800 >>> (4 * (k + 1)) ≤ idx →
            idx < 16 * ((0x4800 >>> (4 * (k + 1)) + 15) / 16) →
            heap_chunk_status h k idx = some eSTATUS_ALLOC_HEAD)) ∧
        (0x4800 >>> (4 * (k + 1)) = 0 → 3 ≤ k ∧ h.bitfield k = none) :=
  heap_create_bitfields no_junk no_links 0x10000 0x4800 3 (by decide) (by decide) (by decide)
    (by decide) (by decide) (by decide) (by decide) (by decide) (by decide)

/-! ## The heap of 256 MiB until it is full -/

theorem rel2_none {α β : Type} (R : α → β → Prop) : Rel2 R none none := Or.inl ⟨rfl, rfl⟩

theorem rel2_some {α β : Type} (R : α → β → Prop) (a : α) (b : β) (h : R a b) :
    Rel2 R (some a) (some b) := Or.inr ⟨a, b, rfl, rfl, h⟩

theorem rel2_bind {α β γ δ : Type} (R : α → β → Prop) (S : γ → δ → Prop)
    (o1 : Option α) (o2 : Option β) (f : α → Option γ) (g : β → Option δ)
    (hr : Rel2 R o1 o2)
    (hf : ∀ a b, o1 = some a → o2 = some b → R a b → Rel2 S (f a) (g b)) :
    Rel2 S (o1.bind f) (o2.bind g) := by
  rcases hr with ⟨e1, e2⟩ | ⟨a, b, e1, e2, r⟩
  · rw [e1, e2]
    exact rel2_none S
  · have := hf a b e1 e2 r
    rw [e1, e2]
    exact this

theorem rel2_bind_eq {α γ δ : Type} (S : γ → δ → Prop) (o : Option α)
    (f : α → Option γ) (g : α → Option δ) (hf : ∀ a, o = some a → Rel2 S (f a) (g a)) :
    Rel2 S (o.bind f) (o.bind g) := by
  cases o with
  | none => exact rel2_none S
  | some a => exact hf a rfl

theorem rel2_ite {α β : Type} (R : α → β → Prop) (c : Prop) [Decidable c]
    (x y : Option α) (x1 y1 : Option β) (hx : c → Rel2 R x x1) (hy : ¬ c → Rel2 R y y1) :
    Rel2 R (if c then x else y) (if c then x1 else y1) := by
  by_cases hc : c
  · rw [if_pos hc, if_pos hc]; exact hx hc
  · rw [if_neg hc, if_neg hc]; exact hy hc

theorem rel2_elim {α β : Type} {R : α → β → Prop} {o1 : Option α} {o2 : Option β} {b : β}
    (h : Rel2 R o1 o2) (e : o2 = some b) : ∃ a, o1 = some a ∧ R a b := by
  rcases h with ⟨_, e2⟩ | ⟨a, b1, e1, e2, r⟩
  · rw [e2] at e
    cases e
  · rw [e2] at e
    cases e
    exact ⟨a, e1, r⟩

theorem sameLists_chunk_ok {h g : heap} (v : SameLists h g) (c : Nat) :
    chunk_ok h c = chunk_ok g c := by
  obtain ⟨_, _, _, hd, hs, _, _⟩ := v
  unfold chunk_ok
  rw [hd, hs]

theorem sameLists_heads_at {h g : heap} (v : SameLists h g) (i : Nat) :
    heads_at h i = heads_at g i := by
  obtain ⟨_, hc, hh, _, _, _, _⟩ := v
  unfold heads_at
  by_cases hi : i < h.hdcnt
  · rw [if_pos hi, if_pos (by omega), (hh i hi).1]
  · rw [if_neg hi, if_neg (by omega)]

theorem sameLists_bitfield_at {h g : heap} (v : SameLists h g) (lvl w : Nat) :
    bitfield_at h lvl w = bitfield_at g lvl w := by
  obtain ⟨_, _, _, _, _, hl, hw⟩ := v
  unfold bitfield_at MAIN_BASE_SIZE_COUNT
  by_cases hk : lvl < 7
  · rw [if_pos hk, if_pos hk, hl lvl hk, hw]
  · rw [if_neg hk, if_neg hk]

theorem sameLists_scan {h g : heap} (v : SameLists h g) (n : Nat) :
    next_available_head_index h n = next_available_head_index g n := by
  obtain ⟨hb, _, _, _, _, _, _⟩ := v
  unfold next_available_head_index
  dsimp only
  by_cases hz : closest_base_size n = 0
  · rw [if_pos hz, if_pos hz]
  · rw [if_neg hz, if_neg hz]
    unfold next_available_head_index_from HEADS_BITS_SIZE
    dsimp only
    generalize base_size_to_index (closest_base_size n) >>> 5 = s
    by_cases h0 : 4 ≤ s
    · rw [if_pos h0, if_pos h0]
    · rw [if_neg h0, if_neg h0, hb s (by omega)]
      by_cases h1 : 4 ≤ s + 1
      · simp only [if_pos h1]
      · rw [hb (s + 1) (by omega)]
        by_cases h2 : 4 ≤ s + 2
        · simp only [if_pos h2]
        · rw [hb (s + 2) (by omega)]
          by_cases h3 : 4 ≤ s + 3
          · simp only [if_pos h3]
          · rw [hb (s + 3) (by omega)]

theorem update_prev_same {h g : heap} (v : SameLists h g) (c p : Nat) :
    Rel2 SameLists (update_prev h c p) (update_prev g c p) := by
  unfold update_prev
  rw [sameLists_chunk_ok v]
  apply rel2_ite
  · intro _
    obtain ⟨hb, hc, hh, hd, hs, hl, hw⟩ := v
    apply rel2_some
    refine ⟨hb, hc, ?_, hd, hs, hl, hw⟩
    intro i hi
    refine ⟨(hh i hi).1, ?_⟩
    intro hne
    dsimp only
    by_cases e : h.heads i = c
    · rw [if_pos e, if_pos e]
      refine ⟨rfl, ?_⟩
      have := ((hh i hi).2 hne).2
      rw [e] at this
      exact this
    · rw [if_neg e, if_neg e]
      exact (hh i hi).2 hne
  · intro _
    exact rel2_none _

theorem update_next_same {h g : heap} (v : SameLists h g) (c n : Nat) :
    Rel2 SameLists (update_next h c n) (update_next g c n) := by
  unfold update_next
  rw [sameLists_chunk_ok v]
  apply rel2_ite
  · intro _
    obtain ⟨hb, hc, hh, hd, hs, hl, hw⟩ := v
    apply rel2_some
    refine ⟨hb, hc, ?_, hd, hs, hl, hw⟩
    intro i hi
    refine ⟨(hh i hi).1, ?_⟩
    intro hne
    dsimp only
    by_cases e : h.heads i = c
    · rw [if_pos e, if_pos e]
      refine ⟨?_, rfl⟩
      have := ((hh i hi).2 hne).1
      rw [e] at this
      exact this
    · rw [if_neg e, if_neg e]
      exact (hh i hi).2 hne
  · intro _
    exact rel2_none _

/-- The two stores of `push_head` to the links of `c`. -/
theorem links_written {h h1 h2 : heap} {c n p : Nat} (e1 : update_next h c n = some h1)
    (e2 : update_prev h1 c p = some h2) :
    (h2.chunks c).prev = p ∧ (h2.chunks c).next = n := by
  unfold update_next at e1
  unfold update_prev at e2
  by_cases k1 : chunk_ok h c = true
  · rw [if_pos k1] at e1
    by_cases k2 : chunk_ok h1 c = true
    · rw [if_pos k2] at e2
      cases e1
      cases e2
      dsimp only
      rw [if_pos rfl]
      dsimp only
      rw [if_pos rfl]
      exact ⟨rfl, rfl⟩
    · rw [if_neg k2] at e2
      cases e2
  · rw [if_neg k1] at e1
    cases e1

theorem update_head_same {h g : heap} (v : SameLists h g) (index c : Nat)
    (hc : c ≠ 0 → (h.chunks c).prev = (g.chunks c).prev ∧ (h.chunks c).next = (g.chunks c).next) :
    Rel2 SameLists (update_head h index c) (update_head g index c) := by
  obtain ⟨hb, hcnt, hh, hd, hs, hl, hw⟩ := v
  unfold update_head HEADS_BITS_SIZE
  apply rel2_ite
  · intro _; exact rel2_none _
  · intro h4
    by_cases hi : h.hdcnt ≤ index
    · rw [if_pos hi, if_pos (by omega)]
      exact rel2_none _
    · rw [if_neg hi, if_neg (by omega)]
      apply rel2_some
      refine ⟨?_, hcnt, ?_, hd, hs, hl, hw⟩
      · intro w hw4
        dsimp only
        unfold store
        by_cases e : w = index >>> 5
        · rw [if_pos e, if_pos e, hb (index >>> 5) (by omega)]
        · rw [if_neg e, if_neg e]
          exact hb w hw4
      · intro i hi1
        dsimp only at hi1 ⊢
        unfold store
        by_cases e : i = index
        · rw [if_pos e, if_pos e]
          exact ⟨rfl, hc⟩
        · rw [if_neg e, if_neg e]
          exact hh i hi1

theorem push_head_same {h g : heap} (v : SameLists h g) (hidx c : Nat) :
    Rel2 SameLists (push_head h hidx c) (push_head g hidx c) := by
  unfold push_head
  rw [sameLists_heads_at v]
  apply rel2_bind_eq
  intro hd _
  apply rel2_bind SameLists SameLists _ _ _ _ (update_next_same v c hd)
  intro h1 g1 e1 f1 v1
  apply rel2_bind SameLists SameLists _ _ _ _ (update_prev_same v1 c 0)
  intro h2 g2 e2 f2 v2
  have lh := links_written e1 e2
  have lg := links_written f1 f2
  apply rel2_bind SameLists SameLists _ _ _ _
    (update_head_same v2 hidx c (fun _ => ⟨by rw [lh.1, lg.1], by rw [lh.2, lg.2]⟩))
  intro h3 g3 _ _ v3
  apply rel2_ite
  · intro _; exact update_prev_same v3 hd c
  · intro _; exact rel2_some _ _ _ v3

theorem heap_set_split_same {h g : heap} (v : SameLists h g) (lvl index : Nat) :
    Rel2 SameLists (heap_set_split h lvl index) (heap_set_split g lvl index) := by
  unfold heap_set_split
  rw [sameLists_bitfield_at v]
  apply rel2_bind_eq
  intro bf _
  exact rel2_some _ _ _ v

theorem heap_set_alloc_head_same {h g : heap} (v : SameLists h g) (lvl index : Nat) :
    Rel2 SameLists (heap_set_alloc_head h lvl index) (heap_set_alloc_head g lvl index) := by
  unfold heap_set_alloc_head
  rw [sameLists_bitfield_at v]
  apply rel2_bind_eq
  intro bf _
  exact rel2_some _ _ _ v

theorem heap_set_alloc_multi_same {h g : heap} (v : SameLists h g) (lvl index cnt : Nat) :
    Rel2 SameLists (heap_set_alloc_multi h lvl index cnt)
      (heap_set_alloc_multi g lvl index cnt) := by
  unfold heap_set_alloc_multi
  rw [sameLists_bitfield_at v]
  apply rel2_bind_eq
  intro bf _
  apply rel2_bind (fun _ _ => True) SameLists
  · unfold bf_set_alloc_multi bf_set_b00_multi
    dsimp only
    apply rel2_ite
    · intro _; exact rel2_none _
    · intro _
      apply rel2_ite
      · intro _; exact rel2_none _
      · intro _; exact rel2_some _ _ _ trivial
  · intro m1 m2 _ _ _
    exact rel2_some _ _ _ v

theorem heap_alloc_carve_same (base extra_sz needed_sz : Nat) :
    ∀ fuel (h g : heap) c bs_level shift, SameLists h g →
      Rel2 SameOut (heap_alloc_carve base extra_sz needed_sz fuel h c bs_level shift)
        (heap_alloc_carve base extra_sz needed_sz fuel g c bs_level shift) := by
  intro fuel
  induction fuel with
  | zero =>
    intro h g c bs_level shift _
    unfold heap_alloc_carve
    exact rel2_none _
  | succ fuel ih =>
    intro h g c bs_level shift v
    unfold heap_alloc_carve
    apply rel2_ite
    · intro _; exact rel2_none _
    · intro _
      apply rel2_bind (SameOut (σ := Nat)) SameOut
      · apply rel2_ite
        · intro _
          apply rel2_bind SameLists SameOut _ _ _ _ (push_head_same v _ c)
          intro h1 g1 _ _ v1
          exact rel2_some _ _ _ ⟨v1, rfl⟩
        · intro _
          exact rel2_some _ _ _ ⟨v, rfl⟩
      · intro a b _ _ r
        obtain ⟨h1, c1⟩ := a
        obtain ⟨g1, d1⟩ := b
        obtain ⟨v1, e⟩ := r
        dsimp only at v1 e
        subst e
        dsimp only
        apply rel2_ite
        · intro _
          exact rel2_some _ _ _ ⟨v1, rfl⟩
        · intro _
          apply rel2_bind SameLists SameOut _ _ _ _ (heap_set_split_same v1 _ _)
          intro h2 g2 _ _ v2
          exact ih h2 g2 _ _ _ v2

set_option maxRecDepth 8000 in
theorem heap_alloc_tail_same (base extra_sz : Nat) :
    ∀ fuel (h g : heap) c bs_level shift main_bs needed_sz, SameLists h g →
      Rel2 SameLists (heap_alloc_tail base extra_sz fuel h c bs_level shift main_bs needed_sz)
        (heap_alloc_tail base extra_sz fuel g c bs_level shift main_bs needed_sz) := by
  intro fuel
  induction fuel with
  | zero =>
    intro h g c bs_level shift main_bs needed_sz _
    rw [heap_alloc_tail, heap_alloc_tail]
    exact rel2_none _
  | succ fuel ih =>
    intro h g c bs_level shift main_bs needed_sz v
    rw [heap_alloc_tail, heap_alloc_tail]
    dsimp only
    apply rel2_ite
    · intro _; exact rel2_none _
    · intro _
      apply rel2_bind (SameOut (σ := Nat)) SameLists
      · apply rel2_ite
        · intro _
          apply rel2_bind SameLists SameOut _ _ _ _ (heap_set_alloc_multi_same v _ _ _)
          intro h1 g1 _ _ v1
          exact rel2_some _ _ _ ⟨v1, rfl⟩
        · intro _
          exact rel2_some _ _ _ ⟨v, rfl⟩
      · intro a b _ _ r
        obtain ⟨h1, c1⟩ := a
        obtain ⟨g1, d1⟩ := b
        obtain ⟨v1, e⟩ := r
        dsimp only at v1 e
        subst e
        dsimp only
        apply rel2_bind SameLists SameLists
        · apply rel2_ite
          · intro _; exact push_head_same v1 _ _
          · intro _; exact rel2_some _ _ _ v1
        · intro h2 g2 _ _ v2
          apply rel2_ite
          · intro _; exact rel2_some _ _ _ v2
          · intro _
            apply rel2_ite
            · intro _; exact rel2_some _ _ _ v2
            · intro _
              apply rel2_bind SameLists SameLists _ _ _ _ (heap_set_split_same v2 _ _)
              intro h3 g3 _ _ v3
              exact ih h3 g3 _ _ _ _ _ v3

/-- The link that `heap_alloc` reads off the head of a list is the same in both heaps. -/
theorem chunk_next_head {h g : heap} (v : SameLists h g) (index c : Nat)
    (hc : heads_at g index = some c) : chunk_next h c = chunk_next g c := by
  have ok := sameLists_chunk_ok v c
  obtain ⟨_, hcnt, hh, _, _, _, _⟩ := v
  unfold heads_at at hc
  by_cases hi : index < g.hdcnt
  · rw [if_pos hi] at hc
    have e : g.heads index = c := Option.some.inj hc
    unfold chunk_next
    rw [ok]
    by_cases k : chunk_ok g c = true
    · rw [if_pos k, if_pos k]
      have c0 := (chunk_ok_ne_zero k).1
      have hx := hh index (by omega)
      rw [hx.1, e] at hx
      rw [(hx.2 c0).2]
    · rw [if_neg k, if_neg k]
  · rw [if_neg hi] at hc
    cases hc

theorem pop_ok_next {g : heap} {sz index c n : Nat} (hp : pop_ok g sz = true)
    (h1 : next_available_head_index g
      (add32 sz (BASE_SIZE_MIN - 1) &&& not32 (BASE_SIZE_MIN - 1)) = some index)
    (h2 : heads_at g index = some c) (h3 : chunk_next g c = some n) : n = 0 := by
  unfold pop_ok at hp
  rw [h1] at hp
  dsimp only at hp
  rw [h2] at hp
  dsimp only at hp
  rw [h3] at hp
  dsimp only at hp
  exact beq_iff_eq.1 hp

set_option maxRecDepth 8000 in
/-- The calls `heap_alloc (h, sz)` and `heap_alloc (g, sz)` have the same outcome when `h` and `g` agree
in what `heap_alloc` reads and the chunk taken is alone in its list. -/
theorem heap_alloc_same {h g : heap} (v : SameLists h g) (sz : Nat) (hp : pop_ok g sz = true) :
    Rel2 SameOut (heap_alloc h sz) (heap_alloc g sz) := by
  have hd : h.hdata = g.hdata := v.2.2.2.1
  unfold heap_alloc
  dsimp only
  rw [hd]
  apply rel2_ite
  · intro _
    exact rel2_some _ _ _ ⟨v, rfl⟩
  · intro _
    rw [sameLists_scan v]
    apply rel2_bind_eq
    intro index hidx
    apply rel2_ite
    · intro _
      exact rel2_some _ _ _ ⟨v, rfl⟩
    · intro _
      apply rel2_ite
      · intro _; exact rel2_none _
      · intro _
        rw [sameLists_heads_at v]
        apply rel2_bind_eq
        intro c hc
        rw [chunk_next_head v index c hc]
        apply rel2_bind_eq
        intro cnext hcn
        have hz : cnext = 0 := pop_ok_next hp hidx hc hcn
        subst hz
        rw [if_neg (fun k => k rfl), if_neg (fun k => k rfl)]
        show Rel2 SameOut ((chunk_next h c).bind _) ((chunk_next g c).bind _)
        rw [chunk_next_head v index c hc]
        apply rel2_bind_eq
        intro cnext1 hcn1
        have hz1 : cnext1 = 0 := pop_ok_next hp hidx hc hcn1
        subst hz1
        apply rel2_bind SameLists SameOut _ _ _ _
          (update_head_same v index 0 (fun k => absurd rfl k))
        intro h2 g2 _ _ v2
        apply rel2_bind_eq
        intro ctz _
        apply rel2_bind SameOut SameOut _ _ _ _
          (heap_alloc_carve_same _ _ _ 9 h2 g2 _ _ _ v2)
        intro a b _ _ r
        obtain ⟨h3, c3, lvl3, shift3, lns3⟩ := a
        obtain ⟨g3, d3⟩ := b
        obtain ⟨v3, e⟩ := r
        dsimp only at v3 e
        subst e
        dsimp only
        apply rel2_bind SameLists SameOut _ _ _ _ (heap_set_alloc_head_same v3 _ _)
        intro h4 g4 _ _ v4
        apply rel2_bind (SameOut (σ := Nat)) SameOut
        · apply rel2_ite
          · intro _
            apply rel2_bind SameLists SameOut _ _ _ _ (heap_set_alloc_multi_same v4 _ _ _)
            intro h5 g5 _ _ v5
            exact rel2_some _ _ _ ⟨v5, rfl⟩
          · intro _
            exact rel2_some _ _ _ ⟨v4, rfl⟩
        · intro a b _ _ r
          obtain ⟨h5, c5⟩ := a
          obtain ⟨g5, d5⟩ := b
          obtain ⟨v5, e⟩ := r
          dsimp only at v5 e
          subst e
          dsimp only
          apply rel2_bind SameLists SameOut
          · apply rel2_ite
            · intro _; exact heap_set_split_same v5 _ _
            · intro _; exact rel2_some _ _ _ v5
          · intro h6 g6 _ _ v6
            apply rel2_ite
            · intro _
              apply rel2_bind SameLists SameOut _ _ _ _
                (heap_alloc_tail_same _ _ 9 h6 g6 _ _ _ _ _ v6)
              intro h7 g7 _ _ v7
              exact rel2_some _ _ _ ⟨v7, rfl⟩
            · intro _
              exact rel2_some _ _ _ ⟨v6, rfl⟩

theorem sameLists_trans {h g k : heap} (a : SameLists h g) (b : SameLists g k) :
    SameLists h k := by
  obtain ⟨a1, a2, a3, a4, a5, a6, a7⟩ := a
  obtain ⟨b1, b2, b3, b4, b5, b6, b7⟩ := b
  refine ⟨fun w hw => (a1 w hw).trans (b1 w hw), a2.trans b2, ?_, a4.trans b4, a5.trans b5,
    fun i hi => (a6 i hi).trans (b6 i hi), a7.trans b7⟩
  intro i hi
  obtain ⟨x1, x2⟩ := a3 i hi
  obtain ⟨y1, y2⟩ := b3 i (by omega)
  refine ⟨x1.trans y1, ?_⟩
  intro hne
  obtain ⟨p1, p2⟩ := x2 hne
  rw [← x1] at y2
  obtain ⟨q1, q2⟩ := y2 hne
  exact ⟨p1.trans q1, p2.trans q2⟩

/-- The calls `heap_alloc (h, sz)`, `n` of them in a row, return what they return on a heap `g` that
agrees with `h` in what `heap_alloc` reads. -/
theorem run_alone_same (sz : Nat) : ∀ n (h g : heap) r, SameLists h g →
    run_alone sz n g = some r →
    ∃ h1, run h (List.replicate n (Call.alloc sz)) = some (h1, r.2) ∧ SameLists h1 r.1 := by
  intro n
  induction n with
  | zero =>
    intro h g r v e
    cases e
    exact ⟨h, rfl, v⟩
  | succ n ih =>
    intro h g r v e
    rw [run_alone] at e
    by_cases hp : pop_ok g sz = true
    · rw [if_pos hp] at e
      have rel := heap_alloc_same v sz hp
      cases hg : heap_alloc g sz with
      | none =>
        rw [hg] at e
        cases e
      | some b =>
        rw [hg, Option.some_bind] at e
        obtain ⟨a, ha, va, pa⟩ := rel2_elim rel hg
        cases hr : run_alone sz n b.1 with
        | none =>
          rw [hr] at e
          cases e
        | some r2 =>
          rw [hr, Option.some_bind] at e
          cases e
          obtain ⟨h1, e1, v1⟩ := ih a.1 b.1 r2 va hr
          refine ⟨h1, ?_, v1⟩
          rw [List.replicate_succ, run, ha, Option.some_bind]
          dsimp only
          rw [e1, Option.some_bind, pa]
    · rw [if_neg hp] at e
      cases e

theorem run_append : ∀ (l1 l2 : List Call) (h : heap),
    run h (l1 ++ l2) =
      (run h l1).bind fun r => (run r.1 l2).bind fun r2 => some (r2.1, r.2 ++ r2.2) := by
  intro l1
  induction l1 with
  | nil =>
    intro l2 h
    rw [List.nil_append, run, Option.some_bind]
    cases run h l2 with
    | none => rfl
    | some r => rfl
  | cons c l1 ih =>
    intro l2 h
    cases c with
    | alloc sz =>
      rw [List.cons_append, run, run]
      cases heap_alloc h sz with
      | none => rfl
      | some a =>
        obtain ⟨h1, p⟩ := a
        rw [Option.some_bind, Option.some_bind]
        dsimp only
        rw [ih]
        cases run h1 l1 with
        | none => rfl
        | some r =>
          obtain ⟨h2, ps⟩ := r
          rw [Option.some_bind, Option.some_bind]
          dsimp only
          rw [Option.some_bind]
          dsimp only
          cases run h2 l2 with
          | none => rfl
          | some r2 => rfl
    | free a =>
      rw [List.cons_append, run, run]
      cases heap_free h a with
      | none => rfl
      | some h1 =>
        rw [Option.some_bind, Option.some_bind, ih]

set_option maxRecDepth 100000 in
theorem segment_table_0 : ∀ k, k < 16 → segment_ok (0 + k) = true := by decide!

set_option maxRecDepth 100000 in
theorem segment_table_1 : ∀ k, k < 16 → segment_ok (16 + k) = true := by decide!

set_option maxRecDepth 100000 in
theorem segment_table_2 : ∀ k, k < 16 → segment_ok (32 + k) = true := by decide!

set_option maxRecDepth 100000 in
theorem segment_table_3 : ∀ k, k < 16 → segment_ok (48 + k) = true := by decide!

set_option maxRecDepth 100000 in
theorem segment_table_4 : ∀ k, k < 16 → segment_ok (64 + k) = true := by decide!

set_option maxRecDepth 100000 in
theorem segment_table_5 : ∀ k, k < 16 → segment_ok (80 + k) = true := by decide!

set_option maxRecDepth 100000 in
theorem segment_table_6 : ∀ k, k < 16 → segment_ok (96 + k) = true := by decide!

set_option maxRecDepth 100000 in
theorem segment_table_7 : ∀ k, k < 16 → segment_ok (112 + k) = true := by decide!

set_option maxRecDepth 100000 in
theorem segment_table_8 : ∀ k, k < 16 → segment_ok (128 + k) = true := by decide!

set_option maxRecDepth 100000 in
theorem segment_table_9 : ∀ k, k < 16 → segment_ok (144 + k) = true := by decide!

set_option maxRecDepth 100000 in
theorem segment_table_10 : ∀ k, k < 16 → segment_ok (160 + k) = true := by decide!

set_option maxRecDepth 100000 in
theorem segment_table_11 : ∀ k, k < 16 → segment_ok (176 + k) = true := by decide!

set_option maxRecDepth 100000 in
theorem segment_table_12 : ∀ k, k < 16 → segment_ok (192 + k) = true := by decide!

set_option maxRecDepth 100000 in
theorem segment_table_13 : ∀ k, k < 16 → segment_ok (208 + k) = true := by decide!

set_option maxRecDepth 100000 in
theorem segment_table_14 : ∀ k, k < 16 → segment_ok (224 + k) = true := by decide!

set_option maxRecDepth 100000 in
theorem segment_table_15 : ∀ k, k < 16 → segment_ok (240 + k) = true := by decide!

theorem segment_table (k : Nat) (hk : k < 256) : segment_ok k = true := by
  have e : k = k / 16 * 16 + k % 16 := by omega
  have hq : k / 16 < 16 := by omega
  have hr : k % 16 < 16 := by omega
  generalize k / 16 = q at e hq
  generalize k % 16 = r at e hr
  subst e
  interval_cases q
  · have := segment_table_0 r hr
    rw [show 0 * 16 + r = 0 + r by omega]
    exact this
  · have := segment_table_1 r hr
    rw [show 1 * 16 + r = 16 + r by omega]
    exact this
  · have := segment_table_2 r hr
    rw [show 2 * 16 + r = 32 + r by omega]
    exact this
  · have := segment_table_3 r hr
    rw [show 3 * 16 + r = 48 + r by omega]
    exact this
  · have := segment_table_4 r hr
    rw [show 4 * 16 + r = 64 + r by omega]
    exact this
  · have := segment_table_5 r hr
    rw [show 5 * 16 + r = 80 + r by omega]
    exact this
  · have := segment_table_6 r hr
    rw [show 6 * 16 + r = 96 + r by omega]
    exact this
  · have := segment_table_7 r hr
    rw [show 7 * 16 + r = 112 + r by omega]
    exact this
  · have := segment_table_8 r hr
    rw [show 8 * 16 + r = 128 + r by omega]
    exact this
  · have := segment_table_9 r hr
    rw [show 9 * 16 + r = 144 + r by omega]
    exact this
  · have := segment_table_10 r hr
    rw [show 10 * 16 + r = 160 + r by omega]
    exact this
  · have := segment_table_11 r hr
    rw [show 11 * 16 + r = 176 + r by omega]
    exact this
  · have := segment_table_12 r hr
    rw [show 12 * 16 + r = 192 + r by omega]
    exact this
  · have := segment_table_13 r hr
    rw [show 13 * 16 + r = 208 + r by omega]
    exact this
  · have := segment_table_14 r hr
    rw [show 14 * 16 + r = 224 + r by omega]
    exact this
  · have := segment_table_15 r hr
    rw [show 15 * 16 + r = 240 + r by omega]
    exact this

theorem run_alone_keeps (sz : Nat) : ∀ n (g : heap) r, run_alone sz n g = some r →
    Keeps g r.1 := by
  intro n
  induction n with
  | zero =>
    intro g r e
    cases e
    exact keeps_refl g
  | succ n ih =>
    intro g r e
    rw [run_alone] at e
    by_cases hp : pop_ok g sz = true
    · rw [if_pos hp] at e
      cases hg : heap_alloc g sz with
      | none =>
        rw [hg] at e
        cases e
      | some b =>
        rw [hg, Option.some_bind] at e
        cases hr : run_alone sz n b.1 with
        | none =>
          rw [hr] at e
          cases e
        | some r2 =>
          rw [hr, Option.some_bind] at e
          cases e
          exact keeps_trans (heap_alloc_keeps g sz b hg) (ih b.1 r2 hr)
    · rw [if_neg hp] at e
      cases e

theorem occupancy_nil : ∀ j, j < 128 → occ_bit (occupancy []) j = decide (105 ≤ j) := by
  decide!

theorem occupancy_bit (l : List Nat) : ∀ j, j < 128 →
    (occ_bit (occupancy l) j = true ↔ j ∈ l ∨ 105 ≤ j) := by
  induction l with
  | nil =>
    intro j hj
    rw [occupancy_nil j hj]
    simp
  | cons i l ih =>
    intro j hj
    show occ_bit (store (occupancy l) (i >>> 5)
      (occupancy l (i >>> 5) ||| (0x80000000 >>> (i &&& 31)))) j = true ↔ _
    rw [occ_bit_set, Bool.or_eq_true, decide_eq_true_eq, ih j hj, List.mem_cons]
    tauto

theorem occupancy_lt (l : List Nat) : ∀ w, occupancy l w < 2 ^ 32 := by
  induction l with
  | nil =>
    intro w
    show (if w = 3 then 0x007FFFFF else 0) < 2 ^ 32
    split <;> decide
  | cons i l ih =>
    intro w
    show store (occupancy l) (i >>> 5)
      (occupancy l (i >>> 5) ||| (0x80000000 >>> (i &&& 31))) w < 2 ^ 32
    unfold store
    split
    · exact Nat.or_lt_two_pow (ih _) (bit_lt i)
    · exact ih w

theorem mem_occupied (k i : Nat) :
    i ∈ occupied k ↔
      (0 < (256 - k) / 16 ∧ i = 75 + (256 - k) / 16 - 1) ∨
      (0 < (256 - k) % 16 ∧ i = 60 + (256 - k) % 16 - 1) ∨ (0 < k ∧ i = 44) ∨
      (0 < k ∧ i = 14) := by
  unfold occupied
  rw [List.mem_append, List.mem_append]
  by_cases c1 : 0 < (256 - k) / 16 <;> by_cases c2 : 0 < (256 - k) % 16 <;>
    by_cases c3 : 0 < k <;> simp [c1, c2, c3]

theorem drained_heads (k i : Nat) :
    (drained k).heads i ≠ 0 ↔
      (0 < (256 - k) / 16 ∧ i = 75 + (256 - k) / 16 - 1) ∨
      (0 < (256 - k) % 16 ∧ i = 60 + (256 - k) % 16 - 1) ∨ (0 < k ∧ i = 44) ∨
      (0 < k ∧ i = 14) := by
  show (if 0 < (256 - k) / 16 ∧ i = 75 + (256 - k) / 16 - 1 then 0x10000000
      else if 0 < (256 - k) % 16 ∧ i = 60 + (256 - k) % 16 - 1 then
        0x10000000 + (256 - k) / 16 * 0x1000000
      else if 0 < k ∧ i = 44 then 0x10000000 + (256 - k) * 0x100000 + 0x11000
      else if 0 < k ∧ i = 14 then 0x10000000 + (256 - k) * 0x100000 + 0x10F10
      else 0) ≠ 0 ↔ _
  by_cases c1 : 0 < (256 - k) / 16 ∧ i = 75 + (256 - k) / 16 - 1
  · rw [if_pos c1]
    simp [c1]
  · rw [if_neg c1]
    by_cases c2 : 0 < (256 - k) % 16 ∧ i = 60 + (256 - k) % 16 - 1
    · rw [if_pos c2]
      simp [c2]
    · rw [if_neg c2]
      by_cases c3 : 0 < k ∧ i = 44
      · rw [if_pos c3]
        simp [c3]
      · rw [if_neg c3]
        by_cases c4 : 0 < k ∧ i = 14
        · rw [if_pos c4]
          simp [c4]
        · rw [if_neg c4]
          constructor
          · intro h
            exact absurd rfl h
          · intro h
            rcases h with h | h | h | h <;> contradiction

theorem occupied_lt (k i : Nat) (h : i ∈ occupied k) : i < 91 := by
  rw [mem_occupied] at h
  omega

/-- The registry of `drained k` is coherent. -/
theorem drained_registry (k : Nat) : Registry (drained k) := by
  refine ⟨(by decide : 91 ≤ BASE_SIZES_COUNT), occupancy_lt _, ?_, ?_, ?_⟩
  · intro i hi
    have hi : i < 91 := hi
    show occ_bit (occupancy (occupied k)) i = true ↔ _
    rw [occupancy_bit _ i (by omega), drained_heads, mem_occupied]
    omega
  · intro i h1 h2
    have h1 : 91 ≤ i := h1
    have h2 : i < 105 := h2
    show occ_bit (occupancy (occupied k)) i = false
    have := occupancy_bit (occupied k) i (by omega)
    rw [mem_occupied] at this
    cases hb : occ_bit (occupancy (occupied k)) i with
    | false => rfl
    | true =>
      have := this.1 hb
      omega
  · intro i h1 h2
    have h1 : 105 ≤ i := h1
    show occ_bit (occupancy (occupied k)) i = true
    exact (occupancy_bit (occupied k) i h2).2 (Or.inr h1)

theorem segment_ok_spec (k : Nat) (e : segment_ok k = true) :
    ∃ r, run_alone 0x10F10 8 (drained k) = some r ∧
      r.2 = (List.range 8).map (fun i => 0x20000000 - 0x20000 * (8 * k + i + 1)) ∧
      SameLists r.1 (drained (k + 1)) := by
  unfold segment_ok at e
  cases hr : run_alone 0x10F10 8 (drained k) with
  | none =>
    rw [hr] at e
    cases e
  | some r =>
    rw [hr] at e
    dsimp only at e
    rw [Bool.and_eq_true, Bool.and_eq_true, decide_eq_true_eq] at e
    obtain ⟨⟨e1, e2⟩, e3⟩ := e
    refine ⟨r, rfl, e1, ?_⟩
    obtain ⟨⟨s1, s2, s3, s4, _, s6⟩, kreg⟩ := run_alone_keeps 0x10F10 8 (drained k) r hr
    have reg := kreg (drained_registry k)
    have regn := drained_registry (k + 1)
    rw [List.all_eq_true] at e2
    have words : ∀ w, w < 4 → r.1.headsbits w = (drained (k + 1)).headsbits w := by
      intro w hw
      exact beq_iff_eq.1 (e2 w (List.mem_range.2 hw))
    have hcnt : r.1.hdcnt = 91 := s4
    refine ⟨words, hcnt, ?_, s2, s3, ?_, s6⟩
    · intro i hi
      rw [hcnt] at hi
      by_cases hm : i ∈ occupied (k + 1)
      · unfold same_heads at e3
        rw [List.all_eq_true] at e3
        have := e3 i hm
        rw [Bool.and_eq_true, Bool.and_eq_true, beq_iff_eq, beq_iff_eq, beq_iff_eq] at this
        obtain ⟨⟨a, b⟩, c⟩ := this
        refine ⟨a, fun _ => ?_⟩
        rw [a]
        exact ⟨b, c⟩
      · have bit : occ_bit (drained (k + 1)).headsbits i = false := by
          cases hb : occ_bit (drained (k + 1)).headsbits i with
          | false => rfl
          | true =>
            have := (occupancy_bit (occupied (k + 1)) i (by omega)).1 hb
            rcases this with h | h
            · exact absurd h hm
            · omega
        have bitr : occ_bit r.1.headsbits i = false := by
          unfold occ_bit at bit ⊢
          rw [words (i / 32) (by omega)]
          exact bit
        have z1 : r.1.heads i = 0 := by
          by_contra hne
          have := (reg.sync i (by rw [hcnt]; exact hi)).2 hne
          rw [bitr] at this
          cases this
        have z2 : (drained (k + 1)).heads i = 0 := by
          by_contra hne
          have := (regn.sync i hi).2 hne
          rw [bit] at this
          cases this
        exact ⟨z1.trans z2.symm, fun c => absurd z1 c⟩
    · intro j hj
      rw [s1]
      rfl

theorem drained_zero : (∀ i, i < 128 → occ_bit (drained 0).headsbits i = decide (i = 90 ∨ 105 ≤ i)) ∧
    (∀ w, w < 4 → (drained 0).headsbits w < 2 ^ 32) ∧
    (∀ i, i < 91 → (drained 0).heads i = if i = 90 then 0x10000000 else 0) ∧
    (∀ i, i < 7 → needed_bitfield_count 0x10000000 i ≠ 0) ∧
    base_size_to_index 0x10000000 = 90 := by
  decide!

set_option maxRecDepth 100000 in
theorem drained_full :
    next_available_head_index (drained 256)
      (add32 0x10F10 (BASE_SIZE_MIN - 1) &&& not32 (BASE_SIZE_MIN - 1)) = some BASE_SIZES_COUNT := by
  decide!

/-- Occupancy words with the same bits are the same. -/
theorem words_of_bits (hb hc : Nat → Nat) (w : Nat) (hw : w < 4) (h1 : hb w < 2 ^ 32)
    (h2 : hc w < 2 ^ 32) (hbits : ∀ i, i < 128 → occ_bit hb i = occ_bit hc i) : hb w = hc w := by
  apply Nat.eq_of_testBit_eq
  intro b
  by_cases hb32 : b < 32
  · rw [bit_of_word hb w b (by omega), bit_of_word hc w b (by omega)]
    exact hbits _ (by omega)
  · rw [high_bits _ h1 b (by omega), high_bits _ h2 b (by omega)]

/-- The heap that `heap_create` returns for 256 MiB at `0x10000000` has the lists of `drained 0`. -/
theorem created_like_drained (junk : Nat → Nat) (region : Nat → chunk) :
    ∃ h0, heap_create junk region 0x10000000 0x10000000 = some (some h0) ∧
      SameLists h0 (drained 0) := by
  obtain ⟨z1, z2, z3, z4, z5⟩ := drained_zero
  have hcl : IsClass 0x10000000 := ⟨6, 1, by decide, by decide, by decide, by decide⟩
  obtain ⟨h0, L, e, hg, hseed⟩ := heap_create_greedy junk region 0x10000000 0x10000000 7
    (by decide) (by decide) (by decide) (by decide) (by decide) (by decide) (by decide)
    (by decide) (by decide)
  have hL : L = [(0, 0x10000000)] := by
    apply greedy_unique hg
    apply Greedy.step 0 0x10000000 0x10000000 [] ⟨hcl, le_refl _, fun s _ hs => hs⟩
    exact Greedy.done _
  subst hL
  obtain ⟨j, _, _, c1, c2, _, _, _, r1, r2, r3, reg⟩ :=
    heap_create_registry junk region 0x10000000 0x10000000 (by decide) (some h0) e h0 rfl
  have hj : j = 7 := by
    have p1 : ¬ j < 7 := fun hlt => by
      have : 16 ^ (j + 1) ≤ 16 ^ 7 := Nat.pow_le_pow_right (by decide) hlt
      omega
    have p2 : ¬ 7 < j := fun hlt => by
      have : 16 ^ 8 ≤ 16 ^ j := Nat.pow_le_pow_right (by decide) hlt
      omega
    omega
  subst hj
  obtain ⟨bf, bfc⟩ := heap_create_bitfield junk region 0x10000000 0x10000000 (some h0) e h0 rfl
  obtain ⟨sole, rest⟩ := hseed
  obtain ⟨s1, s2, s3, s4⟩ := sole (0, 0x10000000) (List.mem_singleton.2 rfl)
  dsimp only at s1 s2 s3 s4
  rw [z5] at s1 s4
  have hcnt : h0.hdcnt = 91 := by rw [r3]; norm_num
  refine ⟨h0, e, ?_, hcnt, ?_, r1, r2, ?_, bfc⟩
  · intro w hw
    apply words_of_bits _ _ w hw (reg.word w) (z2 w hw)
    intro i hi
    rw [z1 i hi]
    by_cases h90 : i = 90
    · subst h90
      rw [s4]
      rfl
    · by_cases h105 : 105 ≤ i
      · rw [reg.sentinel i h105 hi]
        simp [h105]
      · have := (rest i (by show i < 105; omega) (by
          intro e1 he1
          rw [List.mem_singleton.1 he1, z5]
          exact fun c => h90 c.symm)).2
        rw [this]
        simp [h90, h105]
  · intro i hi
    rw [hcnt] at hi
    rw [z3 i hi]
    by_cases h90 : i = 90
    · subst h90
      rw [if_pos rfl, s1]
      refine ⟨rfl, fun _ => ?_⟩
      show (h0.chunks (0x10000000 + 0)).prev = 0 ∧ (h0.chunks (0x10000000 + 0)).next = 0
      exact ⟨s2, s3⟩
    · rw [if_neg h90]
      have := (rest i (by show i < 105; omega) (by
        intro e1 he1
        rw [List.mem_singleton.1 he1, z5]
        exact fun c => h90 c.symm)).1
      exact ⟨this, fun c => absurd this c⟩
  · intro k hk
    rw [bf k hk, if_pos (z4 k hk)]
    show _ = if k < 7 then _ else _
    rw [if_pos hk]

/-- The calls `heap_alloc (h, 0x10F10)` on the heap of 256 MiB at `0x10000000`: the first `8 * k` of them
return the blocks of 128 KiB from the top of the heap down. -/
theorem drain_steps (h0 : heap) (v0 : SameLists h0 (drained 0)) :
    ∀ k, k ≤ 256 →
      ∃ hk, run h0 (List.replicate (8 * k) (Call.alloc 0x10F10))
          = some (hk, (List.range (8 * k)).map (fun i => 0x20000000 - 0x20000 * (i + 1))) ∧
        SameLists hk (drained k) := by
  intro k
  induction k with
  | zero =>
    intro _
    exact ⟨h0, rfl, v0⟩
  | succ k ih =>
    intro hk
    obtain ⟨h1, e1, v1⟩ := ih (by omega)
    obtain ⟨r, er, pr, vr⟩ := segment_ok_spec k (segment_table k (by omega))
    obtain ⟨h2, e2, v2⟩ := run_alone_same 0x10F10 8 h1 (drained k) r v1 er
    refine ⟨h2, ?_, sameLists_trans v2 vr⟩
    rw [show 8 * (k + 1) = 8 * k + 8 by omega, List.replicate_add, run_append, e1,
      Option.some_bind]
    dsimp only
    rw [e2, Option.some_bind, pr, List.range_add, List.map_append, List.map_map]
    rfl

/-- On the heap that `heap_create` returns for 256 MiB at `0x10000000`, 2048 calls
`heap_alloc (h, 0x10F10)` in a row return the blocks of 128 KiB from the top of the heap
down to its base, and every further call returns `NULL`. -/
theorem drain_all (junk : Nat → Nat) (region : Nat → chunk) :
    ∃ h0 h, heap_create junk region 0x10000000 0x10000000 = some (some h0) ∧
      run h0 (List.replicate 2048 (Call.alloc 0x10F10))
        = some (h, (List.range 2048).map (fun i => 0x20000000 - 0x20000 * (i + 1))) ∧
      heap_alloc h 0x10F10 = some (h, 0) := by
  obtain ⟨h0, e0, v0⟩ := created_like_drained junk region
  obtain ⟨h, e, v⟩ := drain_steps h0 v0 256 (le_refl _)
  refine ⟨h0, h, e0, e, ?_⟩
  apply heap_alloc_null h 0x10F10 (by decide)
  rw [sameLists_scan v]
  exact drained_full

/-- C21, as stated, fails: on the heap of 256 MiB at `0x10000000` the call number 2049 of
`heap_alloc (h, 16 * 4096 + 15 * 256 + 16)` returns `NULL` (the 2048 calls before it return
the blocks of 128 KiB from the top of the heap down), and 2049 is far below the quotient
`0x10000000 / (16 * 4096 + 15 * 256 + 16) = 3868`. -/
theorem heap_alloc_full_before_quotient :
    ∃ h0, create_heap 0x10000000 0x10000000 = some h0 ∧
      (run h0 (List.replicate 2049 (Call.alloc (16 * 4096 + 15 * 256 + 16)))).map
          (fun r => r.2)
        = some ((List.range 2048).map (fun i => 0x20000000 - 0x20000 * (i + 1)) ++ [0]) ∧
      0x10000000 / (16 * 4096 + 15 * 256 + 16) = 3868 := by
  obtain ⟨h0, h, e0, e, en⟩ := drain_all no_junk no_links
  have hsz : 16 * 4096 + 15 * 256 + 16 = 0x10F10 := by norm_num
  refine ⟨h0, ?_, ?_, by norm_num⟩
  · unfold create_heap
    rw [e0]
    rfl
  · rw [hsz, show 2049 = 2048 + 1 by norm_num, List.replicate_add, run_append, e,
      Option.some_bind]
    dsimp only
    rw [show List.replicate 1 (Call.alloc 0x10F10) = [Call.alloc 0x10F10] from rfl, run, en,
      Option.some_bind]
    rfl

/-- C21, amended. On the heap that `heap_create` returns for 256 MiB at `0x10000000`, whatever the
region and the bookkeeping buffer hold before, exactly 2048 calls
`heap_alloc (h, 16 * 4096 + 15 * 256 + 16)` in a row return a block: call `i` (from 0)
returns `0x20000000 - 0x20000 * (i + 1)`, the blocks of 128 KiB from the top of the heap
down to its base, none of them `NULL`; every further call returns `NULL` and leaves the
heap as it is.  The count is that of `test_alloc_all`: 8 blocks in each of the 256 MiB. -/
theorem heap_alloc_until_full (junk : Nat → Nat) (region : Nat → chunk) :
    ∃ h0 h, heap_create junk region 0x10000000 0x10000000 = some (some h0) ∧
      run h0 (List.replicate 2048 (Call.alloc (16 * 4096 + 15 * 256 + 16)))
        = some (h, (List.range 2048).map (fun i => 0x20000000 - 0x20000 * (i + 1))) ∧
      (∀ i, i < 2048 → 0x20000000 - 0x20000 * (i + 1) ≠ 0) ∧
      heap_alloc h (16 * 4096 + 15 * 256 + 16) = some (h, 0) ∧
      (0x100000 / 0x20000) * (0x10000000 / 0x100000) = 2048 := by
  obtain ⟨h0, h, e0, e, en⟩ := drain_all junk region
  have hsz : 16 * 4096 + 15 * 256 + 16 = 0x10F10 := by norm_num
  rw [hsz]
  exact ⟨h0, h, e0, e, fun i hi => by omega, en, by norm_num⟩

/-! ## The level at which the walks of `heap_get_alloc_size` and `heap_free` start -/

theorem ctzAux_dvd (fuel : Nat) : ∀ x, x ≠ 0 →
    x % 2 ^ ctzAux fuel x = 0 ∧ (ctzAux fuel x < fuel → x % 2 ^ (ctzAux fuel x + 1) ≠ 0) := by
  induction fuel with
  | zero =>
    intro x _
    refine ⟨?_, fun c => absurd c (Nat.lt_irrefl _)⟩
    show x % 2 ^ 0 = 0
    omega
  | succ f ih =>
    intro x hx
    unfold ctzAux
    by_cases h1 : x % 2 = 1
    · rw [if_pos h1]
      refine ⟨by omega, fun _ => ?_⟩
      show x % 2 ^ 1 ≠ 0
      omega
    · rw [if_neg h1]
      have hx2 : x / 2 ≠ 0 := by omega
      obtain ⟨i1, i2⟩ := ih (x / 2) hx2
      have ex : x = 2 * (x / 2) := by omega
      have step : ∀ t, x % 2 ^ (t + 1) = 2 * (x / 2 % 2 ^ t) := by
        intro t
        rw [Nat.pow_succ, Nat.mul_comm (2 ^ t) 2]
        conv_lhs => rw [ex]
        exact Nat.mul_mod_mul_left 2 (x / 2) (2 ^ t)
      constructor
      · rw [Nat.add_comm 1, step, i1]
      · intro hlt
        rw [Nat.add_comm 1, step]
        have := i2 (by omega)
        omega

/-- The count `CTZ` of a word that is not zero: the largest power of two that divides it. -/
theorem ctz_spec (a : Nat) (h0 : a ≠ 0) (h32 : a < 2 ^ 32) :
    a % 2 ^ CTZ a = 0 ∧ a % 2 ^ (CTZ a + 1) ≠ 0 ∧ CTZ a ≤ 31 := by
  unfold CTZ
  rw [if_neg h0]
  obtain ⟨d1, d2⟩ := ctzAux_dvd 32 a h0
  have le := ctzAux_le 32 a
  have lt : ctzAux 32 a < 32 := by
    by_contra hc
    have e : ctzAux 32 a = 32 := by omega
    rw [e] at d1
    omega
  exact ⟨d1, d2 lt, by omega⟩

/-- An address is a multiple of `16 ^ (j + 1)` exactly when the level at which the walks start is
`j` or above. -/
theorem start_level (a j : Nat) (h0 : a ≠ 0) (h32 : a < 2 ^ 32) (h16 : a % 16 = 0) :
    sub32 (CTZ a >>> 2) 1 ≤ 6 ∧ sub32 (CTZ a >>> 2) 1 = CTZ a / 4 - 1 ∧ 4 ≤ CTZ a ∧
      (a % 16 ^ (j + 1) = 0 ↔ j ≤ sub32 (CTZ a >>> 2) 1) := by
  obtain ⟨d1, d2, d3⟩ := ctz_spec a h0 h32
  have c4 : 4 ≤ CTZ a := by
    by_contra hc
    have dv : 2 ^ (CTZ a + 1) ∣ 2 ^ 4 := Nat.pow_dvd_pow 2 (by omega)
    have : 2 ^ (CTZ a + 1) ∣ a := dv.trans (Nat.dvd_of_mod_eq_zero h16)
    exact d2 (Nat.mod_eq_zero_of_dvd this)
  have e : sub32 (CTZ a >>> 2) 1 = CTZ a / 4 - 1 := by
    unfold sub32
    rw [Nat.shiftRight_eq_div_pow]
    omega
  refine ⟨by rw [e]; omega, e, c4, ?_⟩
  rw [e]
  have p16 : 16 ^ (j + 1) = 2 ^ (4 * (j + 1)) := by rw [Nat.pow_mul]
  constructor
  · intro hm
    by_contra hc
    have dv : 2 ^ (CTZ a + 1) ∣ 2 ^ (4 * (j + 1)) := Nat.pow_dvd_pow 2 (by omega)
    rw [← p16] at dv
    exact d2 (Nat.mod_eq_zero_of_dvd (dv.trans (Nat.dvd_of_mod_eq_zero hm)))
  · intro hj
    have dv : 2 ^ (4 * (j + 1)) ∣ 2 ^ CTZ a := Nat.pow_dvd_pow 2 (by omega)
    rw [← p16] at dv
    exact Nat.mod_eq_zero_of_dvd (dv.trans (Nat.dvd_of_mod_eq_zero d1))

theorem chunk_status_null (h : heap) (lvl idx : Nat) (hb : h.bitfield lvl = none) :
    heap_chunk_status h lvl idx = none := by
  unfold heap_chunk_status bitfield_at
  rw [hb]
  split <;> rfl

theorem alloc_size_find_head_null (h : heap) (reladdr lvl shift : Nat)
    (hb : h.bitfield lvl = none) : alloc_size_find_head h reladdr lvl shift = none := by
  cases lvl with
  | zero =>
    rw [alloc_size_find_head, chunk_status_null h 0 _ hb]
    rfl
  | succ l =>
    rw [alloc_size_find_head, chunk_status_null h (l + 1) _ hb]
    rfl

theorem heap_free_find_head_null (h : heap) (reladdr lvl shift : Nat)
    (hb : h.bitfield lvl = none) : heap_free_find_head h reladdr lvl shift = none := by
  cases lvl with
  | zero =>
    rw [heap_free_find_head, chunk_status_null h 0 _ hb]
    rfl
  | succ l =>
    rw [heap_free_find_head, chunk_status_null h (l + 1) _ hb]
    rfl

/-- The walk of `heap_get_alloc_size` reads through `h->bitfield[lvl]` at the level it starts at: when
that pointer is `NULL`, the call has no result. -/
theorem heap_get_alloc_size_null (h : heap) (a : Nat) (h0 : a ≠ 0) (in1 : h.hdata ≤ a)
    (in2 : a < h.hdata + h.hsize) (h16 : a % 16 = 0)
    (hb : h.bitfield (sub32 (CTZ a >>> 2) 1) = none) : heap_get_alloc_size h a = none := by
  have hm : a &&& 0x0F = a % 16 := Nat.and_pow_two_sub_one_eq_mod a 4
  have hc : ctz_checked a = some (CTZ a) := by
    unfold ctz_checked
    rw [if_neg h0]
  unfold heap_get_alloc_size
  rw [if_neg (by rw [hm]; omega)]
  dsimp only
  rw [hc, Option.some_bind]
  split
  · rfl
  · rw [alloc_size_find_head_null h _ _ _ hb]
    rfl

/-- The walk of `heap_free` reads through `h->bitfield[lvl]` at the level it starts at: when that
pointer is `NULL`, the call has no result. -/
theorem heap_free_null (h : heap) (a : Nat) (h0 : a ≠ 0) (in1 : h.hdata ≤ a)
    (in2 : a < h.hdata + h.hsize) (h16 : a % 16 = 0)
    (hb : h.bitfield (sub32 (CTZ a >>> 2) 1) = none) : heap_free h a = none := by
  have hm : a &&& 0x0F = a % 16 := Nat.and_pow_two_sub_one_eq_mod a 4
  have hc : ctz_checked a = some (CTZ a) := by
    unfold ctz_checked
    rw [if_neg h0]
  unfold heap_free
  dsimp only
  rw [if_neg (by rw [hm]; omega)]
  rw [hc, Option.some_bind]
  split
  · rfl
  · rw [heap_free_find_head_null h _ _ _ hb]
    rfl

/-- The heap that `heap_create` returns for a size between `16 ^ j` and `16 ^ (j + 1)`: it has `j`
levels, and the pointers to the bitfields of the levels from `j` on are `NULL`. -/
theorem heap_create_shape (junk : Nat → Nat) (region : Nat → chunk) (address size j : Nat)
    (hj : 1 ≤ j) (hj7 : j ≤ 7) (b1 : 16 ^ j ≤ size) (b2 : size < 16 ^ (j + 1))
    (h16 : size % 16 = 0) (hmax : size ≤ 0xF0000000) (ha : address % 16 ^ j = 0)
    (ha0 : address ≠ 0) (hfit : address + size ≤ 2 ^ 32) :
    ∃ h, heap_create junk region address size = some (some h) ∧ h.bscnt = j ∧
      h.hdata = address ∧ h.hsize = size ∧
      ∀ k, k < 7 → (h.bitfield k = none ↔ j ≤ k) := by
  have hs : size < 2 ^ 32 := by omega
  obtain ⟨h, L, e, _, _⟩ :=
    heap_create_greedy junk region address size j hj hj7 b1 b2 h16 hmax ha ha0 hfit
  obtain ⟨lo, hi, st⟩ := heap_create_contents junk region address size hs (some h) e h rfl
  obtain ⟨bf, _⟩ := heap_create_bitfield junk region address size (some h) e h rfl
  obtain ⟨_, _, _, _, _, _, _, _, r1, r2, _, _⟩ :=
    heap_create_registry junk region address size hs (some h) e h rfl
  have nz : ∀ k, k < 7 → (needed_bitfield_count size k ≠ 0 ↔ k < j) := by
    intro k hk
    rw [(st k hk).1, ← level_count size j k hj hj7 b1 b2 hk]
    generalize size / 16 ^ (k + 1) = c
    omega
  refine ⟨h, e, ?_, r1, r2, ?_⟩
  · have l1 := lo (j - 1) (by omega) ((nz (j - 1) (by omega)).2 (by omega))
    rcases hi with h0 | ⟨i, i7, ne, hb⟩
    · omega
    · have := (nz i i7).1 ne
      omega
  · intro k hk
    rw [bf k hk]
    by_cases c : k < j
    · rw [if_pos ((nz k hk).2 c)]
      constructor
      · intro x
        cases x
      · intro x
        omega
    · rw [if_neg (fun x => c ((nz k hk).1 x))]
      constructor
      · intro _
        omega
      · intro _
        rfl

/-- C32.  The claim fails on every heap below 256 MiB.  On the heap that `heap_create` returns for a
size between `16 ^ j` and `16 ^ (j + 1)`, `j ≤ 6`, which has the levels `0` to `j - 1`, take
an address of the region that is a multiple of 16.  The walks of `heap_get_alloc_size` and
`heap_free` start at the level `(CTZ (address) >> 2) - 1`, which is at most 6.  That level
is below `bscnt` exactly when the address is not a multiple of `16 ^ (j + 1)`.  At a multiple
of `16 ^ (j + 1)`, such as the base of a heap aligned more strictly than required, the level
is `bscnt` or above, `h->bitfield[level]` is `NULL`, and both functions read through it: they
have no defined result. -/
theorem level_walk_above_bscnt (junk : Nat → Nat) (region : Nat → chunk) (address size j a : Nat)
    (hj : 1 ≤ j) (hj6 : j ≤ 6) (b1 : 16 ^ j ≤ size) (b2 : size < 16 ^ (j + 1))
    (h16 : size % 16 = 0) (ha : address % 16 ^ j = 0) (ha0 : address ≠ 0)
    (hfit : address + size ≤ 2 ^ 32) (in1 : address ≤ a) (in2 : a < address + size)
    (al : a % 16 = 0) :
    ∃ h, heap_create junk region address size = some (some h) ∧ h.bscnt = j ∧
      sub32 (CTZ a >>> 2) 1 ≤ 6 ∧
      (sub32 (CTZ a >>> 2) 1 < h.bscnt ↔ a % 16 ^ (j + 1) ≠ 0) ∧
      (a % 16 ^ (j + 1) = 0 →
        h.bitfield (sub32 (CTZ a >>> 2) 1) = none ∧ heap_get_alloc_size h a = none ∧
          heap_free h a = none) := by
  have hmax : size ≤ 0xF0000000 := by
    have : 16 ^ (j + 1) ≤ 16 ^ 7 := Nat.pow_le_pow_right (by decide) (by omega)
    have : (16 : Nat) ^ 7 = 0x10000000 := by norm_num
    omega
  obtain ⟨h, e, hb, hd, hsz, bf⟩ :=
    heap_create_shape junk region address size j hj (by omega) b1 b2 h16 hmax ha ha0 hfit
  have a0 : a ≠ 0 := by omega
  obtain ⟨l6, _, _, lv⟩ := start_level a j a0 (by omega) al
  refine ⟨h, e, hb, l6, ?_, ?_⟩
  · rw [hb, ne_eq, lv]
    omega
  · intro hm
    have hn : h.bitfield (sub32 (CTZ a >>> 2) 1) = none :=
      (bf _ (by omega)).2 (lv.1 hm)
    exact ⟨hn, heap_get_alloc_size_null h a a0 (by omega) (by omega) al hn,
      heap_free_null h a a0 (by omega) (by omega) al hn⟩

theorem level_walk_above_bscnt_witness :
    ∃ h, heap_create no_junk no_links 0x10000 0x4800 = some (some h) ∧ h.bscnt = 3 ∧
      sub32 (CTZ 0x10000 >>> 2) 1 ≤ 6 ∧
      (sub32 (CTZ 0x10000 >>> 2) 1 < h.bscnt ↔ 0x10000 % 16 ^ (3 + 1) ≠ 0) ∧
      (0x10000 % 16 ^ (3 + 1) = 0 →
        h.bitfield (sub32 (CTZ 0x10000 >>> 2) 1) = none ∧
          heap_get_alloc_size h 0x10000 = none ∧ heap_free h 0x10000 = none) :=
  level_walk_above_bscnt no_junk no_links 0x10000 0x4800 3 0x10000 (by decide) (by decide)
    (by decide) (by decide) (by decide) (by decide) (by decide) (by decide) (by decide)
    (by decide) (by decide)

/-! ## One allocation and its release: theorems -/

theorem same_metadata_sound {h0 h : heap} (e : same_metadata h0 h = true) :
    (∀ w, w < h0.bfcnt → h.bfmem w = h0.bfmem w) ∧ (∀ i, i < h0.hdcnt → h.heads i = h0.heads i) ∧
      ∀ w, w < HEADS_BITS_SIZE → h.headsbits w = h0.headsbits w := by
  unfold same_metadata at e
  rw [Bool.and_eq_true, Bool.and_eq_true, List.all_eq_true, List.all_eq_true,
    List.all_eq_true] at e
  obtain ⟨⟨e1, e2⟩, e3⟩ := e
  exact ⟨fun w hw => beq_iff_eq.1 (e1 w (List.mem_range.2 hw)),
    fun i hi => beq_iff_eq.1 (e2 i (List.mem_range.2 hi)),
    fun w hw => beq_iff_eq.1 (e3 w (List.mem_range.2 hw))⟩

/-- On the heap that `heap_create` returns for a class size, `heap_alloc` of the full size returns
the base; the heap has the levels up to that of the class and no bitfield above. -/
theorem heap_create_alloc_whole (junk : Nat → Nat) (region : Nat → chunk) (address k m : Nat)
    (hk : k ≤ 6) (hm1 : 1 ≤ m) (hm15 : m ≤ 15) (ha0 : address ≠ 0)
    (hal : address % 16 ^ (k + 1) = 0) (hfit : address + m * 16 ^ (k + 1) ≤ 2 ^ 32) :
    ∃ h h1, heap_create junk region address (m * 16 ^ (k + 1)) = some (some h) ∧
      heap_alloc h (m * 16 ^ (k + 1)) = some (h1, address) ∧ h.bscnt = k + 1 ∧
      h.hdata = address ∧ h.hsize = m * 16 ^ (k + 1) ∧
      ∀ i, i < 7 → (h.bitfield i = none ↔ k + 1 ≤ i) := by
  have hcls : IsClass (m * 16 ^ (k + 1)) := ⟨k, m, hk, hm1, hm15, rfl⟩
  have hpos : 0 < 16 ^ (k + 1) := pow_pos (by decide) _
  have b1 : 16 ^ (k + 1) ≤ m * 16 ^ (k + 1) := Nat.le_mul_of_pos_left _ (by omega)
  have b2 : m * 16 ^ (k + 1) < 16 ^ (k + 1 + 1) := by
    rw [Nat.pow_succ 16 (k + 1), Nat.mul_comm (16 ^ (k + 1)) 16]
    exact Nat.mul_lt_mul_of_pos_right (by omega) hpos
  have h16 : (m * 16 ^ (k + 1)) % 16 = 0 := by
    rw [Nat.pow_succ, ← Nat.mul_assoc]
    exact Nat.mul_mod_left _ _
  have hmax : m * 16 ^ (k + 1) ≤ 0xF0000000 := by
    have : 16 ^ (k + 1) ≤ 16 ^ 7 := Nat.pow_le_pow_right (by decide) (by omega)
    have := Nat.mul_le_mul hm15 this
    omega
  have hdiv : m * 16 ^ (k + 1) / 16 ^ (k + 1) = m := Nat.mul_div_cancel _ hpos
  obtain ⟨h, hc, sc, sd, ss, sb⟩ :=
    heap_create_shape junk region address (m * 16 ^ (k + 1)) (k + 1) (by omega) (by omega)
      b1 b2 h16 hmax hal ha0 hfit
  obtain ⟨h2, L, hc2, hg, hseed⟩ :=
    heap_create_greedy junk region address (m * 16 ^ (k + 1)) (k + 1) (by omega) (by omega)
      b1 b2 h16 hmax hal ha0 hfit
  have same : h2 = h := Option.some.inj (Option.some.inj (hc2.symm.trans hc))
  subst same
  have hL : L = [(0, m * 16 ^ (k + 1))] := by
    apply greedy_unique hg
    apply Greedy.step 0 _ _ [] ⟨hcls, le_refl _, fun s _ hs => hs⟩
    rw [Nat.sub_self]
    exact Greedy.done _
  subst hL
  obtain ⟨e1, _, e3, e4⟩ := hseed.1 _ (List.mem_singleton.2 rfl)
  dsimp only at e1 e3 e4
  rw [(class_index_table k (by omega) m (by omega) hm1).2] at e1 e4
  obtain ⟨j, hj, hj7, c1, c2, _, _, _, r1, r2, r3, _⟩ :=
    heap_create_registry junk region address (m * 16 ^ (k + 1)) (by omega) _ hc h2 rfl
  have hjk : j = k + 1 := by
    have a1 : k + 1 < j + 1 := pow16_lt _ _ (by omega)
    have a2 : j < k + 1 + 1 := pow16_lt _ _ (by omega)
    omega
  subst hjk
  rw [hdiv, Nat.add_sub_cancel] at r3
  obtain ⟨bf, bcnt⟩ := heap_create_bitfield junk region address (m * 16 ^ (k + 1)) _ hc h2 rfl
  have hn : needed_bitfield_count (m * 16 ^ (k + 1)) k = 1 := by
    unfold needed_bitfield_count
    dsimp only
    rw [show (k + 1) <<< 2 = 4 * (k + 1) by rw [Nat.shiftLeft_eq]; omega,
      (class_alloc_table k (by omega) m (by omega) hm1).2.2.1]
    unfold add32
    rw [Nat.mod_eq_of_lt (by omega), Nat.shiftRight_eq_div_pow]
    omega
  have hbk := bf k (by omega)
  rw [hn, if_pos (by decide)] at hbk
  have hstep := (total_upto_step (m * 16 ^ (k + 1)) k (by omega)).2 (by omega)
  have hmono := total_upto_mono (m * 16 ^ (k + 1)) (7 - (k + 1)) (k + 1) (by omega)
  rw [show k + 1 + (7 - (k + 1)) = 7 by omega] at hmono
  obtain ⟨h1, ha⟩ := heap_alloc_whole h2 address k m _ (by omega) hm1 (by omega) ha0 r1 r2 r3
    e4 (by rw [e1]; rfl) (by rw [← Nat.add_zero address]; exact e3) hbk
    (by rw [bcnt]; omega) hfit
  exact ⟨h2, h1, hc, ha, sc, sd, ss, sb⟩

/-- From the requests that are multiples of 16 to all requests: `heap_alloc` rounds its argument. -/
theorem cycle_restored_at (address size : Nat) (hsz : size ≤ 0xFFFFFFF0) (h16 : size % 16 = 0)
    (tab : ∀ q, q < size / 16 + 1 → 1 ≤ q →
      ((create_heap address size).bind fun h =>
        (heap_alloc h (16 * q)).bind fun r =>
          (heap_free r.1 r.2).map fun h2 => (r.2 != 0, same_metadata h h2)) = some (true, true))
    (h : heap) (hc : create_heap address size = some h) (n : Nat) (hn1 : 1 ≤ n)
    (hn2 : n ≤ size) :
    ∃ h1 p h2, heap_alloc h n = some (h1, p) ∧ p ≠ 0 ∧ heap_free h1 p = some h2 ∧
      (∀ w, w < h.bfcnt → h2.bfmem w = h.bfmem w) ∧ (∀ i, i < h.hdcnt → h2.heads i = h.heads i) ∧
      ∀ w, w < HEADS_BITS_SIZE → h2.headsbits w = h.headsbits w := by
  rw [heap_alloc_rounds h n hn1 (by omega)]
  have hq : round_up_to_16 n = 16 * ((n + 15) / 16) := by unfold round_up_to_16; omega
  rw [hq]
  have t := tab ((n + 15) / 16) (by omega) (by omega)
  rw [hc] at t
  rw [Option.some_bind] at t
  cases ha : heap_alloc h (16 * ((n + 15) / 16)) with
  | none => rw [ha] at t; cases t
  | some r =>
    obtain ⟨h1, p⟩ := r
    rw [ha, Option.some_bind] at t
    dsimp only at t
    cases hf : heap_free h1 p with
    | none => rw [hf] at t; cases t
    | some h2 =>
      rw [hf] at t
      simp only [Option.map_some', Option.some.injEq, Prod.mk.injEq] at t
      obtain ⟨t1, t2⟩ := t
      refine ⟨h1, p, h2, rfl, ?_, hf, same_metadata_sound t2⟩
      intro h0
      rw [h0] at t1
      cases t1

set_option maxRecDepth 100000 in
theorem fresh_4k_restored : ∀ q, q < 0x1000 / 16 + 1 → 1 ≤ q →
    ((create_heap 0x1000 0x1000).bind fun h =>
      (heap_alloc h (16 * q)).bind fun r =>
        (heap_free r.1 r.2).map fun h2 => (r.2 != 0, same_metadata h h2)) = some (true, true) := by
  decide!

set_option maxRecDepth 100000 in
theorem fresh_768_restored : ∀ q, q < 0x300 / 16 + 1 → 1 ≤ q →
    ((create_heap 0x100 0x300).bind fun h =>
      (heap_alloc h (16 * q)).bind fun r =>
        (heap_free r.1 r.2).map fun h2 => (r.2 != 0, same_metadata h h2)) = some (true, true) := by
  decide!

/-- C31.  The claim fails on the heaps whose base is aligned more strictly than their size requires.
For every class `m * 16 ^ (k + 1)` below 256 MiB and every base that is a multiple of
`16 ^ (k + 2)`, `heap_alloc (h, size)` on the heap that `heap_create` returns gives the
base, and `heap_free` of that pointer starts its walk at a level whose bitfield pointer is
`NULL`: it has no defined result, and nothing is restored.  The same happens on the heap
of `0x3000` bytes at `0xF000`, whose base has just the alignment required, for the request
of `0x2000` bytes, which is served at `0x10000`.  On the heap of 4096 bytes at `0x1000` and
on the heap of `0x300` bytes at `0x100` the claim holds: for every `n` from 1 to the size
the pointer is not `NULL`, and after `heap_free` every word of the bitfields, every list
head and every occupancy word is what it was in the heap that `heap_create` returned. -/
theorem heap_free_after_alloc_whole :
    (∀ (junk : Nat → Nat) (region : Nat → chunk) (address k m : Nat), k ≤ 5 → 1 ≤ m → m ≤ 15 →
      address ≠ 0 → address % 16 ^ (k + 2) = 0 → address + m * 16 ^ (k + 1) ≤ 2 ^ 32 →
      ∃ h h1, heap_create junk region address (m * 16 ^ (k + 1)) = some (some h) ∧
        heap_alloc h (m * 16 ^ (k + 1)) = some (h1, address) ∧
        h1.bitfield (sub32 (CTZ address >>> 2) 1) = none ∧ heap_free h1 address = none) ∧
    ((create_heap 0xF000 0x3000).bind fun h =>
      (heap_alloc h 0x2000).map fun r => (r.2, (heap_free r.1 r.2).isNone))
      = some (0x10000, true) ∧
    (∀ h : heap, create_heap 0x1000 0x1000 = some h → ∀ n, 1 ≤ n → n ≤ 0x1000 →
      ∃ h1 p h2, heap_alloc h n = some (h1, p) ∧ p ≠ 0 ∧ heap_free h1 p = some h2 ∧
        (∀ w, w < h.bfcnt → h2.bfmem w = h.bfmem w) ∧
        (∀ i, i < h.hdcnt → h2.heads i = h.heads i) ∧
        ∀ w, w < HEADS_BITS_SIZE → h2.headsbits w = h.headsbits w) ∧
    (∀ h : heap, create_heap 0x100 0x300 = some h → ∀ n, 1 ≤ n → n ≤ 0x300 →
      ∃ h1 p h2, heap_alloc h n = some (h1, p) ∧ p ≠ 0 ∧ heap_free h1 p = some h2 ∧
        (∀ w, w < h.bfcnt → h2.bfmem w = h.bfmem w) ∧
        (∀ i, i < h.hdcnt → h2.heads i = h.heads i) ∧
        ∀ w, w < HEADS_BITS_SIZE → h2.headsbits w = h.headsbits w) := by
  refine ⟨?_, ?_, cycle_restored_at 0x1000 0x1000 (by decide) (by decide) fresh_4k_restored,
    cycle_restored_at 0x100 0x300 (by decide) (by decide) fresh_768_restored⟩
  · intro junk region address k m hk hm1 hm15 ha0 hal hfit
    have hpos : 0 < 16 ^ (k + 1) := pow_pos (by decide) _
    have hal1 : address % 16 ^ (k + 1) = 0 := by
      have dv : 16 ^ (k + 1) ∣ 16 ^ (k + 2) := Nat.pow_dvd_pow 16 (by omega)
      exact Nat.mod_eq_zero_of_dvd (dv.trans (Nat.dvd_of_mod_eq_zero hal))
    have h16 : address % 16 = 0 := by
      have dv : 16 ^ 1 ∣ 16 ^ (k + 2) := Nat.pow_dvd_pow 16 (by omega)
      exact Nat.mod_eq_zero_of_dvd (dv.trans (Nat.dvd_of_mod_eq_zero hal))
    obtain ⟨h, h1, hc, ha, _, sd, ss, sb⟩ :=
      heap_create_alloc_whole junk region address k m (by omega) hm1 hm15 ha0 hal1 hfit
    obtain ⟨⟨k1, k2, k3, _, _, _⟩, _⟩ := heap_alloc_keeps h _ _ ha
    have k1 : h1.bitfield = h.bitfield := k1
    have k2 : h1.hdata = h.hdata := k2
    have k3 : h1.hsize = h.hsize := k3
    have hsz : 0 < m * 16 ^ (k + 1) := Nat.mul_pos (by omega) hpos
    obtain ⟨l6, _, _, lv⟩ := start_level address (k + 1) ha0 (by omega) h16
    have hn : h1.bitfield (sub32 (CTZ address >>> 2) 1) = none := by
      rw [k1]
      exact (sb _ (by omega)).2 (lv.1 hal)
    refine ⟨h, h1, hc, ha, hn, ?_⟩
    apply heap_free_null h1 address ha0 (by rw [k2, sd]) _ h16 hn
    rw [k2, k3, sd, ss]
    omega
  · decide!

theorem heap_free_after_alloc_whole_witness :
    ∃ h h1, heap_create no_junk no_links 0x10000 (1 * 16 ^ (2 + 1)) = some (some h) ∧
      heap_alloc h (1 * 16 ^ (2 + 1)) = some (h1, 0x10000) ∧
      h1.bitfield (sub32 (CTZ 0x10000 >>> 2) 1) = none ∧ heap_free h1 0x10000 = none :=
  heap_free_after_alloc_whole.1 no_junk no_links 0x10000 2 1 (by decide) (by decide)
    (by decide) (by decide) (by decide) (by decide)

end MCHeap
